import Mathlib

/-!
# gomsgprocessor: the parallel message processor

A shallow embedding of `parallerprocessor.go`, `deduplicatedocuments.go`, `option.go`,
`errors.go`, `entities.go`, `message.go` and of the data types and the deduplication strategy
of `examples/main.go`, followed by theorems about `MakeDocuments`.

Modelling choices.

* A Go slice is `Slice α`: either `nil` or a (possibly empty) backed list, because the code
  tests `documents == nil` and the callers test the returned list against `nil`.
* A Go `(value, error)` result is kept as a pair of fields, the error being `Option Error`
  (`none` is the nil error), so that "no documents together with an error" is a statement about
  the code and not about a type.
* `errors.E` of foundationkit (an external library) is modelled as the record of the
  arguments it was given; `GetCode` returns the outermost non-empty code.
* The goroutines of the `errgroup` are run one at a time, in an order chosen by a scheduler
  (`Runtime.schedule`, any rearrangement of the tasks). The group keeps the first error a task
  returns and cancels the shared context from then on; a builder may observe the cancellation.
* For the property about interleavings the tasks are also run concurrently (`runInterleaved`):
  a task takes two actions, the ones at which it touches the state it shares with the other
  tasks: it calls its builder, which is given the shared context, and later it returns, which
  writes its result slot or has the group record its error. An interleaving is any arrangement
  of the actions of all the tasks that keeps the two actions of each task in their order.
  Running the tasks one at a time is the interleaving in which the two actions of each task
  are adjacent (`runTasks_eq_runInterleaved`).
* Go leaves the iteration order of a `range` over a map unspecified: the order is chosen by
  `Runtime.mapRange`, any rearrangement of the entries.
* Of `examples/main.go` the data types, the messages and the deduplication strategy are
  embedded. Its builder, which reads the clock for every document, is not: the properties of
  the strategy are stated for any builder.
* The side effects the properties speak about (calls of a builder, of the diagnostic hook
  `UpdateLogWithData` and of the deduplication function) are recorded as a list of events.
  Tracing spans and log lines are not modelled.
-/

namespace gomsgprocessor

/-! ## Data model -/

/-- Namespace is a logical separator used to group messages (`entities.go`). -/
abbrev Namespace := String

/-- MessageType selects the `DocumentBuilder` of a message (`entities.go`). -/
abbrev MessageType := String

/-- A Go slice: the nil slice, or a slice backed by a list of elements. -/
inductive Slice (α : Type) where
  | nil : Slice α
  | mk (elems : List α) : Slice α
  deriving DecidableEq, Repr

/-- The elements of a slice; the nil slice has none. -/
def Slice.toList {α : Type} : Slice α → List α
  | Slice.nil => []
  | Slice.mk elems => elems

/-- Go's `s == nil`. -/
def Slice.isNil {α : Type} : Slice α → Bool
  | Slice.nil => true
  | Slice.mk _ => false

/-- Go's `len(s)`. -/
def Slice.len {α : Type} (s : Slice α) : Nat := s.toList.length

/-- Go's `append(s, t...)`: appending no element returns `s` itself (a nil `s` stays nil),
appending at least one element returns a backed slice. -/
def Slice.append {α : Type} (s t : Slice α) : Slice α :=
  match t.toList with
  | [] => s
  | x :: xs => Slice.mk (s.toList ++ x :: xs)

/-- The operation name carried by an error of foundationkit (`errors.Op`); empty when unset. -/
abbrev Op := String

/-- The error code carried by an error of foundationkit (`errors.Code`); empty when unset. -/
abbrev Code := String

/-- A Go `error` value: made by `errors.New`, or by foundationkit's `errors.E`, which records
an operation, a code, key-value annotations and the wrapped error. -/
inductive Error where
  | New (text : String) : Error
  | E (op : Op) (code : Code) (kvs : List (String × String)) (err : Error) : Error
  deriving DecidableEq, Repr

/-- The empty code of foundationkit. -/
def CodeEmpty : Code := ""

/-- ErrCodeBuildDocuments of `errors.go`. -/
def ErrCodeBuildDocuments : Code := "FAILED_BUILD_DOCUMENTS"

/-- ErrCodeDeduplicateDocuments of `errors.go`. -/
def ErrCodeDeduplicateDocuments : Code := "FAILED_DEDUPLICATE_DOCUMENTS"

/-- ErrMsgTypeHasNoBuilder of `errors.go`. -/
def ErrMsgTypeHasNoBuilder : Error := Error.New "message type has no document builder"

/-- The code of an error as foundationkit's `errors.GetCode` reads it: the first non-empty
code met from the outermost wrapper inwards, the empty code when there is none. -/
def Error.code : Error → Code
  | Error.New _ => CodeEmpty
  | Error.E _ code _ err => if code = CodeEmpty then err.code else code

/-- foundationkit's `errors.GetCode`, on a possibly nil error. -/
def GetCode : Option Error → Code
  | none => CodeEmpty
  | some err => err.code

/-- Message is the input of `MakeDocuments` (`message.go`). The third method of the Go
interface, `UpdateLogWithData`, only has side effects and is recorded as an event. -/
class Message (M : Type) where
  GetNamespace : M → Namespace
  GetType : M → MessageType

/-- What a task can observe of its `context.Context`: whether it has been cancelled. -/
structure Context where
  cancelled : Bool
  deriving DecidableEq, Repr

/-- DocumentBuilder transforms a message into a slice of documents (`parallerprocessor.go`). -/
structure DocumentBuilder (M D : Type) where
  Build : Context → M → Slice D × Option Error

/-- DeduplicateDocumentsFunc of `deduplicatedocuments.go`. -/
abbrev DeduplicateDocumentsFunc (D : Type) := Slice D → Slice D × Option Error

/-- The default deduplication returns its argument unchanged and no error. -/
def defaultDeduplicateDocumentsFunc {D : Type} : DeduplicateDocumentsFunc D :=
  fun d => (d, none)

/-- The processor: a map from message type to builder (a lookup that may find nothing) and
the deduplication function. -/
structure parallelProcessor (M D : Type) where
  builders : MessageType → Option (DocumentBuilder M D)
  deduplicateDocuments : DeduplicateDocumentsFunc D

/-- Option configures the processor (`option.go`). -/
abbrev ProcessorOption (M D : Type) := parallelProcessor M D → parallelProcessor M D

/-- WithDeduplicateDocumentsOption sets the deduplication function. -/
def WithDeduplicateDocumentsOption {M D : Type} (d : DeduplicateDocumentsFunc D) :
    ProcessorOption M D :=
  fun p => { p with deduplicateDocuments := d }

/-- NewParallelProcessor starts from the default deduplication and applies the options in
order. -/
def NewParallelProcessor {M D : Type} (builders : MessageType → Option (DocumentBuilder M D))
    (opts : List (ProcessorOption M D)) : parallelProcessor M D :=
  opts.foldl (fun p opt => opt p)
    { builders := builders, deduplicateDocuments := defaultDeduplicateDocumentsFunc }

/-- An order left unspecified by the Go runtime (completion order of goroutines, iteration
order of a map): a rearrangement of the items. -/
structure Order (α : Type) where
  visit : List α → List α
  perm : ∀ l : List α, (visit l).Perm l

/-- The order that keeps the items as they are. -/
def Order.id {α : Type} : Order α := ⟨fun l => l, fun l => List.Perm.refl l⟩

/-- The order that reverses the items. -/
def Order.rev {α : Type} : Order α := ⟨fun l => l.reverse, fun l => List.reverse_perm l⟩

/-- The order that arranges the items as `steps`, when `steps` is a rearrangement of them. -/
def Order.arrange {α : Type} [DecidableEq α] (steps : List α) : Order α :=
  ⟨fun l => if l.Perm steps then steps else l, fun l => by
    by_cases h : l.Perm steps
    · simp only [h, if_true]
      exact h.symm
    · simp only [h, if_false]
      exact List.Perm.refl l⟩

/-- The observable side effects of a call of `MakeDocuments`: a call of the diagnostic hook
of the message at index `i`, a call of a builder on it, and a call of the deduplication
function on `docs` (the event also records the map key `ns` whose entry the loop is
visiting, which the function itself does not receive). -/
inductive Event (M D : Type) where
  | UpdateLogWithData (i : Nat) (msg : M) : Event M D
  | Build (i : Nat) (ctx : Context) (msg : M) : Event M D
  | deduplicateDocuments (ns : Namespace) (docs : Slice D) : Event M D

/-- The local type `builtDocument` of `parallelBuildDocumentsByNamespace`; the field `ns` is
the source's `namespace`. -/
structure builtDocument (D : Type) where
  documents : Slice D
  ns : Namespace

/-- The zero value of `builtDocument`, which `make` fills the result slots with. -/
def builtDocument.zero {D : Type} : builtDocument D := ⟨Slice.nil, ""⟩

/-- A Go `map[Namespace][]Document`, as the list of its entries. -/
abbrev GoMap (D : Type) := List (Namespace × Slice D)

/-- Reading `m[k]`: the zero value (the nil slice) when the key is absent. -/
def mapGet {D : Type} : GoMap D → Namespace → Slice D
  | [], _ => Slice.nil
  | (k', v) :: rest, k => if k' = k then v else mapGet rest k

/-- Writing `m[k] = v` in a Go map with string keys, held as the list of its entries:
replaces the entry of `k`, or adds one. -/
def mapSet {ν : Type} : List (String × ν) → String → ν → List (String × ν)
  | [], k, v => [(k, v)]
  | (k', v') :: rest, k, v => if k' = k then (k, v) :: rest else (k', v') :: mapSet rest k v

/-- The keys of a map. -/
def mapKeys {ν : Type} (m : List (String × ν)) : List String := m.map Prod.fst

/-! ## The build phase -/

/-- The state of the `errgroup` and of the result slots while the tasks run. -/
structure Group (M D : Type) where
  builtDocuments : List (builtDocument D)
  err : Option Error
  events : List (Event M D)

/-- Records an event. -/
def Group.emit {M D : Type} (g : Group M D) (e : Event M D) : Group M D :=
  { g with events := g.events ++ [e] }

/-- A task returned a non-nil error: the group keeps it if it is the first one. -/
def Group.fail {M D : Type} (g : Group M D) (e : Error) : Group M D :=
  { g with err := match g.err with
                  | some first => some first
                  | none => some e }

/-- The context the `errgroup` derives from the caller's: cancelled when the caller's is, or
as soon as a task has failed. -/
def Group.ctx {M D : Type} (g : Group M D) (ctx : Context) : Context :=
  ⟨ctx.cancelled || g.err.isSome⟩

/-- The function passed to `g.Go` for the message `msg` at index `i`. -/
def task {M D : Type} [Message M] (p : parallelProcessor M D) (ctx : Context)
    (g : Group M D) (t : Nat × M) : Group M D :=
  let i := t.1
  let msg := t.2
  match p.builders (Message.GetType msg) with
  | none =>
    (g.emit (Event.UpdateLogWithData i msg)).fail
      (Error.E "" CodeEmpty [("type", Message.GetType msg)] ErrMsgTypeHasNoBuilder)
  | some documentBuilder =>
    let g1 := g.emit (Event.Build i (g.ctx ctx) msg)
    match documentBuilder.Build (g.ctx ctx) msg with
    | (_, some err) => (g1.emit (Event.UpdateLogWithData i msg)).fail err
    | (Slice.nil, none) => g1.emit (Event.UpdateLogWithData i msg)
    | (Slice.mk elems, none) =>
      { g1 with builtDocuments :=
          g1.builtDocuments.set i ⟨Slice.mk elems, Message.GetNamespace msg⟩ }

/-- One step of the grouping loop over the result slots. -/
def groupStep {D : Type} (documentsByNamespace : GoMap D) (builtDoc : builtDocument D) :
    GoMap D :=
  if builtDoc.documents.isNil = true ∨ builtDoc.ns = "" then documentsByNamespace
  else mapSet documentsByNamespace builtDoc.ns
    ((mapGet documentsByNamespace builtDoc.ns).append builtDoc.documents)

/-- The result of `parallelBuildDocumentsByNamespace`, with the events of the tasks. -/
structure BuildResult (M D : Type) where
  documentsByNamespace : GoMap D
  err : Option Error
  events : List (Event M D)

/-- The state of the group after `g.Wait()`: every task has run, in the scheduler's order. -/
def runTasks {M D : Type} [Message M] (p : parallelProcessor M D)
    (schedule : Order (Nat × M)) (ctx : Context) (msgs : List M) : Group M D :=
  (schedule.visit msgs.enum).foldl (task p ctx)
    { builtDocuments := List.replicate msgs.length builtDocument.zero,
      err := none, events := [] }

/-- Builds the documents of every message and groups them by namespace. -/
def parallelBuildDocumentsByNamespace {M D : Type} [Message M] (p : parallelProcessor M D)
    (schedule : Order (Nat × M)) (ctx : Context) (msgs : List M) : BuildResult M D :=
  let g := runTasks p schedule ctx msgs
  match g.err with
  | some err =>
    { documentsByNamespace := [],
      err := some (Error.E "parallelBuildDocumentsByNamespace" CodeEmpty [] err),
      events := g.events }
  | none =>
    { documentsByNamespace := g.builtDocuments.foldl groupStep [],
      err := none, events := g.events }

/-! ## The build phase, with the actions of the tasks interleaved -/

/-- How far the task of one message has got. Between the start of the task and its return
there are two moments at which it touches the state it shares with the other tasks: the call
of the builder, which is given the shared context and may observe its cancellation, and the
return, at which the task writes its result slot or the group records its error. -/
inductive TaskPhase (D : Type) where
  | pending : TaskPhase D
  | called (documents : Slice D) (err : Option Error) : TaskPhase D
  | done : TaskPhase D

/-- The state shared by the tasks of a batch while they run concurrently: the result slots,
the first error of the `errgroup`, and the phase of every task. -/
structure Interleaved (D : Type) where
  phases : List (TaskPhase D)
  builtDocuments : List (builtDocument D)
  err : Option Error

/-- The context the `errgroup` derives from the caller's, in the shared state `st`. -/
def Interleaved.ctx {D : Type} (st : Interleaved D) (ctx : Context) : Context :=
  ⟨ctx.cancelled || st.err.isSome⟩

/-- The first action of the task of `msg` at index `i`: the lookup of the builder and the call
of `Build` with the shared context as it is at that moment. A message whose type has no
builder goes on with the error the task returns. -/
def callTask {M D : Type} [Message M] (p : parallelProcessor M D) (ctx : Context)
    (st : Interleaved D) (i : Nat) (msg : M) : Interleaved D :=
  match p.builders (Message.GetType msg) with
  | none =>
    { st with phases := st.phases.set i (TaskPhase.called Slice.nil
        (some (Error.E "" CodeEmpty [("type", Message.GetType msg)] ErrMsgTypeHasNoBuilder))) }
  | some documentBuilder =>
    let result := documentBuilder.Build (st.ctx ctx) msg
    { st with phases := st.phases.set i (TaskPhase.called result.1 result.2) }

/-- The second action of the task of `msg` at index `i`, with the result `(documents, err)`
of its first action: the group keeps the error if it is the first one, a nil result leaves
the slot as it is, and any other result is written at index `i`. -/
def returnTask {M D : Type} [Message M] (st : Interleaved D) (i : Nat) (msg : M)
    (documents : Slice D) (err : Option Error) : Interleaved D :=
  match err, documents with
  | some e, _ =>
    { st with phases := st.phases.set i TaskPhase.done,
              err := match st.err with
                     | some first => some first
                     | none => some e }
  | none, Slice.nil => { st with phases := st.phases.set i TaskPhase.done }
  | none, Slice.mk elems =>
    let builtDoc : builtDocument D := ⟨Slice.mk elems, Message.GetNamespace msg⟩
    { st with phases := st.phases.set i TaskPhase.done,
              builtDocuments := st.builtDocuments.set i builtDoc }

/-- One step of the concurrent execution: the task at index `i` takes its next action. A task
that has returned, and an index outside the batch, take none. -/
def stepTask {M D : Type} [Message M] (p : parallelProcessor M D) (ctx : Context)
    (msgs : List M) (st : Interleaved D) (i : Nat) : Interleaved D :=
  match msgs[i]? with
  | none => st
  | some msg =>
    match st.phases[i]? with
    | some TaskPhase.pending => callTask p ctx st i msg
    | some (TaskPhase.called documents err) => returnTask st i msg documents err
    | some TaskPhase.done => st
    | none => st

/-- The shared state after the tasks took their actions in the order `steps`, the k-th
occurrence of an index being the k-th action of its task. -/
def runSteps {M D : Type} [Message M] (p : parallelProcessor M D) (ctx : Context)
    (msgs : List M) (steps : List Nat) : Interleaved D :=
  steps.foldl (stepTask p ctx msgs)
    { phases := List.replicate msgs.length TaskPhase.pending,
      builtDocuments := List.replicate msgs.length builtDocument.zero,
      err := none }

/-- The actions of the tasks of a batch of `n` messages: two for each task. -/
def taskActions (n : Nat) : List Nat := List.range n ++ List.range n

/-- The shared state after `g.Wait()` when the actions of the tasks were interleaved as
`interleaving` arranges them. -/
def runInterleaved {M D : Type} [Message M] (p : parallelProcessor M D)
    (interleaving : Order Nat) (ctx : Context) (msgs : List M) : Interleaved D :=
  runSteps p ctx msgs (interleaving.visit (taskActions msgs.length))

/-- The grouping loop that follows `g.Wait()`, on the shared state the interleaved tasks left:
the namespace partitions `parallelBuildDocumentsByNamespace` returns, nothing if a task
failed. -/
def groupInterleaved {D : Type} (st : Interleaved D) : GoMap D :=
  match st.err with
  | some _ => []
  | none => st.builtDocuments.foldl groupStep []

/-! ## The deduplication phase -/

/-- The result of `deduplicateDocumentsForEachNamespace` and of `MakeDocuments`. -/
structure Result (M D : Type) where
  documents : Slice D
  err : Option Error
  events : List (Event M D)

/-- The loop of `deduplicateDocumentsForEachNamespace` over the entries still to visit. -/
def deduplicateLoop {M D : Type} (deduplicateDocuments : DeduplicateDocumentsFunc D) :
    List (Namespace × Slice D) → Slice D → List (Event M D) → Result M D
  | [], documents, events => ⟨documents, none, events⟩
  | (ns, docs) :: rest, documents, events =>
    match deduplicateDocuments docs with
    | (_, some err) =>
      ⟨Slice.nil, some (Error.E "deduplicateDocumentsForEachNamespace" CodeEmpty [] err),
        events ++ [Event.deduplicateDocuments ns docs]⟩
    | (deduplicatedDocuments, none) =>
      deduplicateLoop deduplicateDocuments rest (documents.append deduplicatedDocuments)
        (events ++ [Event.deduplicateDocuments ns docs])

/-- Deduplicates each namespace's documents and flattens the results. -/
def deduplicateDocumentsForEachNamespace {M D : Type} (p : parallelProcessor M D)
    (mapRange : Order (Namespace × Slice D)) (documentsByNamespace : GoMap D) : Result M D :=
  deduplicateLoop p.deduplicateDocuments (mapRange.visit documentsByNamespace) (Slice.mk []) []

/-! ## MakeDocuments -/

/-- The choices the Go runtime makes during one call. -/
structure Runtime (M D : Type) where
  schedule : Order (Nat × M)
  mapRange : Order (Namespace × Slice D)

/-- MakeDocuments builds, groups and deduplicates the documents of a batch. -/
def MakeDocuments {M D : Type} [Message M] (p : parallelProcessor M D) (rt : Runtime M D)
    (ctx : Context) (msgs : List M) : Result M D :=
  let built := parallelBuildDocumentsByNamespace p rt.schedule ctx msgs
  match built.err with
  | some err =>
    ⟨Slice.nil,
      some (Error.E "gomsgprocessor.parallelProcessor.MakeDocuments" ErrCodeBuildDocuments []
        err),
      built.events⟩
  | none =>
    let deduplicated := deduplicateDocumentsForEachNamespace p rt.mapRange
      built.documentsByNamespace
    match deduplicated.err with
    | some err =>
      ⟨Slice.nil,
        some (Error.E "gomsgprocessor.parallelProcessor.MakeDocuments"
          ErrCodeDeduplicateDocuments [] err),
        built.events ++ deduplicated.events⟩
    | none => ⟨deduplicated.documents, none, built.events ++ deduplicated.events⟩

/-! ## The example program (`examples/main.go`) -/

/-- ExampleMessage of `examples/main.go`. -/
structure ExampleMessage where
  ID : Int
  Name : String
  Age : Int
  City : String
  State : String
  ChildrenNames : List String
  Namespace : String
  deriving DecidableEq, Repr

instance ExampleMessage.instMessage : Message ExampleMessage :=
  ⟨fun e => e.Namespace, fun _ => "typeExample"⟩

/-- ExampleDocument of `examples/main.go`; `CreatedAt` is the time as a number. -/
structure ExampleDocument where
  ID : String
  CreatedAt : Nat
  ParentName : String
  ParentBirthYear : Int
  ChildName : String
  CityAndState : String
  Namespace : String
  deriving DecidableEq, Repr

/-- A document as the example program sees it, a value of the empty interface: an
`ExampleDocument`, or a value of some other type. -/
inductive AnyDocument where
  | ExampleDocument (d : ExampleDocument) : AnyDocument
  | other (description : String) : AnyDocument
  deriving DecidableEq, Repr

/-- The first loop of `ExampleDeduplicateDocuments`: casts every document, and stops at the
first one that is not an `ExampleDocument`. -/
def castDocuments : List AnyDocument → List ExampleDocument → Option (List ExampleDocument)
  | [], examplesDocuments => some examplesDocuments
  | AnyDocument.ExampleDocument d :: rest, examplesDocuments =>
    castDocuments rest (examplesDocuments ++ [d])
  | AnyDocument.other _ :: _, _ => none

/-- The second loop of `ExampleDeduplicateDocuments`: the map `documentsByID`, in which a
document replaces an earlier one with the same `ID`. -/
def documentsByID (examplesDocuments : List ExampleDocument) :
    List (String × ExampleDocument) :=
  examplesDocuments.foldl (fun m exampleDocument =>
    mapSet m exampleDocument.ID exampleDocument) []

/-- ExampleDeduplicateDocuments of `examples/main.go`: keeps one document per `ID`, the last
one written, and returns them in the iteration order of the map `documentsByID`. -/
def ExampleDeduplicateDocuments (mapRange : Order (String × ExampleDocument)) :
    DeduplicateDocumentsFunc AnyDocument :=
  fun documents =>
    match castDocuments documents.toList [] with
    | none => (Slice.nil, some (Error.New "failed to cast document"))
    | some examplesDocuments =>
      ((mapRange.visit (documentsByID examplesDocuments)).foldl
        (fun deduplicatedDocuments documentByID =>
          deduplicatedDocuments.append (Slice.mk [AnyDocument.ExampleDocument documentByID.2]))
        (Slice.mk []), none)

/-- The messages the example program feeds its processor. -/
def exampleMessages : List ExampleMessage :=
  [⟨1, "John", 30, "New York", "NY", ["John", "Jane", "Mary"], "namespace1"⟩,
    ⟨2, "Poul", 25, "New Jersey", "NY", [], "namespace1"⟩,
    ⟨3, "Chris", 35, "Washington", "DC", ["Bob"], "namespace1"⟩,
    ⟨3, "Chris", 35, "Washington", "DC", ["Bob"], "namespace2"⟩,
    ⟨1, "John", 30, "New York", "NY", ["John", "Jane", "Mary"], "namespace1"⟩]

/-! ## Notions used to state the properties -/

/-- The documents the builder of `msg` returns under the context `c`; nil when the type of
`msg` has no builder. -/
def builtDocs {M D : Type} [Message M] (p : parallelProcessor M D) (c : Context)
    (msg : M) : Slice D :=
  match p.builders (Message.GetType msg) with
  | none => Slice.nil
  | some documentBuilder => (documentBuilder.Build c msg).1

/-- The error the task of `msg` returns under the context `c`, if it fails. -/
def taskErr {M D : Type} [Message M] (p : parallelProcessor M D) (c : Context)
    (msg : M) : Option Error :=
  match p.builders (Message.GetType msg) with
  | none => some (Error.E "" CodeEmpty [("type", Message.GetType msg)] ErrMsgTypeHasNoBuilder)
  | some documentBuilder => (documentBuilder.Build c msg).2

/-- The builds of a batch all succeed: every message's type is registered and its builder
returns no error. -/
def buildsSucceed {M D : Type} [Message M] (p : parallelProcessor M D) (c : Context)
    (msgs : List M) : Prop :=
  ∀ msg ∈ msgs, ∃ b, p.builders (Message.GetType msg) = some b ∧ (b.Build c msg).2 = none

/-- The slice obtained by appending the elements `l` to a nil slice: nil when there is none. -/
def Slice.ofList {α : Type} : List α → Slice α
  | [] => Slice.nil
  | x :: xs => Slice.mk (x :: xs)

/-- The partition of the namespace `n`: the concatenation, in input order, of the document
lists built from the messages whose namespace is `n`. -/
def partition {M D : Type} [Message M] (p : parallelProcessor M D) (c : Context)
    (msgs : List M) (n : Namespace) : List D :=
  (msgs.filter (fun msg => decide (Message.GetNamespace msg = n))).flatMap
    (fun msg => (builtDocs p c msg).toList)

/-- The namespace `n` has a partition: it is not empty and the builder of at least one
message of namespace `n` returned a non-nil document list. -/
def isPartitionNamespace {M D : Type} [Message M] (p : parallelProcessor M D) (c : Context)
    (msgs : List M) (n : Namespace) : Prop :=
  n ≠ "" ∧ ∃ msg ∈ msgs, Message.GetNamespace msg = n ∧ (builtDocs p c msg).isNil = false

/-- The calls of the deduplication function recorded in a list of events, in order: the key
of the entry visited and the argument of the call. -/
def dedupCalls {M D : Type} : List (Event M D) → List (Namespace × Slice D)
  | [] => []
  | Event.deduplicateDocuments ns docs :: rest => (ns, docs) :: dedupCalls rest
  | Event.UpdateLogWithData _ _ :: rest => dedupCalls rest
  | Event.Build _ _ _ :: rest => dedupCalls rest

/-- The error `MakeDocuments` returns for a failure `err` of the build phase. -/
def buildError (err : Error) : Error :=
  Error.E "gomsgprocessor.parallelProcessor.MakeDocuments" ErrCodeBuildDocuments []
    (Error.E "parallelBuildDocumentsByNamespace" CodeEmpty [] err)

/-- The BuilderNotFound condition for the message type `t`: the build-phase error whose cause
is `ErrMsgTypeHasNoBuilder` annotated with `t`. -/
def builderNotFound (t : MessageType) : Error :=
  buildError (Error.E "" CodeEmpty [("type", t)] ErrMsgTypeHasNoBuilder)

/-- The error `MakeDocuments` returns for a failure `err` of the deduplication function. -/
def deduplicateError (err : Error) : Error :=
  Error.E "gomsgprocessor.parallelProcessor.MakeDocuments" ErrCodeDeduplicateDocuments []
    (Error.E "deduplicateDocumentsForEachNamespace" CodeEmpty [] err)

/-- The index of the message an event is about; a call of the deduplication function is about
no message. -/
def Event.index {M D : Type} : Event M D → Option Nat
  | Event.UpdateLogWithData i _ => some i
  | Event.Build i _ _ => some i
  | Event.deduplicateDocuments _ _ => none

/-- The events about the message at index `i`, in order. -/
def eventsAt {M D : Type} (i : Nat) (events : List (Event M D)) : List (Event M D) :=
  events.filter (fun e => decide (e.index = some i))

/-- The calls of builders recorded in a list of events, in order: the index of the message,
the context given to the builder and the message. -/
def buildCalls {M D : Type} : List (Event M D) → List (Nat × Context × M)
  | [] => []
  | Event.Build i c msg :: rest => (i, c, msg) :: buildCalls rest
  | Event.UpdateLogWithData _ _ :: rest => buildCalls rest
  | Event.deduplicateDocuments _ _ :: rest => buildCalls rest

/-- The calls of the diagnostic hook `UpdateLogWithData` recorded in a list of events, in
order: the index of the message and the message. -/
def hookCalls {M D : Type} : List (Event M D) → List (Nat × M)
  | [] => []
  | Event.UpdateLogWithData i msg :: rest => (i, msg) :: hookCalls rest
  | Event.Build _ _ _ :: rest => hookCalls rest
  | Event.deduplicateDocuments _ _ :: rest => hookCalls rest

/-! ## Auxiliary notions of the proofs -/

/-- The slot a successful task leaves at its index. -/
def slotOf {M D : Type} [Message M] (p : parallelProcessor M D) (c : Context)
    (msg : M) : builtDocument D :=
  match builtDocs p c msg with
  | Slice.nil => builtDocument.zero
  | Slice.mk elems => ⟨Slice.mk elems, Message.GetNamespace msg⟩

/-- The write a successful task makes in the result slots. -/
def writeSlot {M D : Type} [Message M] (p : parallelProcessor M D) (c : Context)
    (slots : List (builtDocument D)) (t : Nat × M) : List (builtDocument D) :=
  match builtDocs p c t.2 with
  | Slice.nil => slots
  | Slice.mk elems => slots.set t.1 ⟨Slice.mk elems, Message.GetNamespace t.2⟩

/-- The grouping loop, run over the slots of a batch whose builds succeeded. -/
def groupMsgs {M D : Type} [Message M] (p : parallelProcessor M D) (c : Context)
    (msgs : List M) (m : GoMap D) : GoMap D :=
  (msgs.map (slotOf p c)).foldl groupStep m

/-- The entries the deduplication loop visits: all of them up to and including the first one
on which the deduplication function fails. -/
def visitedEntries {D : Type} (deduplicateDocuments : DeduplicateDocumentsFunc D) :
    List (Namespace × Slice D) → List (Namespace × Slice D)
  | [] => []
  | e :: rest =>
    match (deduplicateDocuments e.2).2 with
    | some _ => [e]
    | none => e :: visitedEntries deduplicateDocuments rest

/-- The `ExampleDocument` values among a list of documents. -/
def exampleDocuments : List AnyDocument → List ExampleDocument
  | [] => []
  | AnyDocument.ExampleDocument d :: rest => d :: exampleDocuments rest
  | AnyDocument.other _ :: rest => exampleDocuments rest

/-- The documents `ExampleDeduplicateDocuments` keeps of a list of `ExampleDocument`s. -/
def keptByID (mapRange : Order (String × ExampleDocument))
    (examplesDocuments : List ExampleDocument) : List ExampleDocument :=
  (mapRange.visit (documentsByID examplesDocuments)).map Prod.snd

/-- The events of the task of the message `t.2` at index `t.1` when it is given the
context `c`. -/
def taskEvents {M D : Type} [Message M] (p : parallelProcessor M D) (c : Context)
    (t : Nat × M) : List (Event M D) :=
  match p.builders (Message.GetType t.2) with
  | none => [Event.UpdateLogWithData t.1 t.2]
  | some documentBuilder =>
    match documentBuilder.Build c t.2 with
    | (_, some _) => [Event.Build t.1 c t.2, Event.UpdateLogWithData t.1 t.2]
    | (Slice.nil, none) => [Event.Build t.1 c t.2, Event.UpdateLogWithData t.1 t.2]
    | (Slice.mk _, none) => [Event.Build t.1 c t.2]

/-- The slot the task of `msg` has left at its index once it has returned, when its builder
was given the context `c`: the zero value unless the builder returned a non-nil document
list and no error. -/
def slotAfter {M D : Type} [Message M] (p : parallelProcessor M D) (c : Context)
    (msg : M) : builtDocument D :=
  match taskErr p c msg, builtDocs p c msg with
  | none, Slice.mk elems => ⟨Slice.mk elems, Message.GetNamespace msg⟩
  | _, _ => builtDocument.zero

/-- The number of actions a task in the given phase has taken. -/
def TaskPhase.progress {D : Type} : TaskPhase D → Nat
  | TaskPhase.pending => 0
  | TaskPhase.called _ _ => 1
  | TaskPhase.done => 2

/-- The number of actions the task at index `i` has taken in the state `st`. -/
def progressAt {D : Type} (st : Interleaved D) (i : Nat) : Nat :=
  match st.phases[i]? with
  | some phase => phase.progress
  | none => 2

/-- What the phase of the task of `msg` says about its slot `slot` and about the group's
error `err`, when its builder was given the context `c`. -/
def phaseOK {M D : Type} [Message M] (p : parallelProcessor M D) (c : Context) (msg : M)
    (slot : Option (builtDocument D)) (err : Option Error) : TaskPhase D → Prop
  | TaskPhase.pending => slot = some builtDocument.zero
  | TaskPhase.called documents e =>
    slot = some builtDocument.zero ∧ documents = builtDocs p c msg ∧ e = taskErr p c msg
  | TaskPhase.done => slot = some (slotAfter p c msg) ∧ (err = none → taskErr p c msg = none)

/-- The invariant of the interleaved execution. -/
def interleavedInv {M D : Type} [Message M] (p : parallelProcessor M D) (ctx : Context)
    (msgs : List M) (st : Interleaved D) : Prop :=
  st.phases.length = msgs.length ∧ st.builtDocuments.length = msgs.length ∧
  (st.err ≠ none → ∃ msg ∈ msgs, taskErr p ctx msg ≠ none) ∧
  ∀ (i : Nat) (msg : M), msgs[i]? = some msg →
    ∃ (phase : TaskPhase D) (c : Context), st.phases[i]? = some phase ∧
      (c = ctx ∨ c = ⟨true⟩) ∧ (st.err = none → c = ctx) ∧
      phaseOK p c msg st.builtDocuments[i]? st.err phase

/-! ## Concrete instances: the fixtures of the test suite and some batches -/

/-- The test suite's message. -/
structure mockMessage where
  id : String
  ns : Namespace
  messageType : MessageType
  deriving DecidableEq, Repr

instance mockMessage.instMessage : Message mockMessage :=
  ⟨mockMessage.ns, mockMessage.messageType⟩

/-- The test suite's document. -/
structure mockDocument where
  id : String
  deriving DecidableEq, Repr

/-- The test suite's builder: it returns what it was programmed to return for the message,
whatever the context. -/
def mockDocumentBuilder (returns : mockMessage → Slice mockDocument × Option Error) :
    DocumentBuilder mockMessage mockDocument :=
  ⟨fun _ msg => returns msg⟩

/-- The test suite's failing deduplication function. -/
def mockDeduplicateDocumentsFuncError : DeduplicateDocumentsFunc mockDocument :=
  fun _ => (Slice.nil, some (Error.New "deduplicate documents mock error"))

/-- The runtime that runs the tasks in input order and visits map entries in stored order. -/
def Runtime.inOrder {M D : Type} : Runtime M D := ⟨Order.id, Order.id⟩

/-- The runtime that runs the tasks in reverse order and visits map entries in reverse. -/
def Runtime.reversed {M D : Type} : Runtime M D := ⟨Order.rev, Order.rev⟩

/-- A registry with one builder, for the type `type-1`: it builds one document named after
the message. -/
def oneDocumentBuilders : MessageType → Option (DocumentBuilder mockMessage mockDocument) :=
  fun t => if t = "type-1" then
    some (mockDocumentBuilder (fun msg => (Slice.mk [⟨"doc-" ++ msg.id⟩], none)))
  else none

/-- A batch of one message with an empty namespace. -/
def emptyNamespaceBatch : List mockMessage := [⟨"id-1", "", "type-1"⟩]

/-- A batch of three messages, the second with an empty namespace. -/
def mixedBatch : List mockMessage :=
  [⟨"id-1", "tiramisu", "type-1"⟩, ⟨"id-2", "", "type-1"⟩, ⟨"id-3", "potato", "type-1"⟩]

/-- The batch of the test "4 messages - 2 namespaces". -/
def twoNamespacesBatch : List mockMessage :=
  [⟨"id-1", "tiramisu", "type-1"⟩, ⟨"id-2", "potato", "type-1"⟩,
    ⟨"id-3", "tiramisu", "type-1"⟩, ⟨"id-4", "potato", "type-1"⟩]

/-- The builder of the test "errors - document builder": two documents for `id-1`, two
documents together with an error for `id-2`, nothing for the other messages. -/
def errorsDocumentBuilderReturns (msg : mockMessage) : Slice mockDocument × Option Error :=
  if msg.id = "id-1" then (Slice.mk [⟨"doc-1"⟩, ⟨"doc-2"⟩], none)
  else if msg.id = "id-2" then
    (Slice.mk [⟨"doc-3"⟩, ⟨"doc-4"⟩], some (Error.New "document builder error"))
  else (Slice.nil, none)

/-- The registry of the test "errors - document builder". -/
def errorsBuilders : MessageType → Option (DocumentBuilder mockMessage mockDocument) :=
  fun t => if t = "type-1" then some (mockDocumentBuilder errorsDocumentBuilderReturns)
    else none

/-- A batch whose first message has a failing builder and whose second message has an
unregistered type. -/
def failingThenUnregisteredBatch : List mockMessage :=
  [⟨"id-2", "tiramisu", "type-1"⟩, ⟨"id-9", "tiramisu", "type-2"⟩]

/-- A batch whose first message builds two documents and whose second message has an
unregistered type. -/
def unregisteredBatch : List mockMessage :=
  [⟨"id-1", "tiramisu", "type-1"⟩, ⟨"id-9", "tiramisu", "type-2"⟩]

/-- The builder of the test "errors - deduplicate": two documents for `id-1`, two documents
for `id-2`, nothing for the other messages. -/
def deduplicateTestReturns (msg : mockMessage) : Slice mockDocument × Option Error :=
  if msg.id = "id-1" then (Slice.mk [⟨"doc-1"⟩, ⟨"doc-2"⟩], none)
  else if msg.id = "id-2" then (Slice.mk [⟨"doc-3"⟩, ⟨"doc-4"⟩], none)
  else (Slice.nil, none)

/-- The registry of the test "errors - deduplicate". -/
def deduplicateTestBuilders : MessageType → Option (DocumentBuilder mockMessage mockDocument) :=
  fun t => if t = "type-1" then some (mockDocumentBuilder deduplicateTestReturns) else none

/-- The batch of the test "errors - deduplicate". -/
def deduplicateTestBatch : List mockMessage :=
  [⟨"id-1", "tiramisu", "type-1"⟩, ⟨"id-2", "tiramisu", "type-1"⟩,
    ⟨"id-3", "tiramisu", "type-1"⟩]

/-- The processor of the test "errors - deduplicate". -/
def deduplicateTestProcessor : parallelProcessor mockMessage mockDocument :=
  NewParallelProcessor deduplicateTestBuilders
    [WithDeduplicateDocumentsOption mockDeduplicateDocumentsFuncError]

/-- A registry whose builder returns an empty, non-nil document list. -/
def emptyListBuilders : MessageType → Option (DocumentBuilder mockMessage mockDocument) :=
  fun t => if t = "type-1" then some (mockDocumentBuilder (fun _ => (Slice.mk [], none)))
    else none

/-- A batch of one message, in the namespace `tiramisu`. -/
def singleBatch : List mockMessage := [⟨"id-1", "tiramisu", "type-1"⟩]

/-- A document of the example program with the identity `id`. -/
def exampleDocumentWithID (id : String) : ExampleDocument :=
  { ID := id, CreatedAt := 0, ParentName := "John", ParentBirthYear := 1992,
    ChildName := "Jane", CityAndState := "New York - NY", Namespace := "namespace1" }

/-- A builder for the fixtures on `ExampleMessage`s: nothing (nil) for a message without
children, and otherwise one `ExampleDocument` per child, with fixed field values but for the
identity, made of the message's `ID` and the child's name. -/
def oneDocumentPerChild : DocumentBuilder ExampleMessage AnyDocument :=
  ⟨fun _ msg =>
    match msg.ChildrenNames with
    | [] => (Slice.nil, none)
    | names =>
      (Slice.mk (names.map (fun childName =>
        AnyDocument.ExampleDocument (exampleDocumentWithID (toString msg.ID ++ "_" ++ childName)))),
        none)⟩

/-- A processor with `oneDocumentPerChild` as its builder and the deduplication strategy of the
example program, whose map is iterated in the order `mapRange`. -/
def perChildProcessor (mapRange : Order (String × ExampleDocument)) :
    parallelProcessor ExampleMessage AnyDocument :=
  NewParallelProcessor (fun t => if t = "typeExample" then some oneDocumentPerChild else none)
    [WithDeduplicateDocumentsOption (ExampleDeduplicateDocuments mapRange)]

/-- A builder that returns a document of another type for the messages of `namespace2` and an
`ExampleDocument` for the others. -/
def mixedTypeBuilder : DocumentBuilder ExampleMessage AnyDocument :=
  ⟨fun _ msg =>
    if msg.Namespace = "namespace2" then (Slice.mk [AnyDocument.other "mockDocument"], none)
    else (Slice.mk [AnyDocument.ExampleDocument (exampleDocumentWithID "1_Jane")], none)⟩

/-- The example program's processor with `mixedTypeBuilder` as its builder. -/
def mixedTypeProcessor : parallelProcessor ExampleMessage AnyDocument :=
  NewParallelProcessor (fun t => if t = "typeExample" then some mixedTypeBuilder else none)
    [WithDeduplicateDocumentsOption (ExampleDeduplicateDocuments Order.id)]

/-- A batch of two messages, one in `namespace1` and one in `namespace2`. -/
def mixedTypeBatch : List ExampleMessage :=
  [⟨1, "John", 30, "New York", "NY", ["Jane"], "namespace1"⟩,
    ⟨3, "Chris", 35, "Washington", "DC", ["Bob"], "namespace2"⟩]

/-- A registry whose builder returns nothing for every message: the builder of the test
"1 message - 1 noop". -/
def noopBuilders : MessageType → Option (DocumentBuilder mockMessage mockDocument) :=
  fun t => if t = "type-1" then some (mockDocumentBuilder (fun _ => (Slice.nil, none)))
    else none

/-- A builder that gives up with an error when its context is cancelled, fails on the message
`id-2` and builds one document for any other message. -/
def cancellationAwareBuilder : DocumentBuilder mockMessage mockDocument :=
  ⟨fun c msg =>
    if c.cancelled = true then (Slice.nil, some (Error.New "context canceled"))
    else if msg.id = "id-2" then (Slice.nil, some (Error.New "document builder error"))
    else (Slice.mk [⟨"doc-" ++ msg.id⟩], none)⟩

/-- The processor whose only builder is `cancellationAwareBuilder`. -/
def cancellationAwareProcessor : parallelProcessor mockMessage mockDocument :=
  NewParallelProcessor (fun t => if t = "type-1" then some cancellationAwareBuilder else none) []

/-- A batch of two messages, `id-1` and `id-2`. -/
def twoMessagesBatch : List mockMessage :=
  [⟨"id-1", "tiramisu", "type-1"⟩, ⟨"id-2", "tiramisu", "type-1"⟩]

/-! ## Lemmas -/

theorem Group.ctx_of_err_none {M D : Type} (g : Group M D) (ctx : Context) (h : g.err = none) :
    g.ctx ctx = ctx := by
  cases ctx
  simp [Group.ctx, h]

theorem task_err {M D : Type} [Message M] (p : parallelProcessor M D) (ctx : Context)
    (g : Group M D) (t : Nat × M) :
    (task p ctx g t).err =
      match g.err with
      | some first => some first
      | none => taskErr p (g.ctx ctx) t.2 := by
  cases hb : p.builders (Message.GetType t.2) with
  | none => cases hg : g.err <;> simp [task, taskErr, hb, Group.fail, Group.emit, hg]
  | some b =>
    rcases hr : b.Build (g.ctx ctx) t.2 with ⟨docs, e⟩
    cases e <;> cases docs <;> cases hg : g.err <;>
      simp [task, taskErr, hb, hr, Group.fail, Group.emit, hg]

theorem foldl_task_err {M D : Type} [Message M] (p : parallelProcessor M D) (ctx : Context)
    (ts : List (Nat × M)) (g : Group M D) :
    (ts.foldl (task p ctx) g).err =
      match g.err with
      | some first => some first
      | none => ts.findSome? (fun t => taskErr p ctx t.2) := by
  induction ts generalizing g with
  | nil => cases h : g.err <;> simp [h]
  | cons t ts ih =>
    rw [List.foldl_cons, ih, task_err]
    cases hg : g.err with
    | some first => simp
    | none =>
      rw [Group.ctx_of_err_none g ctx hg]
      simp only [List.findSome?_cons]
      cases ht : taskErr p ctx t.2 <;> simp

theorem task_builtDocuments {M D : Type} [Message M] (p : parallelProcessor M D) (ctx : Context)
    (g : Group M D) (t : Nat × M) (hg : g.err = none) (ht : taskErr p ctx t.2 = none) :
    (task p ctx g t).builtDocuments = writeSlot p ctx g.builtDocuments t := by
  have hc := Group.ctx_of_err_none g ctx hg
  cases hb : p.builders (Message.GetType t.2) with
  | none => simp [taskErr, hb] at ht
  | some b =>
    rcases hr : b.Build ctx t.2 with ⟨docs, e⟩
    simp only [taskErr, hb, hr] at ht
    subst ht
    cases docs <;> simp [task, writeSlot, builtDocs, hb, hc, hr, Group.emit]

theorem foldl_task_builtDocuments {M D : Type} [Message M] (p : parallelProcessor M D)
    (ctx : Context) (ts : List (Nat × M)) (g : Group M D) (hg : g.err = none)
    (hts : ∀ t ∈ ts, taskErr p ctx t.2 = none) :
    (ts.foldl (task p ctx) g).builtDocuments = ts.foldl (writeSlot p ctx) g.builtDocuments := by
  induction ts generalizing g with
  | nil => rfl
  | cons t ts ih =>
    have ht := hts t (List.mem_cons_self _ _)
    have hg1 : (task p ctx g t).err = none := by
      rw [task_err, hg, Group.ctx_of_err_none g ctx hg]; exact ht
    rw [List.foldl_cons, List.foldl_cons, ih _ hg1 (fun u hu => hts u (List.mem_cons_of_mem _ hu)),
      task_builtDocuments p ctx g t hg ht]

theorem writeSlot_length {M D : Type} [Message M] (p : parallelProcessor M D) (c : Context)
    (slots : List (builtDocument D)) (t : Nat × M) :
    (writeSlot p c slots t).length = slots.length := by
  unfold writeSlot
  split <;> simp

theorem foldl_writeSlot_length {M D : Type} [Message M] (p : parallelProcessor M D) (c : Context)
    (ts : List (Nat × M)) (slots : List (builtDocument D)) :
    (ts.foldl (writeSlot p c) slots).length = slots.length := by
  induction ts generalizing slots with
  | nil => rfl
  | cons t ts ih => rw [List.foldl_cons, ih, writeSlot_length]

theorem writeSlot_getElem?_ne {M D : Type} [Message M] (p : parallelProcessor M D) (c : Context)
    (slots : List (builtDocument D)) (t : Nat × M) (j : Nat) (h : t.1 ≠ j) :
    (writeSlot p c slots t)[j]? = slots[j]? := by
  unfold writeSlot
  split
  · rfl
  · simp [List.getElem?_set_ne h]

theorem writeSlot_getElem?_self {M D : Type} [Message M] (p : parallelProcessor M D) (c : Context)
    (slots : List (builtDocument D)) (t : Nat × M) (h : t.1 < slots.length)
    (hz : slots[t.1]? = some builtDocument.zero) :
    (writeSlot p c slots t)[t.1]? = some (slotOf p c t.2) := by
  unfold writeSlot slotOf
  split <;> rename_i hb <;> simp [hb, hz, List.getElem?_set_self h]

theorem foldl_writeSlot_getElem?_ne {M D : Type} [Message M] (p : parallelProcessor M D)
    (c : Context) (ts : List (Nat × M)) (slots : List (builtDocument D)) (j : Nat)
    (h : ∀ t ∈ ts, t.1 ≠ j) :
    (ts.foldl (writeSlot p c) slots)[j]? = slots[j]? := by
  induction ts generalizing slots with
  | nil => rfl
  | cons t ts ih =>
    rw [List.foldl_cons, ih _ (fun u hu => h u (List.mem_cons_of_mem _ hu)),
      writeSlot_getElem?_ne p c slots t j (h t (List.mem_cons_self _ _))]

theorem foldl_writeSlot_getElem?_mem {M D : Type} [Message M] (p : parallelProcessor M D)
    (c : Context) (ts : List (Nat × M)) (hnd : (ts.map Prod.fst).Nodup)
    (slots : List (builtDocument D)) (t : Nat × M) (ht : t ∈ ts) (h : t.1 < slots.length)
    (hz : slots[t.1]? = some builtDocument.zero) :
    (ts.foldl (writeSlot p c) slots)[t.1]? = some (slotOf p c t.2) := by
  induction ts generalizing slots with
  | nil => cases ht
  | cons u ts ih =>
    rw [List.map_cons, List.nodup_cons] at hnd
    rw [List.foldl_cons]
    rcases List.mem_cons.1 ht with rfl | hmem
    · rw [foldl_writeSlot_getElem?_ne, writeSlot_getElem?_self p c slots t h hz]
      intro v hv hvt
      exact hnd.1 (hvt ▸ List.mem_map_of_mem Prod.fst hv)
    · have hne : u.1 ≠ t.1 := fun e => hnd.1 (e ▸ List.mem_map_of_mem Prod.fst hmem)
      apply ih hnd.2 _ hmem
      · rw [writeSlot_length]; exact h
      · rw [writeSlot_getElem?_ne p c slots u t.1 hne]; exact hz

theorem runTasks_err {M D : Type} [Message M] (p : parallelProcessor M D)
    (schedule : Order (Nat × M)) (ctx : Context) (msgs : List M) :
    (runTasks p schedule ctx msgs).err =
      (schedule.visit msgs.enum).findSome? (fun t => taskErr p ctx t.2) := by
  unfold runTasks
  rw [foldl_task_err]

theorem mem_visit_enum {M : Type} (schedule : Order (Nat × M)) (msgs : List M) (t : Nat × M) :
    t ∈ schedule.visit msgs.enum ↔ msgs[t.1]? = some t.2 := by
  rw [(schedule.perm msgs.enum).mem_iff, List.mem_enum_iff_getElem?]

theorem runTasks_err_eq_none_iff {M D : Type} [Message M] (p : parallelProcessor M D)
    (schedule : Order (Nat × M)) (ctx : Context) (msgs : List M) :
    (runTasks p schedule ctx msgs).err = none ↔ ∀ msg ∈ msgs, taskErr p ctx msg = none := by
  rw [runTasks_err, List.findSome?_eq_none_iff]
  constructor
  · intro h msg hmsg
    obtain ⟨i, hi, rfl⟩ := List.getElem_of_mem hmsg
    exact h (i, msgs[i]) ((mem_visit_enum schedule msgs _).2 (List.getElem?_eq_getElem hi))
  · intro h t ht
    exact h t.2 (List.getElem?_mem ((mem_visit_enum schedule msgs t).1 ht))

theorem runTasks_builtDocuments {M D : Type} [Message M] (p : parallelProcessor M D)
    (schedule : Order (Nat × M)) (ctx : Context) (msgs : List M)
    (h : ∀ msg ∈ msgs, taskErr p ctx msg = none) :
    (runTasks p schedule ctx msgs).builtDocuments = msgs.map (slotOf p ctx) := by
  have hts : ∀ t ∈ schedule.visit msgs.enum, taskErr p ctx t.2 = none := fun t ht =>
    h t.2 (List.getElem?_mem ((mem_visit_enum schedule msgs t).1 ht))
  unfold runTasks
  rw [foldl_task_builtDocuments p ctx _ _ rfl hts]
  have hnd : ((schedule.visit msgs.enum).map Prod.fst).Nodup := by
    rw [((schedule.perm msgs.enum).map Prod.fst).nodup_iff, List.enum_map_fst]
    exact List.nodup_range _
  apply List.ext_getElem?
  intro j
  by_cases hj : j < msgs.length
  · have hmem : (j, msgs[j]) ∈ schedule.visit msgs.enum :=
      (mem_visit_enum schedule msgs _).2 (List.getElem?_eq_getElem hj)
    have := foldl_writeSlot_getElem?_mem p ctx _ hnd
      (List.replicate msgs.length builtDocument.zero) (j, msgs[j]) hmem (by simpa using hj)
      (by simp [hj])
    simpa [List.getElem?_eq_getElem hj] using this
  · have h1 : msgs.length ≤ j := Nat.le_of_not_lt hj
    rw [List.getElem?_eq_none (by simpa [foldl_writeSlot_length] using h1),
      List.getElem?_eq_none (by simpa using h1)]

theorem Slice.toList_append {α : Type} (s t : Slice α) :
    (s.append t).toList = s.toList ++ t.toList := by
  unfold Slice.append
  split <;> rename_i h
  · rw [h, List.append_nil]
  · rw [h]; rfl

theorem Slice.append_mk_nil {α : Type} (s : Slice α) : s.append (Slice.mk []) = s := rfl

theorem Slice.append_append_mk {α : Type} (s : Slice α) (l r : List α) :
    ((s.append (Slice.mk l)).append (Slice.mk r)) = s.append (Slice.mk (l ++ r)) := by
  cases l <;> cases r <;> simp [Slice.append, Slice.toList]

theorem Slice.nil_append_mk {α : Type} (l : List α) :
    (Slice.nil : Slice α).append (Slice.mk l) = Slice.ofList l := by
  cases l <;> simp [Slice.append, Slice.toList, Slice.ofList]

theorem Slice.mk_append {α : Type} (l : List α) (t : Slice α) :
    (Slice.mk l).append t = Slice.mk (l ++ t.toList) := by
  unfold Slice.append
  split <;> rename_i h
  · rw [h, List.append_nil]
  · rw [h]; rfl

theorem Slice.toList_ofList {α : Type} (l : List α) : (Slice.ofList l).toList = l := by
  cases l <;> rfl

theorem mapGet_mapSet {D : Type} (m : GoMap D) (k : Namespace) (v : Slice D) (n : Namespace) :
    mapGet (mapSet m k v) n = if k = n then v else mapGet m n := by
  induction m with
  | nil => simp [mapSet, mapGet]
  | cons e m ih =>
    rcases e with ⟨k', v'⟩
    by_cases h : k' = k
    · subst h
      by_cases h2 : k' = n <;> simp [mapSet, mapGet, h2]
    · by_cases h2 : k' = n
      · subst h2
        simp [mapSet, mapGet, h, Ne.symm h]
      · simp [mapSet, mapGet, h, h2, ih]

theorem mem_mapKeys_mapSet {ν : Type} (m : List (String × ν)) (k : String) (v : ν)
    (n : String) : n ∈ mapKeys (mapSet m k v) ↔ n = k ∨ n ∈ mapKeys m := by
  induction m with
  | nil => simp [mapSet, mapKeys]
  | cons e m ih =>
    rcases e with ⟨k', v'⟩
    by_cases h : k' = k
    · subst h
      simp [mapSet, mapKeys]
    · simp only [mapKeys] at ih
      simp only [mapSet, h, mapKeys, if_false, List.map_cons, List.mem_cons, ih]
      tauto

theorem nodup_mapKeys_mapSet {ν : Type} (m : List (String × ν)) (k : String) (v : ν)
    (h : (mapKeys m).Nodup) : (mapKeys (mapSet m k v)).Nodup := by
  induction m with
  | nil => simp [mapSet, mapKeys]
  | cons e m ih =>
    rcases e with ⟨k', v'⟩
    have hc : (k' :: mapKeys m).Nodup := h
    rw [List.nodup_cons] at hc
    by_cases hk : k' = k
    · subst hk
      simpa [mapSet, mapKeys] using h
    · have h1 : mapKeys (mapSet ((k', v') :: m) k v) = k' :: mapKeys (mapSet m k v) := by
        simp [mapSet, hk, mapKeys]
      rw [h1, List.nodup_cons]
      refine ⟨?_, ih hc.2⟩
      rw [mem_mapKeys_mapSet]
      rintro (h2 | h2)
      · exact hk h2
      · exact hc.1 h2

theorem mapGet_of_mem {D : Type} (m : GoMap D) (h : (mapKeys m).Nodup) (e : Namespace × Slice D)
    (he : e ∈ m) : mapGet m e.1 = e.2 := by
  induction m with
  | nil => cases he
  | cons e' m ih =>
    rcases e' with ⟨k', v'⟩
    have hc : (k' :: mapKeys m).Nodup := h
    rw [List.nodup_cons] at hc
    rcases List.mem_cons.1 he with rfl | hmem
    · simp [mapGet]
    · have hne : k' ≠ e.1 := by
        rintro rfl
        exact hc.1 (List.mem_map_of_mem Prod.fst hmem)
      simp [mapGet, hne, ih hc.2 hmem]

theorem groupStep_slotOf {M D : Type} [Message M] (p : parallelProcessor M D) (c : Context)
    (m : GoMap D) (msg : M) :
    groupStep m (slotOf p c msg) =
      if (builtDocs p c msg).isNil = true ∨ Message.GetNamespace msg = "" then m
      else mapSet m (Message.GetNamespace msg)
        ((mapGet m (Message.GetNamespace msg)).append (builtDocs p c msg)) := by
  unfold slotOf
  split <;> rename_i h <;> simp [groupStep, h, Slice.isNil, builtDocument.zero]

theorem groupMsgs_cons {M D : Type} [Message M] (p : parallelProcessor M D) (c : Context)
    (msg : M) (msgs : List M) (m : GoMap D) :
    groupMsgs p c (msg :: msgs) m = groupMsgs p c msgs (groupStep m (slotOf p c msg)) := rfl

theorem partition_cons {M D : Type} [Message M] (p : parallelProcessor M D) (c : Context)
    (msg : M) (msgs : List M) (n : Namespace) :
    partition p c (msg :: msgs) n =
      (if Message.GetNamespace msg = n then (builtDocs p c msg).toList else []) ++
        partition p c msgs n := by
  unfold partition
  by_cases h : Message.GetNamespace msg = n <;> simp [List.filter_cons, h]

theorem mapGet_groupMsgs {M D : Type} [Message M] (p : parallelProcessor M D) (c : Context)
    (msgs : List M) (m : GoMap D) (n : Namespace) :
    mapGet (groupMsgs p c msgs m) n =
      if n = "" then mapGet m n else (mapGet m n).append (Slice.mk (partition p c msgs n)) := by
  induction msgs generalizing m with
  | nil => by_cases h : n = "" <;> simp [groupMsgs, partition, h, Slice.append_mk_nil]
  | cons msg msgs ih =>
    rw [groupMsgs_cons, ih, groupStep_slotOf, partition_cons]
    by_cases hn : n = ""
    · simp only [hn, if_true]
      split
      · rfl
      · rename_i hs
        rw [mapGet_mapSet, if_neg]
        intro h
        exact hs (Or.inr h)
    · simp only [hn, if_false]
      split
      · rename_i hs
        by_cases hk : Message.GetNamespace msg = n
        · rcases hs with hs | hs
          · cases hb : builtDocs p c msg with
            | nil => simp [Slice.toList]
            | mk elems => simp [hb, Slice.isNil] at hs
          · exact absurd (hk ▸ hs) hn
        · simp [hk]
      · rw [mapGet_mapSet]
        by_cases hk : Message.GetNamespace msg = n
        · subst hk
          simp only [if_true]
          cases hb : builtDocs p c msg with
          | nil => simp [Slice.toList, Slice.append]
          | mk elems => rw [Slice.append_append_mk]; rfl
        · simp [hk]

theorem mem_mapKeys_groupMsgs {M D : Type} [Message M] (p : parallelProcessor M D)
    (c : Context) (msgs : List M) (m : GoMap D) (n : Namespace) :
    n ∈ mapKeys (groupMsgs p c msgs m) ↔
      n ∈ mapKeys m ∨ (n ≠ "" ∧ ∃ msg ∈ msgs, Message.GetNamespace msg = n ∧
        (builtDocs p c msg).isNil = false) := by
  induction msgs generalizing m with
  | nil => simp [groupMsgs]
  | cons msg msgs ih =>
    rw [groupMsgs_cons, ih, groupStep_slotOf]
    split
    · rename_i hs
      constructor
      · rintro (h | ⟨hn, a, ha, hns, hnil⟩)
        · exact Or.inl h
        · exact Or.inr ⟨hn, a, List.mem_cons_of_mem _ ha, hns, hnil⟩
      · rintro (h | ⟨hn, a, ha, hns, hnil⟩)
        · exact Or.inl h
        · rcases List.mem_cons.1 ha with rfl | ha
          · rcases hs with hs | hs
            · rw [hs] at hnil; cases hnil
            · exact absurd (hns ▸ hs) hn
          · exact Or.inr ⟨hn, a, ha, hns, hnil⟩
    · rename_i hs
      rw [not_or] at hs
      rw [mem_mapKeys_mapSet]
      constructor
      · rintro ((h | h) | ⟨hn, a, ha, hns, hnil⟩)
        · refine Or.inr ⟨h ▸ hs.2, msg, List.mem_cons_self _ _, h.symm, ?_⟩
          simpa using hs.1
        · exact Or.inl h
        · exact Or.inr ⟨hn, a, List.mem_cons_of_mem _ ha, hns, hnil⟩
      · rintro (h | ⟨hn, a, ha, hns, hnil⟩)
        · exact Or.inl (Or.inr h)
        · rcases List.mem_cons.1 ha with rfl | ha
          · exact Or.inl (Or.inl hns.symm)
          · exact Or.inr ⟨hn, a, ha, hns, hnil⟩

theorem nodup_mapKeys_groupMsgs {M D : Type} [Message M] (p : parallelProcessor M D)
    (c : Context) (msgs : List M) (m : GoMap D) (h : (mapKeys m).Nodup) :
    (mapKeys (groupMsgs p c msgs m)).Nodup := by
  induction msgs generalizing m with
  | nil => exact h
  | cons msg msgs ih =>
    rw [groupMsgs_cons]
    apply ih
    rw [groupStep_slotOf]
    split
    · exact h
    · exact nodup_mapKeys_mapSet _ _ _ h

theorem dedupCalls_append {M D : Type} (xs ys : List (Event M D)) :
    dedupCalls (xs ++ ys) = dedupCalls xs ++ dedupCalls ys := by
  induction xs with
  | nil => rfl
  | cons x xs ih => cases x <;> simp [dedupCalls, ih]

theorem dedupCalls_map {M D : Type} (es : List (Namespace × Slice D)) :
    dedupCalls (es.map (fun e => (Event.deduplicateDocuments e.1 e.2 : Event M D))) = es := by
  induction es with
  | nil => rfl
  | cons e es ih => simp [dedupCalls, ih]

theorem dedupCalls_task {M D : Type} [Message M] (p : parallelProcessor M D) (ctx : Context)
    (g : Group M D) (t : Nat × M) :
    dedupCalls (task p ctx g t).events = dedupCalls g.events := by
  cases hb : p.builders (Message.GetType t.2) with
  | none => simp [task, hb, Group.fail, Group.emit, dedupCalls_append, dedupCalls]
  | some b =>
    rcases hr : b.Build (g.ctx ctx) t.2 with ⟨docs, e⟩
    cases e <;> cases docs <;>
      simp [task, hb, hr, Group.fail, Group.emit, dedupCalls_append, dedupCalls]

theorem dedupCalls_foldl_task {M D : Type} [Message M] (p : parallelProcessor M D)
    (ctx : Context) (ts : List (Nat × M)) (g : Group M D) :
    dedupCalls (ts.foldl (task p ctx) g).events = dedupCalls g.events := by
  induction ts generalizing g with
  | nil => rfl
  | cons t ts ih => rw [List.foldl_cons, ih, dedupCalls_task]

theorem dedupCalls_runTasks {M D : Type} [Message M] (p : parallelProcessor M D)
    (schedule : Order (Nat × M)) (ctx : Context) (msgs : List M) :
    dedupCalls (runTasks p schedule ctx msgs).events = [] := by
  unfold runTasks
  rw [dedupCalls_foldl_task]
  rfl

theorem visitedEntries_initial {D : Type} (dedup : DeduplicateDocumentsFunc D)
    (es : List (Namespace × Slice D)) : visitedEntries dedup es <+: es := by
  induction es with
  | nil => exact List.prefix_refl _
  | cons e es ih =>
    unfold visitedEntries
    split
    · exact ⟨es, rfl⟩
    · exact (List.prefix_cons_inj e).2 ih

theorem deduplicateLoop_events {M D : Type} (dedup : DeduplicateDocumentsFunc D)
    (es : List (Namespace × Slice D)) (documents : Slice D) (events : List (Event M D)) :
    (deduplicateLoop dedup es documents events).events =
      events ++ (visitedEntries dedup es).map
        (fun e => (Event.deduplicateDocuments e.1 e.2 : Event M D)) := by
  induction es generalizing documents events with
  | nil => simp [deduplicateLoop, visitedEntries]
  | cons e es ih =>
    rcases e with ⟨ns, docs⟩
    rcases hr : dedup docs with ⟨dd, err⟩
    cases err with
    | some err => simp [deduplicateLoop, visitedEntries, hr]
    | none => simp [deduplicateLoop, visitedEntries, hr, ih]

theorem deduplicateLoop_err {M D : Type} (dedup : DeduplicateDocumentsFunc D)
    (es : List (Namespace × Slice D)) (documents : Slice D) (events : List (Event M D)) :
    (deduplicateLoop dedup es documents events).err =
      (es.findSome? (fun e => (dedup e.2).2)).map
        (Error.E "deduplicateDocumentsForEachNamespace" CodeEmpty []) := by
  induction es generalizing documents events with
  | nil => simp [deduplicateLoop]
  | cons e es ih =>
    rcases e with ⟨ns, docs⟩
    rcases hr : dedup docs with ⟨dd, err⟩
    cases err with
    | some err => simp [deduplicateLoop, hr, List.findSome?_cons]
    | none => simp [deduplicateLoop, hr, List.findSome?_cons, ih]

theorem deduplicateLoop_documents_of_ok {M D : Type} (dedup : DeduplicateDocumentsFunc D)
    (es : List (Namespace × Slice D)) (acc : List D) (events : List (Event M D))
    (h : ∀ e ∈ es, (dedup e.2).2 = none) :
    (deduplicateLoop dedup es (Slice.mk acc) events).documents =
      Slice.mk (acc ++ es.flatMap (fun e => (dedup e.2).1.toList)) := by
  induction es generalizing acc events with
  | nil => simp [deduplicateLoop]
  | cons e es ih =>
    rcases e with ⟨ns, docs⟩
    have he := h (ns, docs) (List.mem_cons_self _ _)
    rcases hr : dedup docs with ⟨dd, err⟩
    rw [hr] at he
    simp only at he
    subst he
    simp only [deduplicateLoop, hr, Slice.mk_append]
    rw [ih _ _ (fun u hu => h u (List.mem_cons_of_mem _ hu))]
    simp [hr]

theorem deduplicateLoop_documents_of_err {M D : Type} (dedup : DeduplicateDocumentsFunc D)
    (es : List (Namespace × Slice D)) (documents : Slice D) (events : List (Event M D))
    (h : (deduplicateLoop dedup es documents events).err ≠ none) :
    (deduplicateLoop dedup es documents events).documents = Slice.nil := by
  induction es generalizing documents events with
  | nil => simp [deduplicateLoop] at h
  | cons e es ih =>
    rcases e with ⟨ns, docs⟩
    rcases hr : dedup docs with ⟨dd, err⟩
    cases err with
    | some err => simp [deduplicateLoop, hr]
    | none =>
      simp only [deduplicateLoop, hr] at h ⊢
      exact ih _ _ h

theorem deduplicateLoop_isNil_of_ok {M D : Type} (dedup : DeduplicateDocumentsFunc D)
    (es : List (Namespace × Slice D)) (acc : List D) (events : List (Event M D))
    (h : (deduplicateLoop dedup es (Slice.mk acc) events).err = none) :
    (deduplicateLoop dedup es (Slice.mk acc) events).documents.isNil = false := by
  induction es generalizing acc events with
  | nil => simp [deduplicateLoop, Slice.isNil]
  | cons e es ih =>
    rcases e with ⟨ns, docs⟩
    rcases hr : dedup docs with ⟨dd, err⟩
    cases err with
    | some err => simp [deduplicateLoop, hr] at h
    | none =>
      simp only [deduplicateLoop, hr, Slice.mk_append] at h ⊢
      exact ih _ _ h

theorem parallelBuild_err {M D : Type} [Message M] (p : parallelProcessor M D)
    (schedule : Order (Nat × M)) (ctx : Context) (msgs : List M) :
    (parallelBuildDocumentsByNamespace p schedule ctx msgs).err =
      ((schedule.visit msgs.enum).findSome? (fun t => taskErr p ctx t.2)).map
        (Error.E "parallelBuildDocumentsByNamespace" CodeEmpty []) := by
  rw [← runTasks_err]
  unfold parallelBuildDocumentsByNamespace
  cases h : (runTasks p schedule ctx msgs).err <;> simp [h]

theorem parallelBuild_events {M D : Type} [Message M] (p : parallelProcessor M D)
    (schedule : Order (Nat × M)) (ctx : Context) (msgs : List M) :
    (parallelBuildDocumentsByNamespace p schedule ctx msgs).events =
      (runTasks p schedule ctx msgs).events := by
  unfold parallelBuildDocumentsByNamespace
  cases h : (runTasks p schedule ctx msgs).err <;> simp [h]

theorem parallelBuild_err_eq_none_iff {M D : Type} [Message M] (p : parallelProcessor M D)
    (schedule : Order (Nat × M)) (ctx : Context) (msgs : List M) :
    (parallelBuildDocumentsByNamespace p schedule ctx msgs).err = none ↔
      ∀ msg ∈ msgs, taskErr p ctx msg = none := by
  rw [← runTasks_err_eq_none_iff p schedule ctx msgs]
  unfold parallelBuildDocumentsByNamespace
  cases h : (runTasks p schedule ctx msgs).err <;> simp [h]

theorem parallelBuild_documentsByNamespace {M D : Type} [Message M]
    (p : parallelProcessor M D) (schedule : Order (Nat × M)) (ctx : Context) (msgs : List M)
    (h : ∀ msg ∈ msgs, taskErr p ctx msg = none) :
    (parallelBuildDocumentsByNamespace p schedule ctx msgs).documentsByNamespace =
      groupMsgs p ctx msgs [] := by
  have he := (runTasks_err_eq_none_iff p schedule ctx msgs).2 h
  unfold parallelBuildDocumentsByNamespace
  simp only [he]
  rw [runTasks_builtDocuments p schedule ctx msgs h]
  rfl

theorem flatMap_mapSet_perm {D : Type} (m : GoMap D) (k : Namespace) (d : Slice D) :
    List.Perm ((mapSet m k ((mapGet m k).append d)).flatMap (fun e => e.2.toList))
      (m.flatMap (fun e => e.2.toList) ++ d.toList) := by
  induction m with
  | nil =>
    simp only [mapSet, mapGet, List.flatMap_cons, List.flatMap_nil, Slice.toList_append,
      List.append_nil]
    exact List.Perm.refl _
  | cons e m ih =>
    rcases e with ⟨k', v'⟩
    by_cases h : k' = k
    · subst h
      simp only [mapSet, mapGet, if_true, List.flatMap_cons, Slice.toList_append,
        List.append_assoc]
      exact List.Perm.append_left _ List.perm_append_comm
    · simp only [mapSet, mapGet, h, if_false, List.flatMap_cons, List.append_assoc]
      exact List.Perm.append_left _ ih

theorem flatMap_groupMsgs_perm {M D : Type} [Message M] (p : parallelProcessor M D)
    (c : Context) (msgs : List M) (m : GoMap D) :
    List.Perm ((groupMsgs p c msgs m).flatMap (fun e => e.2.toList))
      (m.flatMap (fun e => e.2.toList) ++
        (msgs.filter (fun msg => decide (Message.GetNamespace msg ≠ ""))).flatMap
          (fun msg => (builtDocs p c msg).toList)) := by
  induction msgs generalizing m with
  | nil => simp [groupMsgs]
  | cons msg msgs ih =>
    rw [groupMsgs_cons]
    refine (ih _).trans ?_
    rw [groupStep_slotOf]
    split
    · rename_i hs
      rcases hs with hs | hs
      · have hnil : (builtDocs p c msg).toList = [] := by
          cases hb : builtDocs p c msg with
          | nil => rfl
          | mk elems => simp [hb, Slice.isNil] at hs
        by_cases hn : Message.GetNamespace msg = "" <;> simp [List.filter_cons, hn, hnil]
      · simp [List.filter_cons, hs]
    · rename_i hs
      rw [not_or] at hs
      simp only [List.filter_cons, hs.2, ne_eq, not_false_eq_true, decide_True, if_true,
        List.flatMap_cons, ← List.append_assoc]
      exact List.Perm.append_right _ (flatMap_mapSet_perm m _ _)

theorem mem_groupMsgs {M D : Type} [Message M] (p : parallelProcessor M D) (c : Context)
    (msgs : List M) (e : Namespace × Slice D) (he : e ∈ groupMsgs p c msgs []) :
    (e.1 ≠ "" ∧ ∃ msg ∈ msgs, Message.GetNamespace msg = e.1 ∧
        (builtDocs p c msg).isNil = false) ∧
      e.2 = Slice.ofList (partition p c msgs e.1) := by
  have hk : e.1 ∈ mapKeys (groupMsgs p c msgs []) := List.mem_map_of_mem Prod.fst he
  have hk2 := (mem_mapKeys_groupMsgs p c msgs [] e.1).1 hk
  have hkey : e.1 ≠ "" ∧ ∃ msg ∈ msgs, Message.GetNamespace msg = e.1 ∧
      (builtDocs p c msg).isNil = false := by
    rcases hk2 with h | h
    · cases h
    · exact h
  refine ⟨hkey, ?_⟩
  have hnd := nodup_mapKeys_groupMsgs p c msgs [] List.nodup_nil
  rw [← mapGet_of_mem _ hnd e he, mapGet_groupMsgs, if_neg hkey.1]
  exact Slice.nil_append_mk _

theorem MakeDocuments_of_build_err {M D : Type} [Message M] (p : parallelProcessor M D)
    (rt : Runtime M D) (ctx : Context) (msgs : List M) (e : Error)
    (h : (parallelBuildDocumentsByNamespace p rt.schedule ctx msgs).err = some e) :
    MakeDocuments p rt ctx msgs =
      ⟨Slice.nil,
        some (Error.E "gomsgprocessor.parallelProcessor.MakeDocuments" ErrCodeBuildDocuments []
          e),
        (runTasks p rt.schedule ctx msgs).events⟩ := by
  unfold MakeDocuments
  simp only [h, parallelBuild_events]

theorem MakeDocuments_of_dedup_err {M D : Type} [Message M] (p : parallelProcessor M D)
    (rt : Runtime M D) (ctx : Context) (msgs : List M) (e : Error)
    (h : (parallelBuildDocumentsByNamespace p rt.schedule ctx msgs).err = none)
    (hd : (deduplicateDocumentsForEachNamespace p rt.mapRange (groupMsgs p ctx msgs [])
      : Result M D).err = some e) :
    MakeDocuments p rt ctx msgs =
      ⟨Slice.nil,
        some (Error.E "gomsgprocessor.parallelProcessor.MakeDocuments"
          ErrCodeDeduplicateDocuments [] e),
        (runTasks p rt.schedule ctx msgs).events ++
          (deduplicateDocumentsForEachNamespace p rt.mapRange (groupMsgs p ctx msgs [])
            : Result M D).events⟩ := by
  have hm := parallelBuild_documentsByNamespace p rt.schedule ctx msgs
    ((parallelBuild_err_eq_none_iff p rt.schedule ctx msgs).1 h)
  unfold MakeDocuments
  simp only [h, hm, hd, parallelBuild_events]

theorem MakeDocuments_of_dedup_ok {M D : Type} [Message M] (p : parallelProcessor M D)
    (rt : Runtime M D) (ctx : Context) (msgs : List M)
    (h : (parallelBuildDocumentsByNamespace p rt.schedule ctx msgs).err = none)
    (hd : (deduplicateDocumentsForEachNamespace p rt.mapRange (groupMsgs p ctx msgs [])
      : Result M D).err = none) :
    MakeDocuments p rt ctx msgs =
      ⟨(deduplicateDocumentsForEachNamespace p rt.mapRange (groupMsgs p ctx msgs [])
          : Result M D).documents, none,
        (runTasks p rt.schedule ctx msgs).events ++
          (deduplicateDocumentsForEachNamespace p rt.mapRange (groupMsgs p ctx msgs [])
            : Result M D).events⟩ := by
  have hm := parallelBuild_documentsByNamespace p rt.schedule ctx msgs
    ((parallelBuild_err_eq_none_iff p rt.schedule ctx msgs).1 h)
  unfold MakeDocuments
  simp only [h, hm, hd, parallelBuild_events]

theorem taskErr_eq_none_of_build {M D : Type} [Message M] (p : parallelProcessor M D)
    (ctx : Context) (msg : M)
    (h : ∃ b, p.builders (Message.GetType msg) = some b ∧ (b.Build ctx msg).2 = none) :
    taskErr p ctx msg = none := by
  obtain ⟨b, hb, he⟩ := h
  simp [taskErr, hb, he]

theorem oneDocumentBuilders_ok (ctx : Context) (msgs : List mockMessage)
    (h : ∀ msg ∈ msgs, msg.messageType = "type-1") :
    ∀ msg ∈ msgs, ∃ b, oneDocumentBuilders (Message.GetType msg) = some b ∧
      (b.Build ctx msg).2 = none := by
  intro msg hmsg
  refine ⟨mockDocumentBuilder (fun msg => (Slice.mk [⟨"doc-" ++ msg.id⟩], none)), ?_, rfl⟩
  have := h msg hmsg
  simp [oneDocumentBuilders, Message.GetType, this]

theorem buildsSucceed_taskErr {M D : Type} [Message M] (p : parallelProcessor M D)
    (c : Context) (msgs : List M) (h : buildsSucceed p c msgs) :
    ∀ msg ∈ msgs, taskErr p c msg = none :=
  fun msg hmsg => taskErr_eq_none_of_build p c msg (h msg hmsg)

theorem buildsSucceed_iff_taskErr {M D : Type} [Message M] (p : parallelProcessor M D)
    (c : Context) (msgs : List M) :
    buildsSucceed p c msgs ↔ ∀ msg ∈ msgs, taskErr p c msg = none := by
  refine ⟨buildsSucceed_taskErr p c msgs, fun h msg hmsg => ?_⟩
  have := h msg hmsg
  unfold taskErr at this
  cases hb : p.builders (Message.GetType msg) with
  | none => simp [hb] at this
  | some b => exact ⟨b, rfl, by simpa [hb] using this⟩

theorem buildsSucceed_parallelBuild {M D : Type} [Message M] (p : parallelProcessor M D)
    (schedule : Order (Nat × M)) (c : Context) (msgs : List M) (h : buildsSucceed p c msgs) :
    (parallelBuildDocumentsByNamespace p schedule c msgs).err = none :=
  (parallelBuild_err_eq_none_iff p schedule c msgs).2 (buildsSucceed_taskErr p c msgs h)

theorem mem_mapKeys_groupMsgs_iff {M D : Type} [Message M] (p : parallelProcessor M D)
    (c : Context) (msgs : List M) (n : Namespace) :
    n ∈ mapKeys (groupMsgs p c msgs []) ↔ isPartitionNamespace p c msgs n := by
  rw [mem_mapKeys_groupMsgs]
  simp [mapKeys, isPartitionNamespace]

theorem mem_visit_groupMsgs {M D : Type} [Message M] (p : parallelProcessor M D)
    (c : Context) (msgs : List M) (mapRange : Order (Namespace × Slice D))
    (e : Namespace × Slice D) (he : e ∈ mapRange.visit (groupMsgs p c msgs [])) :
    isPartitionNamespace p c msgs e.1 ∧ e.2 = Slice.ofList (partition p c msgs e.1) :=
  mem_groupMsgs p c msgs e (((mapRange.perm _).mem_iff).1 he)

theorem visit_groupMsgs_eq_map {M D : Type} [Message M] (p : parallelProcessor M D)
    (c : Context) (msgs : List M) (mapRange : Order (Namespace × Slice D)) :
    mapRange.visit (groupMsgs p c msgs []) =
      ((mapRange.visit (groupMsgs p c msgs [])).map Prod.fst).map
        (fun n => (n, Slice.ofList (partition p c msgs n))) := by
  rw [List.map_map]
  conv_lhs => rw [← List.map_id (mapRange.visit (groupMsgs p c msgs []))]
  apply List.map_congr_left
  intro e he
  have := (mem_visit_groupMsgs p c msgs mapRange e he).2
  simp only [id, Function.comp]
  rw [← this]

theorem nodup_visit_keys {M D : Type} [Message M] (p : parallelProcessor M D)
    (c : Context) (msgs : List M) (mapRange : Order (Namespace × Slice D)) :
    ((mapRange.visit (groupMsgs p c msgs [])).map Prod.fst).Nodup :=
  (((mapRange.perm _).map Prod.fst).nodup_iff).2
    (nodup_mapKeys_groupMsgs p c msgs [] List.nodup_nil)

theorem mem_visit_keys_iff {M D : Type} [Message M] (p : parallelProcessor M D)
    (c : Context) (msgs : List M) (mapRange : Order (Namespace × Slice D)) (n : Namespace) :
    n ∈ (mapRange.visit (groupMsgs p c msgs [])).map Prod.fst ↔
      isPartitionNamespace p c msgs n := by
  rw [((mapRange.perm _).map Prod.fst).mem_iff]
  exact mem_mapKeys_groupMsgs_iff p c msgs n

theorem deduplicate_err_eq_none {M D : Type} (p : parallelProcessor M D)
    (mapRange : Order (Namespace × Slice D)) (m : GoMap D)
    (h : ∀ e ∈ m, (p.deduplicateDocuments e.2).2 = none) :
    (deduplicateDocumentsForEachNamespace p mapRange m : Result M D).err = none := by
  unfold deduplicateDocumentsForEachNamespace
  rw [deduplicateLoop_err, Option.map_eq_none', List.findSome?_eq_none_iff]
  exact fun e he => h e (((mapRange.perm m).mem_iff).1 he)

theorem deduplicate_documents_of_ok {M D : Type} (p : parallelProcessor M D)
    (mapRange : Order (Namespace × Slice D)) (m : GoMap D)
    (h : ∀ e ∈ m, (p.deduplicateDocuments e.2).2 = none) :
    (deduplicateDocumentsForEachNamespace p mapRange m : Result M D).documents =
      Slice.mk ((mapRange.visit m).flatMap (fun e => (p.deduplicateDocuments e.2).1.toList)) := by
  unfold deduplicateDocumentsForEachNamespace
  rw [deduplicateLoop_documents_of_ok _ _ _ _
    (fun e he => h e (((mapRange.perm m).mem_iff).1 he))]
  rfl

theorem parallelBuild_err_of_some {M D : Type} [Message M] (p : parallelProcessor M D)
    (schedule : Order (Nat × M)) (ctx : Context) (msgs : List M) (e : Error)
    (h : (parallelBuildDocumentsByNamespace p schedule ctx msgs).err = some e) :
    ∃ msg ∈ msgs, ∃ cause, taskErr p ctx msg = some cause ∧
      e = Error.E "parallelBuildDocumentsByNamespace" CodeEmpty [] cause := by
  rw [parallelBuild_err, Option.map_eq_some'] at h
  obtain ⟨cause, hc, rfl⟩ := h
  obtain ⟨t, ht, hf⟩ := List.exists_of_findSome?_eq_some hc
  exact ⟨t.2, List.getElem?_mem ((mem_visit_enum schedule msgs t).1 ht), cause, hf, rfl⟩

theorem parallelBuild_err_isSome_iff {M D : Type} [Message M] (p : parallelProcessor M D)
    (schedule : Order (Nat × M)) (ctx : Context) (msgs : List M) :
    (∃ e, (parallelBuildDocumentsByNamespace p schedule ctx msgs).err = some e) ↔
      ∃ msg ∈ msgs, taskErr p ctx msg ≠ none := by
  have h := parallelBuild_err_eq_none_iff p schedule ctx msgs
  constructor
  · rintro ⟨e, he⟩
    by_contra hcon
    push_neg at hcon
    rw [h.2 hcon] at he
    cases he
  · rintro ⟨msg, hmsg, hne⟩
    cases he : (parallelBuildDocumentsByNamespace p schedule ctx msgs).err with
    | none => exact absurd (h.1 he msg hmsg) hne
    | some e => exact ⟨e, rfl⟩

theorem taskErr_ne_none_iff {M D : Type} [Message M] (p : parallelProcessor M D)
    (ctx : Context) (msg : M) :
    taskErr p ctx msg ≠ none ↔
      (p.builders (Message.GetType msg) = none ∨
        ∃ b, p.builders (Message.GetType msg) = some b ∧ (b.Build ctx msg).2 ≠ none) := by
  unfold taskErr
  cases hb : p.builders (Message.GetType msg) with
  | none => simp
  | some b => simp

theorem code_buildError (err : Error) : (buildError err).code = ErrCodeBuildDocuments := by
  simp [buildError, Error.code, ErrCodeBuildDocuments, CodeEmpty]

theorem code_deduplicateError (err : Error) :
    (deduplicateError err).code = ErrCodeDeduplicateDocuments := by
  simp [deduplicateError, Error.code, ErrCodeDeduplicateDocuments, CodeEmpty]

theorem getCode_none_ne :
    GetCode none ≠ ErrCodeBuildDocuments ∧ GetCode none ≠ ErrCodeDeduplicateDocuments := by
  decide

theorem codes_ne : ErrCodeBuildDocuments ≠ ErrCodeDeduplicateDocuments := by decide

theorem MakeDocuments_build_failed {M D : Type} [Message M] (p : parallelProcessor M D)
    (rt : Runtime M D) (ctx : Context) (msgs : List M)
    (h : ∃ msg ∈ msgs, taskErr p ctx msg ≠ none) :
    ∃ msg ∈ msgs, ∃ cause, taskErr p ctx msg = some cause ∧
      MakeDocuments p rt ctx msgs =
        ⟨Slice.nil, some (buildError cause), (runTasks p rt.schedule ctx msgs).events⟩ := by
  obtain ⟨e, he⟩ := (parallelBuild_err_isSome_iff p rt.schedule ctx msgs).2 h
  obtain ⟨msg, hmsg, cause, hc, rfl⟩ := parallelBuild_err_of_some p rt.schedule ctx msgs e he
  exact ⟨msg, hmsg, cause, hc, MakeDocuments_of_build_err p rt ctx msgs _ he⟩

theorem deduplicate_err_of_some {M D : Type} (p : parallelProcessor M D)
    (mapRange : Order (Namespace × Slice D)) (m : GoMap D) (e : Error)
    (h : (deduplicateDocumentsForEachNamespace p mapRange m : Result M D).err = some e) :
    ∃ entry ∈ m, ∃ cause, (p.deduplicateDocuments entry.2).2 = some cause ∧
      e = Error.E "deduplicateDocumentsForEachNamespace" CodeEmpty [] cause := by
  unfold deduplicateDocumentsForEachNamespace at h
  rw [deduplicateLoop_err, Option.map_eq_some'] at h
  obtain ⟨cause, hc, rfl⟩ := h
  obtain ⟨t, ht, hf⟩ := List.exists_of_findSome?_eq_some hc
  exact ⟨t, ((mapRange.perm m).mem_iff).1 ht, cause, hf, rfl⟩

theorem deduplicate_err_eq_none_iff {M D : Type} (p : parallelProcessor M D)
    (mapRange : Order (Namespace × Slice D)) (m : GoMap D) :
    (deduplicateDocumentsForEachNamespace p mapRange m : Result M D).err = none ↔
      ∀ e ∈ m, (p.deduplicateDocuments e.2).2 = none := by
  unfold deduplicateDocumentsForEachNamespace
  rw [deduplicateLoop_err, Option.map_eq_none', List.findSome?_eq_none_iff]
  exact ⟨fun h e he => h e (((mapRange.perm m).mem_iff).2 he),
    fun h e he => h e (((mapRange.perm m).mem_iff).1 he)⟩

theorem deduplicate_documents_of_err {M D : Type} (p : parallelProcessor M D)
    (mapRange : Order (Namespace × Slice D)) (m : GoMap D)
    (h : (deduplicateDocumentsForEachNamespace p mapRange m : Result M D).err ≠ none) :
    (deduplicateDocumentsForEachNamespace p mapRange m : Result M D).documents = Slice.nil :=
  deduplicateLoop_documents_of_err _ _ _ _ h

theorem deduplicate_isNil_of_ok {M D : Type} (p : parallelProcessor M D)
    (mapRange : Order (Namespace × Slice D)) (m : GoMap D)
    (h : (deduplicateDocumentsForEachNamespace p mapRange m : Result M D).err = none) :
    (deduplicateDocumentsForEachNamespace p mapRange m : Result M D).documents.isNil = false :=
  deduplicateLoop_isNil_of_ok _ _ _ _ h

theorem MakeDocuments_cases {M D : Type} [Message M] (p : parallelProcessor M D)
    (rt : Runtime M D) (ctx : Context) (msgs : List M) :
    (∃ msg ∈ msgs, ∃ cause, taskErr p ctx msg = some cause ∧
      MakeDocuments p rt ctx msgs =
        ⟨Slice.nil, some (buildError cause), (runTasks p rt.schedule ctx msgs).events⟩) ∨
    ((∀ msg ∈ msgs, taskErr p ctx msg = none) ∧
      ∃ entry ∈ groupMsgs p ctx msgs [], ∃ cause,
        (p.deduplicateDocuments entry.2).2 = some cause ∧
        MakeDocuments p rt ctx msgs =
          ⟨Slice.nil, some (deduplicateError cause),
            (runTasks p rt.schedule ctx msgs).events ++
              (deduplicateDocumentsForEachNamespace p rt.mapRange (groupMsgs p ctx msgs [])
                : Result M D).events⟩) ∨
    ((∀ msg ∈ msgs, taskErr p ctx msg = none) ∧
      (∀ entry ∈ groupMsgs p ctx msgs [], (p.deduplicateDocuments entry.2).2 = none) ∧
      MakeDocuments p rt ctx msgs =
        ⟨Slice.mk ((rt.mapRange.visit (groupMsgs p ctx msgs [])).flatMap
            (fun e => (p.deduplicateDocuments e.2).1.toList)), none,
          (runTasks p rt.schedule ctx msgs).events ++
            (deduplicateDocumentsForEachNamespace p rt.mapRange (groupMsgs p ctx msgs [])
              : Result M D).events⟩) := by
  by_cases hb : ∀ msg ∈ msgs, taskErr p ctx msg = none
  · right
    have hbe := (parallelBuild_err_eq_none_iff p rt.schedule ctx msgs).2 hb
    cases hd : (deduplicateDocumentsForEachNamespace p rt.mapRange (groupMsgs p ctx msgs [])
        : Result M D).err with
    | none =>
      right
      have hok := (deduplicate_err_eq_none_iff p rt.mapRange _).1 hd
      refine ⟨hb, hok, ?_⟩
      rw [MakeDocuments_of_dedup_ok p rt ctx msgs hbe hd,
        deduplicate_documents_of_ok p rt.mapRange _ hok]
    | some e =>
      left
      obtain ⟨entry, hentry, cause, hc, rfl⟩ := deduplicate_err_of_some p rt.mapRange _ e hd
      exact ⟨hb, entry, hentry, cause, hc, MakeDocuments_of_dedup_err p rt ctx msgs _ hbe hd⟩
  · left
    push_neg at hb
    exact MakeDocuments_build_failed p rt ctx msgs hb

theorem groupMsgs_filter {M D : Type} [Message M] (p : parallelProcessor M D) (c : Context)
    (msgs : List M) (m : GoMap D) :
    groupMsgs p c (msgs.filter (fun msg => decide (Message.GetNamespace msg ≠ ""))) m =
      groupMsgs p c msgs m := by
  induction msgs generalizing m with
  | nil => rfl
  | cons msg msgs ih =>
    by_cases h : Message.GetNamespace msg = ""
    · have hs : groupStep m (slotOf p c msg) = m := by
        rw [groupStep_slotOf, if_pos (Or.inr h)]
      rw [groupMsgs_cons, hs, ← ih]
      simp [List.filter_cons, h]
    · have hf : (msg :: msgs).filter (fun msg => decide (Message.GetNamespace msg ≠ "")) =
          msg :: msgs.filter (fun msg => decide (Message.GetNamespace msg ≠ "")) := by
        simp [List.filter_cons, h]
      rw [hf, groupMsgs_cons, groupMsgs_cons, ih]

theorem buildsSucceed_filter {M D : Type} [Message M] (p : parallelProcessor M D)
    (c : Context) (msgs : List M) (f : M → Bool) (h : buildsSucceed p c msgs) :
    buildsSucceed p c (msgs.filter f) :=
  fun msg hmsg => h msg (List.mem_of_mem_filter hmsg)

theorem dedupCalls_MakeDocuments {M D : Type} [Message M] (p : parallelProcessor M D)
    (rt : Runtime M D) (ctx : Context) (msgs : List M)
    (h : (parallelBuildDocumentsByNamespace p rt.schedule ctx msgs).err = none) :
    dedupCalls (MakeDocuments p rt ctx msgs).events =
      visitedEntries p.deduplicateDocuments (rt.mapRange.visit (groupMsgs p ctx msgs [])) := by
  have hev : (MakeDocuments p rt ctx msgs).events = (runTasks p rt.schedule ctx msgs).events ++
      (deduplicateDocumentsForEachNamespace p rt.mapRange (groupMsgs p ctx msgs [])
        : Result M D).events := by
    cases hd : (deduplicateDocumentsForEachNamespace p rt.mapRange (groupMsgs p ctx msgs [])
        : Result M D).err with
    | none => rw [MakeDocuments_of_dedup_ok p rt ctx msgs h hd]
    | some e => rw [MakeDocuments_of_dedup_err p rt ctx msgs e h hd]
  rw [hev, dedupCalls_append, dedupCalls_runTasks]
  unfold deduplicateDocumentsForEachNamespace
  rw [deduplicateLoop_events, List.nil_append, List.nil_append, dedupCalls_map]

theorem MakeDocuments_default_perm {M D : Type} [Message M] (p : parallelProcessor M D)
    (rt : Runtime M D) (ctx : Context) (msgs : List M) (hbuild : buildsSucceed p ctx msgs)
    (hdef : p.deduplicateDocuments = defaultDeduplicateDocumentsFunc) :
    List.Perm (MakeDocuments p rt ctx msgs).documents.toList
      ((msgs.filter (fun msg => decide (Message.GetNamespace msg ≠ ""))).flatMap
        (fun msg => (builtDocs p ctx msg).toList)) := by
  have hb := buildsSucceed_parallelBuild p rt.schedule ctx msgs hbuild
  have hok : ∀ e ∈ groupMsgs p ctx msgs [], (p.deduplicateDocuments e.2).2 = none := by
    intro e _
    rw [hdef]
    rfl
  have herr := deduplicate_err_eq_none (M := M) p rt.mapRange _ hok
  rw [MakeDocuments_of_dedup_ok p rt ctx msgs hb herr]
  simp only
  rw [deduplicate_documents_of_ok p rt.mapRange _ hok, hdef]
  have := ((rt.mapRange.perm (groupMsgs p ctx msgs [])).flatMap_right
    (fun e => e.2.toList)).trans (flatMap_groupMsgs_perm p ctx msgs [])
  simpa [defaultDeduplicateDocumentsFunc, Slice.toList] using this

theorem mem_visitedEntries {D : Type} (dedup : DeduplicateDocumentsFunc D)
    (es : List (Namespace × Slice D)) (e : Namespace × Slice D)
    (h : e ∈ visitedEntries dedup es) : e ∈ es :=
  (visitedEntries_initial dedup es).subset h

theorem parallelBuild_mapKeys_iff {M D : Type} [Message M] (p : parallelProcessor M D)
    (schedule : Order (Nat × M)) (ctx : Context) (msgs : List M)
    (h : (parallelBuildDocumentsByNamespace p schedule ctx msgs).err = none) (n : Namespace) :
    n ∈ mapKeys (parallelBuildDocumentsByNamespace p schedule ctx msgs).documentsByNamespace ↔
      isPartitionNamespace p ctx msgs n := by
  rw [parallelBuild_documentsByNamespace p schedule ctx msgs
    ((parallelBuild_err_eq_none_iff p schedule ctx msgs).1 h)]
  exact mem_mapKeys_groupMsgs_iff p ctx msgs n

theorem map_exampleDocuments (docs : List AnyDocument)
    (h : ∀ d ∈ docs, ∃ x, d = AnyDocument.ExampleDocument x) :
    (exampleDocuments docs).map AnyDocument.ExampleDocument = docs := by
  induction docs with
  | nil => rfl
  | cons d docs ih =>
    obtain ⟨x, rfl⟩ := h d (List.mem_cons_self _ _)
    simp only [exampleDocuments, List.map_cons]
    rw [ih (fun u hu => h u (List.mem_cons_of_mem _ hu))]

theorem castDocuments_map (xs acc : List ExampleDocument) :
    castDocuments (xs.map AnyDocument.ExampleDocument) acc = some (acc ++ xs) := by
  induction xs generalizing acc with
  | nil => simp [castDocuments]
  | cons x xs ih => simp [castDocuments, ih]

theorem foldl_append_singleton {α β : Type} (f : α → β) (es : List α) (acc : List β) :
    es.foldl (fun s e => s.append (Slice.mk [f e])) (Slice.mk acc) =
      Slice.mk (acc ++ es.map f) := by
  induction es generalizing acc with
  | nil => simp
  | cons e es ih =>
    rw [List.foldl_cons, Slice.mk_append, ih]
    simp [Slice.toList]

theorem ExampleDeduplicateDocuments_map (mapRange : Order (String × ExampleDocument))
    (xs : List ExampleDocument) (documents : Slice AnyDocument)
    (h : documents.toList = xs.map AnyDocument.ExampleDocument) :
    ExampleDeduplicateDocuments mapRange documents =
      (Slice.mk ((keptByID mapRange xs).map AnyDocument.ExampleDocument), none) := by
  unfold ExampleDeduplicateDocuments
  simp only [h, castDocuments_map, List.nil_append]
  rw [foldl_append_singleton (fun e : String × ExampleDocument =>
    AnyDocument.ExampleDocument e.2)]
  simp [keptByID, documentsByID, List.map_map, Function.comp]

theorem mem_mapSet {ν : Type} (m : List (String × ν)) (k : String) (v : ν) (e : String × ν)
    (h : e ∈ mapSet m k v) : e = (k, v) ∨ e ∈ m := by
  induction m with
  | nil => simpa [mapSet] using h
  | cons a m ih =>
    rcases a with ⟨k', v'⟩
    by_cases hk : k' = k
    · simp only [mapSet, hk, if_true, List.mem_cons] at h
      rcases h with h | h
      · exact Or.inl h
      · exact Or.inr (List.mem_cons_of_mem _ h)
    · simp only [mapSet, hk, if_false, List.mem_cons] at h
      rcases h with h | h
      · exact Or.inr (h ▸ List.mem_cons_self _ _)
      · rcases ih h with h2 | h2
        · exact Or.inl h2
        · exact Or.inr (List.mem_cons_of_mem _ h2)

theorem foldl_mapSet_ID (xs : List ExampleDocument) (m : List (String × ExampleDocument)) :
    ((mapKeys m).Nodup →
      (mapKeys (xs.foldl (fun m d => mapSet m d.ID d) m)).Nodup) ∧
    (∀ e ∈ xs.foldl (fun m d => mapSet m d.ID d) m, e ∈ m ∨ (e.2 ∈ xs ∧ e.1 = e.2.ID)) ∧
    (∀ k, (k ∈ mapKeys m ∨ ∃ x ∈ xs, x.ID = k) →
      k ∈ mapKeys (xs.foldl (fun m d => mapSet m d.ID d) m)) := by
  induction xs generalizing m with
  | nil =>
    refine ⟨fun h => h, fun e he => Or.inl he, fun k hk => ?_⟩
    rcases hk with hk | ⟨x, hx, -⟩
    · exact hk
    · cases hx
  | cons x xs ih =>
    obtain ⟨ih1, ih2, ih3⟩ := ih (mapSet m x.ID x)
    refine ⟨fun h => ih1 (nodup_mapKeys_mapSet m x.ID x h), fun e he => ?_, fun k hk => ?_⟩
    · rcases ih2 e he with h | ⟨h1, h2⟩
      · rcases mem_mapSet m x.ID x e h with h3 | h3
        · exact Or.inr ⟨by rw [h3]; exact List.mem_cons_self _ _, by rw [h3]⟩
        · exact Or.inl h3
      · exact Or.inr ⟨List.mem_cons_of_mem _ h1, h2⟩
    · apply ih3
      rcases hk with hk | ⟨y, hy, hyk⟩
      · exact Or.inl ((mem_mapKeys_mapSet m x.ID x k).2 (Or.inr hk))
      · rcases List.mem_cons.1 hy with rfl | hy
        · exact Or.inl ((mem_mapKeys_mapSet m y.ID y k).2 (Or.inl hyk.symm))
        · exact Or.inr ⟨y, hy, hyk⟩

theorem keptByID_spec (mapRange : Order (String × ExampleDocument))
    (xs : List ExampleDocument) :
    ((keptByID mapRange xs).map (fun d => d.ID)).Nodup ∧
    (∀ x ∈ keptByID mapRange xs, x ∈ xs) ∧
    (∀ x ∈ xs, ∃ y ∈ keptByID mapRange xs, y.ID = x.ID) := by
  obtain ⟨h1, h2, h3⟩ := foldl_mapSet_ID xs []
  have hent : ∀ e ∈ mapRange.visit (documentsByID xs), e.2 ∈ xs ∧ e.1 = e.2.ID := by
    intro e he
    rcases h2 e (((mapRange.perm _).mem_iff).1 he) with h | h
    · cases h
    · exact h
  refine ⟨?_, ?_, ?_⟩
  · have hmap : (keptByID mapRange xs).map (fun d => d.ID) =
        (mapRange.visit (documentsByID xs)).map Prod.fst := by
      unfold keptByID
      rw [List.map_map]
      apply List.map_congr_left
      intro e he
      exact (hent e he).2.symm
    rw [hmap, ((mapRange.perm _).map Prod.fst).nodup_iff]
    exact h1 List.nodup_nil
  · intro x hx
    obtain ⟨e, he, rfl⟩ := List.mem_map.1 hx
    exact (hent e he).1
  · intro x hx
    have hk : x.ID ∈ mapKeys (documentsByID xs) := h3 x.ID (Or.inr ⟨x, hx, rfl⟩)
    obtain ⟨e, he, hek⟩ := List.mem_map.1 hk
    have he2 : e ∈ mapRange.visit (documentsByID xs) := ((mapRange.perm _).mem_iff).2 he
    exact ⟨e.2, List.mem_map_of_mem Prod.snd he2, by rw [← (hent e he2).2, hek]⟩

theorem partition_all_example {M : Type} [Message M] (p : parallelProcessor M AnyDocument)
    (c : Context) (msgs : List M) (n : Namespace)
    (h : ∀ msg ∈ msgs, Message.GetNamespace msg ≠ "" →
      ∀ d ∈ (builtDocs p c msg).toList, ∃ x, d = AnyDocument.ExampleDocument x)
    (hn : n ≠ "") :
    ∀ d ∈ partition p c msgs n, ∃ x, d = AnyDocument.ExampleDocument x := by
  intro d hd
  unfold partition at hd
  rw [List.mem_flatMap] at hd
  obtain ⟨msg, hmsg, hdm⟩ := hd
  rw [List.mem_filter] at hmsg
  have hns : Message.GetNamespace msg = n := of_decide_eq_true hmsg.2
  exact h msg hmsg.1 (hns ▸ hn) d hdm

theorem perChildProcessor_buildsSucceed (mapRange : Order (String × ExampleDocument))
    (ctx : Context) (msgs : List ExampleMessage) :
    buildsSucceed (perChildProcessor mapRange) ctx msgs := by
  intro msg _
  refine ⟨oneDocumentPerChild, rfl, ?_⟩
  unfold oneDocumentPerChild
  cases h : msg.ChildrenNames <;> simp [h]

theorem perChildProcessor_builds_examples (mapRange : Order (String × ExampleDocument))
    (ctx : Context) (msgs : List ExampleMessage) :
    ∀ msg ∈ msgs, Message.GetNamespace msg ≠ "" →
      ∀ d ∈ (builtDocs (perChildProcessor mapRange) ctx msg).toList,
        ∃ x, d = AnyDocument.ExampleDocument x := by
  intro msg _ _ d hd
  have hb : builtDocs (perChildProcessor mapRange) ctx msg =
      (oneDocumentPerChild.Build ctx msg).1 := rfl
  rw [hb] at hd
  unfold oneDocumentPerChild at hd
  cases h : msg.ChildrenNames with
  | nil => simp [h, Slice.toList] at hd
  | cons a as =>
    simp only [h, Slice.toList, List.mem_map] at hd
    obtain ⟨childName, -, rfl⟩ := hd
    exact ⟨_, rfl⟩

theorem oneDocumentBuilders_buildsSucceed (ctx : Context) (msgs : List mockMessage)
    (h : ∀ msg ∈ msgs, msg.messageType = "type-1") :
    buildsSucceed (NewParallelProcessor oneDocumentBuilders []) ctx msgs :=
  oneDocumentBuilders_ok ctx msgs h

theorem MakeDocuments_of_dedup_failed {M D : Type} [Message M] (p : parallelProcessor M D)
    (rt : Runtime M D) (ctx : Context) (msgs : List M)
    (hb : ∀ msg ∈ msgs, taskErr p ctx msg = none)
    (hd : ∃ entry ∈ groupMsgs p ctx msgs [], (p.deduplicateDocuments entry.2).2 ≠ none) :
    (MakeDocuments p rt ctx msgs).documents = Slice.nil ∧
      ∃ cause, (MakeDocuments p rt ctx msgs).err = some (deduplicateError cause) := by
  rcases MakeDocuments_cases p rt ctx msgs with
    ⟨msg, hmsg, cause, hc, -⟩ | ⟨-, -, -, cause, -, hr⟩ | ⟨-, hok, -⟩
  · rw [hb msg hmsg] at hc
    cases hc
  · rw [hr]
    exact ⟨rfl, cause, rfl⟩
  · obtain ⟨entry, hentry, hfail⟩ := hd
    exact absurd (hok entry hentry) hfail

theorem MakeDocuments_of_all_ok {M D : Type} [Message M] (p : parallelProcessor M D)
    (rt : Runtime M D) (ctx : Context) (msgs : List M)
    (hb : ∀ msg ∈ msgs, taskErr p ctx msg = none)
    (hd : ∀ entry ∈ groupMsgs p ctx msgs [], (p.deduplicateDocuments entry.2).2 = none) :
    (MakeDocuments p rt ctx msgs).err = none ∧
      (MakeDocuments p rt ctx msgs).documents =
        Slice.mk ((rt.mapRange.visit (groupMsgs p ctx msgs [])).flatMap
          (fun e => (p.deduplicateDocuments e.2).1.toList)) := by
  rcases MakeDocuments_cases p rt ctx msgs with
    ⟨msg, hmsg, cause, hc, -⟩ | ⟨-, entry, hentry, cause, hc, -⟩ | ⟨-, -, hr⟩
  · rw [hb msg hmsg] at hc
    cases hc
  · rw [hd entry hentry] at hc
    cases hc
  · rw [hr]
    exact ⟨rfl, rfl⟩

theorem MakeDocuments_of_build_failed {M D : Type} [Message M] (p : parallelProcessor M D)
    (rt : Runtime M D) (ctx : Context) (msgs : List M)
    (h : ∃ msg ∈ msgs, taskErr p ctx msg ≠ none) :
    (MakeDocuments p rt ctx msgs).documents = Slice.nil ∧
      ∃ cause, (MakeDocuments p rt ctx msgs).err = some (buildError cause) := by
  obtain ⟨msg, -, cause, -, hr⟩ := MakeDocuments_build_failed p rt ctx msgs h
  rw [hr]
  exact ⟨rfl, cause, rfl⟩

theorem groupMsgs_eq_nil {M D : Type} [Message M] (p : parallelProcessor M D) (c : Context)
    (msgs : List M) (h : ∀ msg ∈ msgs, (builtDocs p c msg).isNil = true) :
    groupMsgs p c msgs [] = [] := by
  rw [List.eq_nil_iff_forall_not_mem]
  intro e he
  obtain ⟨-, msg, hmsg, -, hnil⟩ := (mem_groupMsgs p c msgs e he).1
  rw [h msg hmsg] at hnil
  cases hnil

theorem Group.ctx_cases {M D : Type} (g : Group M D) (ctx : Context) :
    g.ctx ctx = ctx ∨ g.ctx ctx = ⟨true⟩ := by
  cases hg : g.err with
  | none => exact Or.inl (Group.ctx_of_err_none g ctx hg)
  | some e => exact Or.inr (by simp [Group.ctx, hg])

theorem task_events {M D : Type} [Message M] (p : parallelProcessor M D) (ctx : Context)
    (g : Group M D) (t : Nat × M) :
    (task p ctx g t).events = g.events ++ taskEvents p (g.ctx ctx) t := by
  cases hb : p.builders (Message.GetType t.2) with
  | none => simp [task, taskEvents, hb, Group.fail, Group.emit]
  | some b =>
    rcases hr : b.Build (g.ctx ctx) t.2 with ⟨docs, e⟩
    cases e <;> cases docs <;> simp [task, taskEvents, hb, hr, Group.fail, Group.emit]

theorem index_of_mem_taskEvents {M D : Type} [Message M] (p : parallelProcessor M D)
    (c : Context) (t : Nat × M) (e : Event M D) (he : e ∈ taskEvents p c t) :
    e.index = some t.1 := by
  unfold taskEvents at he
  cases hb : p.builders (Message.GetType t.2) with
  | none =>
    simp only [hb, List.mem_singleton] at he
    rw [he]
    rfl
  | some b =>
    rcases hr : b.Build c t.2 with ⟨docs, err⟩
    cases err <;> cases docs <;> simp only [hb, hr, List.mem_cons, List.mem_singleton,
      List.not_mem_nil, or_false] at he <;> rcases he with rfl | rfl <;> rfl

theorem eventsAt_append {M D : Type} (i : Nat) (xs ys : List (Event M D)) :
    eventsAt i (xs ++ ys) = eventsAt i xs ++ eventsAt i ys := by
  simp [eventsAt]

theorem eventsAt_taskEvents_self {M D : Type} [Message M] (p : parallelProcessor M D)
    (c : Context) (t : Nat × M) : eventsAt t.1 (taskEvents p c t) = taskEvents p c t := by
  unfold eventsAt
  rw [List.filter_eq_self]
  intro e he
  simp [index_of_mem_taskEvents p c t e he]

theorem eventsAt_taskEvents_ne {M D : Type} [Message M] (p : parallelProcessor M D)
    (c : Context) (t : Nat × M) (i : Nat) (h : t.1 ≠ i) :
    eventsAt i (taskEvents p c t) = [] := by
  unfold eventsAt
  rw [List.filter_eq_nil_iff]
  intro e he
  simp [index_of_mem_taskEvents p c t e he, h]

theorem eventsAt_foldl_task_ne {M D : Type} [Message M] (p : parallelProcessor M D)
    (ctx : Context) (ts : List (Nat × M)) (g : Group M D) (i : Nat)
    (h : ∀ t ∈ ts, t.1 ≠ i) :
    eventsAt i (ts.foldl (task p ctx) g).events = eventsAt i g.events := by
  induction ts generalizing g with
  | nil => rfl
  | cons t ts ih =>
    rw [List.foldl_cons, ih _ (fun u hu => h u (List.mem_cons_of_mem _ hu)), task_events,
      eventsAt_append, eventsAt_taskEvents_ne p _ t i (h t (List.mem_cons_self _ _)),
      List.append_nil]

theorem eventsAt_foldl_task_mem {M D : Type} [Message M] (p : parallelProcessor M D)
    (ctx : Context) (ts : List (Nat × M)) (hnd : (ts.map Prod.fst).Nodup) (g : Group M D)
    (t : Nat × M) (ht : t ∈ ts) :
    ∃ c, (c = ctx ∨ c = ⟨true⟩) ∧
      eventsAt t.1 (ts.foldl (task p ctx) g).events =
        eventsAt t.1 g.events ++ taskEvents p c t := by
  induction ts generalizing g with
  | nil => cases ht
  | cons u ts ih =>
    rw [List.map_cons, List.nodup_cons] at hnd
    rw [List.foldl_cons]
    rcases List.mem_cons.1 ht with rfl | hmem
    · refine ⟨g.ctx ctx, Group.ctx_cases g ctx, ?_⟩
      rw [eventsAt_foldl_task_ne, task_events, eventsAt_append, eventsAt_taskEvents_self]
      intro v hv hvt
      exact hnd.1 (hvt ▸ List.mem_map_of_mem Prod.fst hv)
    · have hne : u.1 ≠ t.1 := fun e => hnd.1 (e ▸ List.mem_map_of_mem Prod.fst hmem)
      obtain ⟨c, hc, h⟩ := ih hnd.2 (task p ctx g u) hmem
      refine ⟨c, hc, ?_⟩
      rw [h, task_events, eventsAt_append, eventsAt_taskEvents_ne p _ u t.1 hne,
        List.append_nil]

theorem mem_foldl_task_events {M D : Type} [Message M] (p : parallelProcessor M D)
    (ctx : Context) (ts : List (Nat × M)) (g : Group M D) (e : Event M D)
    (he : e ∈ (ts.foldl (task p ctx) g).events) :
    e ∈ g.events ∨ ∃ t ∈ ts, ∃ c, e ∈ taskEvents p c t := by
  induction ts generalizing g with
  | nil => exact Or.inl he
  | cons t ts ih =>
    rw [List.foldl_cons] at he
    rcases ih _ he with h | ⟨u, hu, c, hc⟩
    · rw [task_events, List.mem_append] at h
      rcases h with h | h
      · exact Or.inl h
      · exact Or.inr ⟨t, List.mem_cons_self _ _, _, h⟩
    · exact Or.inr ⟨u, List.mem_cons_of_mem _ hu, c, hc⟩

theorem eventsAt_runTasks {M D : Type} [Message M] (p : parallelProcessor M D)
    (schedule : Order (Nat × M)) (ctx : Context) (msgs : List M) (i : Nat) (msg : M)
    (h : msgs[i]? = some msg) :
    ∃ c, (c = ctx ∨ c = ⟨true⟩) ∧
      eventsAt i (runTasks p schedule ctx msgs).events = taskEvents p c (i, msg) := by
  have hnd : ((schedule.visit msgs.enum).map Prod.fst).Nodup := by
    rw [((schedule.perm msgs.enum).map Prod.fst).nodup_iff, List.enum_map_fst]
    exact List.nodup_range _
  have hmem : (i, msg) ∈ schedule.visit msgs.enum := (mem_visit_enum schedule msgs _).2 h
  obtain ⟨c, hc, he⟩ := eventsAt_foldl_task_mem p ctx _ hnd
    { builtDocuments := List.replicate msgs.length builtDocument.zero,
      err := none, events := [] } (i, msg) hmem
  exact ⟨c, hc, he⟩

theorem mem_runTasks_events {M D : Type} [Message M] (p : parallelProcessor M D)
    (schedule : Order (Nat × M)) (ctx : Context) (msgs : List M) (e : Event M D)
    (he : e ∈ (runTasks p schedule ctx msgs).events) :
    ∃ t, msgs[t.1]? = some t.2 ∧ ∃ c, e ∈ taskEvents p c t := by
  rcases mem_foldl_task_events p ctx _ _ e he with h | ⟨t, ht, c, hc⟩
  · cases h
  · exact ⟨t, (mem_visit_enum schedule msgs t).1 ht, c, hc⟩

theorem buildCalls_append {M D : Type} (xs ys : List (Event M D)) :
    buildCalls (xs ++ ys) = buildCalls xs ++ buildCalls ys := by
  induction xs with
  | nil => rfl
  | cons x xs ih => cases x <;> simp [buildCalls, ih]

theorem hookCalls_append {M D : Type} (xs ys : List (Event M D)) :
    hookCalls (xs ++ ys) = hookCalls xs ++ hookCalls ys := by
  induction xs with
  | nil => rfl
  | cons x xs ih => cases x <;> simp [hookCalls, ih]

theorem eventsAt_cons {M D : Type} (i : Nat) (e : Event M D) (events : List (Event M D)) :
    eventsAt i (e :: events) =
      if e.index = some i then e :: eventsAt i events else eventsAt i events := by
  unfold eventsAt
  by_cases h : e.index = some i <;> simp [List.filter_cons, h]

theorem buildCalls_eventsAt {M D : Type} (i : Nat) (events : List (Event M D)) :
    buildCalls (eventsAt i events) =
      (buildCalls events).filter (fun call => decide (call.1 = i)) := by
  induction events with
  | nil => rfl
  | cons e events ih =>
    rw [eventsAt_cons]
    cases e with
    | UpdateLogWithData j msg =>
      have hi : (Event.UpdateLogWithData j msg : Event M D).index = some j := rfl
      by_cases h : j = i
      · subst h
        simp [hi, buildCalls, ih]
      · simp [hi, buildCalls, h, ih]
    | Build j c msg =>
      have hi : (Event.Build j c msg : Event M D).index = some j := rfl
      by_cases h : j = i
      · subst h
        simp [hi, List.filter_cons, buildCalls, ih]
      · simp [hi, List.filter_cons, buildCalls, h, ih]
    | deduplicateDocuments ns docs =>
      have hi : (Event.deduplicateDocuments ns docs : Event M D).index = none := rfl
      simp [hi, buildCalls, ih]

theorem hookCalls_eventsAt {M D : Type} (i : Nat) (events : List (Event M D)) :
    hookCalls (eventsAt i events) =
      (hookCalls events).filter (fun call => decide (call.1 = i)) := by
  induction events with
  | nil => rfl
  | cons e events ih =>
    rw [eventsAt_cons]
    cases e with
    | UpdateLogWithData j msg =>
      have hi : (Event.UpdateLogWithData j msg : Event M D).index = some j := rfl
      by_cases h : j = i
      · subst h
        simp [hi, List.filter_cons, hookCalls, ih]
      · simp [hi, List.filter_cons, hookCalls, h, ih]
    | Build j c msg =>
      have hi : (Event.Build j c msg : Event M D).index = some j := rfl
      by_cases h : j = i
      · subst h
        simp [hi, hookCalls, ih]
      · simp [hi, hookCalls, h, ih]
    | deduplicateDocuments ns docs =>
      have hi : (Event.deduplicateDocuments ns docs : Event M D).index = none := rfl
      simp [hi, hookCalls, ih]

theorem mem_buildCalls {M D : Type} (events : List (Event M D)) (call : Nat × Context × M) :
    call ∈ buildCalls events ↔ Event.Build call.1 call.2.1 call.2.2 ∈ events := by
  induction events with
  | nil => simp [buildCalls]
  | cons e events ih =>
    cases e with
    | UpdateLogWithData j msg => simp [buildCalls, ih]
    | Build j c msg =>
      simp only [buildCalls, List.mem_cons, ih, Event.Build.injEq]
      constructor
      · rintro (h | h)
        · exact Or.inl (by rw [h]; exact ⟨rfl, rfl, rfl⟩)
        · exact Or.inr h
      · rintro (⟨h1, h2, h3⟩ | h)
        · exact Or.inl (Prod.ext h1 (Prod.ext h2 h3))
        · exact Or.inr h
    | deduplicateDocuments ns docs => simp [buildCalls, ih]

theorem deduplicate_events_eq_map {M D : Type} (rest : List (Namespace × Slice D)) (i : Nat) :
    eventsAt i (rest.map (fun e => (Event.deduplicateDocuments e.1 e.2 : Event M D))) = [] ∧
    buildCalls (rest.map (fun e => (Event.deduplicateDocuments e.1 e.2 : Event M D))) = [] ∧
    hookCalls (rest.map (fun e => (Event.deduplicateDocuments e.1 e.2 : Event M D))) = [] := by
  induction rest with
  | nil => exact ⟨rfl, rfl, rfl⟩
  | cons e rest ih =>
    obtain ⟨h1, h2, h3⟩ := ih
    refine ⟨?_, ?_, ?_⟩
    · rw [List.map_cons, eventsAt_cons, h1]
      have hi : (Event.deduplicateDocuments e.1 e.2 : Event M D).index = none := rfl
      simp [hi]
    · simpa [buildCalls] using h2
    · simpa [hookCalls] using h3

theorem MakeDocuments_events {M D : Type} [Message M] (p : parallelProcessor M D)
    (rt : Runtime M D) (ctx : Context) (msgs : List M) :
    ∃ calls : List (Namespace × Slice D),
      (MakeDocuments p rt ctx msgs).events = (runTasks p rt.schedule ctx msgs).events ++
        calls.map (fun e => (Event.deduplicateDocuments e.1 e.2 : Event M D)) := by
  have hd : (deduplicateDocumentsForEachNamespace p rt.mapRange (groupMsgs p ctx msgs [])
      : Result M D).events = (visitedEntries p.deduplicateDocuments
        (rt.mapRange.visit (groupMsgs p ctx msgs []))).map
          (fun e => (Event.deduplicateDocuments e.1 e.2 : Event M D)) := by
    unfold deduplicateDocumentsForEachNamespace
    rw [deduplicateLoop_events, List.nil_append]
  rcases MakeDocuments_cases p rt ctx msgs with
    ⟨_, _, _, _, hr⟩ | ⟨_, _, _, _, _, hr⟩ | ⟨_, _, hr⟩
  · exact ⟨[], by rw [hr]; simp⟩
  · exact ⟨_, by rw [hr, hd]⟩
  · exact ⟨_, by rw [hr, hd]⟩

theorem eventsAt_MakeDocuments {M D : Type} [Message M] (p : parallelProcessor M D)
    (rt : Runtime M D) (ctx : Context) (msgs : List M) (i : Nat) :
    eventsAt i (MakeDocuments p rt ctx msgs).events =
      eventsAt i (runTasks p rt.schedule ctx msgs).events := by
  obtain ⟨calls, h⟩ := MakeDocuments_events p rt ctx msgs
  rw [h, eventsAt_append, (deduplicate_events_eq_map calls i).1, List.append_nil]

theorem buildCalls_MakeDocuments {M D : Type} [Message M] (p : parallelProcessor M D)
    (rt : Runtime M D) (ctx : Context) (msgs : List M) :
    buildCalls (MakeDocuments p rt ctx msgs).events =
      buildCalls (runTasks p rt.schedule ctx msgs).events := by
  obtain ⟨calls, h⟩ := MakeDocuments_events p rt ctx msgs
  rw [h, buildCalls_append, (deduplicate_events_eq_map calls 0).2.1, List.append_nil]

theorem buildCalls_taskEvents {M D : Type} [Message M] (p : parallelProcessor M D)
    (c : Context) (t : Nat × M) :
    buildCalls (taskEvents p c t) =
      match p.builders (Message.GetType t.2) with
      | none => []
      | some _ => [(t.1, c, t.2)] := by
  unfold taskEvents
  cases hb : p.builders (Message.GetType t.2) with
  | none => rfl
  | some b =>
    rcases hr : b.Build c t.2 with ⟨docs, err⟩
    cases err <;> cases docs <;> simp [hr, buildCalls]

theorem hookCalls_taskEvents {M D : Type} [Message M] (p : parallelProcessor M D)
    (c : Context) (t : Nat × M) :
    hookCalls (taskEvents p c t) =
      match p.builders (Message.GetType t.2) with
      | none => [(t.1, t.2)]
      | some b =>
        if ((b.Build c t.2).2.isSome || (b.Build c t.2).1.isNil) = true then [(t.1, t.2)]
        else [] := by
  unfold taskEvents
  cases hb : p.builders (Message.GetType t.2) with
  | none => rfl
  | some b =>
    rcases hr : b.Build c t.2 with ⟨docs, err⟩
    cases err <;> cases docs <;> simp [hr, hookCalls, Slice.isNil]

theorem task_frame {M D : Type} [Message M] (p : parallelProcessor M D) (ctx : Context)
    (g g' : Group M D) (t : Nat × M) (hs : g.builtDocuments = g'.builtDocuments)
    (he : g.err = g'.err) :
    (task p ctx g t).builtDocuments = (task p ctx g' t).builtDocuments ∧
      (task p ctx g t).err = (task p ctx g' t).err := by
  have hc : g.ctx ctx = g'.ctx ctx := by simp [Group.ctx, he]
  cases hb : p.builders (Message.GetType t.2) with
  | none => simp [task, hb, Group.fail, Group.emit, hs, he]
  | some b =>
    rcases hr : b.Build (g'.ctx ctx) t.2 with ⟨docs, e⟩
    cases e <;> cases docs <;> simp [task, hb, hc, hr, Group.fail, Group.emit, hs, he]

theorem foldl_task_frame {M D : Type} [Message M] (p : parallelProcessor M D) (ctx : Context)
    (ts : List (Nat × M)) (g g' : Group M D) (hs : g.builtDocuments = g'.builtDocuments)
    (he : g.err = g'.err) :
    (ts.foldl (task p ctx) g).builtDocuments = (ts.foldl (task p ctx) g').builtDocuments ∧
      (ts.foldl (task p ctx) g).err = (ts.foldl (task p ctx) g').err := by
  induction ts generalizing g g' with
  | nil => exact ⟨hs, he⟩
  | cons t ts ih =>
    obtain ⟨h1, h2⟩ := task_frame p ctx g g' t hs he
    exact ih _ _ h1 h2

theorem task_builtDocuments_ne {M D : Type} [Message M] (p : parallelProcessor M D)
    (ctx : Context) (g : Group M D) (t : Nat × M) (j : Nat) (h : j ≠ t.1) :
    (task p ctx g t).builtDocuments[j]? = g.builtDocuments[j]? := by
  cases hb : p.builders (Message.GetType t.2) with
  | none => simp [task, hb, Group.fail, Group.emit]
  | some b =>
    rcases hr : b.Build (g.ctx ctx) t.2 with ⟨docs, e⟩
    cases e <;> cases docs <;>
      simp [task, hb, hr, Group.fail, Group.emit, List.getElem?_set_ne (Ne.symm h)]

theorem nodup_visit_enum {M : Type} (schedule : Order (Nat × M)) (msgs : List M) :
    ((schedule.visit msgs.enum).map Prod.fst).Nodup := by
  rw [((schedule.perm msgs.enum).map Prod.fst).nodup_iff, List.enum_map_fst]
  exact List.nodup_range _

theorem parallelBuild_documentsByNamespace_of_err {M D : Type} [Message M]
    (p : parallelProcessor M D) (schedule : Order (Nat × M)) (ctx : Context) (msgs : List M)
    (h : (runTasks p schedule ctx msgs).err ≠ none) :
    (parallelBuildDocumentsByNamespace p schedule ctx msgs).documentsByNamespace = [] := by
  unfold parallelBuildDocumentsByNamespace
  cases he : (runTasks p schedule ctx msgs).err with
  | none => exact absurd he h
  | some e => simp [he]

theorem mem_hookCalls {M D : Type} (events : List (Event M D)) (call : Nat × M) :
    call ∈ hookCalls events ↔ Event.UpdateLogWithData call.1 call.2 ∈ events := by
  induction events with
  | nil => simp [hookCalls]
  | cons e events ih =>
    cases e with
    | UpdateLogWithData j msg =>
      simp only [hookCalls, List.mem_cons, ih, Event.UpdateLogWithData.injEq]
      constructor
      · rintro (h | h)
        · exact Or.inl (by rw [h]; exact ⟨rfl, rfl⟩)
        · exact Or.inr h
      · rintro (⟨h1, h2⟩ | h)
        · exact Or.inl (Prod.ext h1 h2)
        · exact Or.inr h
    | Build j c msg => simp [hookCalls, ih]
    | deduplicateDocuments ns docs => simp [hookCalls, ih]

theorem hookCalls_MakeDocuments {M D : Type} [Message M] (p : parallelProcessor M D)
    (rt : Runtime M D) (ctx : Context) (msgs : List M) :
    hookCalls (MakeDocuments p rt ctx msgs).events =
      hookCalls (runTasks p rt.schedule ctx msgs).events := by
  obtain ⟨calls, h⟩ := MakeDocuments_events p rt ctx msgs
  rw [h, hookCalls_append, (deduplicate_events_eq_map calls 0).2.2, List.append_nil]

theorem eventsAt_MakeDocuments_eq_taskEvents {M D : Type} [Message M]
    (p : parallelProcessor M D) (rt : Runtime M D) (ctx : Context) (msgs : List M) (i : Nat)
    (msg : M) (h : msgs[i]? = some msg) :
    ∃ c, (c = ctx ∨ c = ⟨true⟩) ∧
      eventsAt i (MakeDocuments p rt ctx msgs).events = taskEvents p c (i, msg) := by
  rw [eventsAt_MakeDocuments]
  exact eventsAt_runTasks p rt.schedule ctx msgs i msg h

theorem interleaved_ctx_of_err_none {D : Type} (st : Interleaved D) (ctx : Context)
    (h : st.err = none) : st.ctx ctx = ctx := by
  simp [Interleaved.ctx, h]

theorem interleaved_ctx_cases {D : Type} (st : Interleaved D) (ctx : Context) :
    st.ctx ctx = ctx ∨ st.ctx ctx = ⟨true⟩ := by
  cases h : st.err with
  | none => exact Or.inl (interleaved_ctx_of_err_none st ctx h)
  | some e => right; simp [Interleaved.ctx, h]

theorem callTask_eq {M D : Type} [Message M] (p : parallelProcessor M D) (ctx : Context)
    (st : Interleaved D) (i : Nat) (msg : M) :
    callTask p ctx st i msg =
      ⟨st.phases.set i
          (TaskPhase.called (builtDocs p (st.ctx ctx) msg) (taskErr p (st.ctx ctx) msg)),
        st.builtDocuments, st.err⟩ := by
  unfold callTask builtDocs taskErr
  cases p.builders (Message.GetType msg) <;> rfl

theorem stepTask_frame {M D : Type} [Message M] (p : parallelProcessor M D) (ctx : Context)
    (msgs : List M) (st : Interleaved D) (i j : Nat) (h : j ≠ i) :
    (stepTask p ctx msgs st i).builtDocuments[j]? = st.builtDocuments[j]? := by
  unfold stepTask
  cases msgs[i]? with
  | none => rfl
  | some msg =>
    cases st.phases[i]? with
    | none => rfl
    | some phase =>
      cases phase with
      | pending => simp [callTask_eq]
      | done => rfl
      | called documents err =>
        cases err <;> cases documents <;> simp [returnTask, List.getElem?_set_ne (Ne.symm h)]

theorem stepTask_phases_ne {M D : Type} [Message M] (p : parallelProcessor M D) (ctx : Context)
    (msgs : List M) (st : Interleaved D) (i j : Nat) (h : j ≠ i) :
    (stepTask p ctx msgs st i).phases[j]? = st.phases[j]? := by
  unfold stepTask
  cases msgs[i]? with
  | none => rfl
  | some msg =>
    cases st.phases[i]? with
    | none => rfl
    | some phase =>
      cases phase with
      | pending => simp [callTask_eq, List.getElem?_set_ne (Ne.symm h)]
      | done => rfl
      | called documents err =>
        cases err <;> cases documents <;> simp [returnTask, List.getElem?_set_ne (Ne.symm h)]

theorem stepTask_phases_length {M D : Type} [Message M] (p : parallelProcessor M D)
    (ctx : Context) (msgs : List M) (st : Interleaved D) (i : Nat) :
    (stepTask p ctx msgs st i).phases.length = st.phases.length := by
  unfold stepTask
  cases msgs[i]? with
  | none => rfl
  | some msg =>
    cases st.phases[i]? with
    | none => rfl
    | some phase =>
      cases phase with
      | pending => simp [callTask_eq]
      | done => rfl
      | called documents err => cases err <;> cases documents <;> simp [returnTask]

theorem stepTask_err_mono {M D : Type} [Message M] (p : parallelProcessor M D)
    (ctx : Context) (msgs : List M) (st : Interleaved D) (i : Nat)
    (h : (stepTask p ctx msgs st i).err = none) : st.err = none := by
  revert h
  rcases st with ⟨phases, slots, first⟩
  unfold stepTask
  cases msgs[i]? with
  | none => exact id
  | some msg =>
    cases phases[i]? with
    | none => exact id
    | some phase =>
      cases phase with
      | pending => simp [callTask_eq]
      | done => exact id
      | called documents err =>
        cases err <;> cases documents <;> cases first <;> simp [returnTask]

theorem progressAt_stepTask {M D : Type} [Message M] (p : parallelProcessor M D)
    (ctx : Context) (msgs : List M) (st : Interleaved D) (i j : Nat)
    (hlen : st.phases.length = msgs.length) :
    progressAt (stepTask p ctx msgs st i) j =
      if j = i then min 2 (progressAt st j + 1) else progressAt st j := by
  by_cases hji : j = i
  · subst hji
    rw [if_pos rfl]
    unfold progressAt stepTask
    cases hm : msgs[j]? with
    | none =>
      have : st.phases[j]? = none := by
        rw [List.getElem?_eq_none_iff] at hm ⊢
        omega
      simp [this]
    | some msg =>
      cases hp : st.phases[j]? with
      | none => simp [hp]
      | some phase =>
        have hj : j < st.phases.length := by
          rcases List.getElem?_eq_some_iff.1 hp with ⟨h, _⟩
          exact h
        cases phase with
        | pending => simp [callTask_eq, hj, TaskPhase.progress]
        | done => simp [hp, TaskPhase.progress]
        | called documents err =>
          cases err <;> cases documents <;> simp [returnTask, hj, TaskPhase.progress]
  · rw [if_neg hji]
    unfold progressAt
    rw [stepTask_phases_ne p ctx msgs st i j hji]

theorem progressAt_foldl_stepTask {M D : Type} [Message M] (p : parallelProcessor M D)
    (ctx : Context) (msgs : List M) (steps : List Nat) (st : Interleaved D) (j : Nat)
    (hlen : st.phases.length = msgs.length) :
    progressAt (steps.foldl (stepTask p ctx msgs) st) j =
      min 2 (progressAt st j + steps.count j) := by
  induction steps generalizing st with
  | nil =>
    have : progressAt st j ≤ 2 := by
      unfold progressAt
      cases st.phases[j]? with
      | none => exact Nat.le_refl _
      | some phase => cases phase <;> simp [TaskPhase.progress]
    simp
    omega
  | cons i steps ih =>
    rw [List.foldl_cons, ih _ ((stepTask_phases_length p ctx msgs st i).trans hlen),
      progressAt_stepTask p ctx msgs st i j hlen, List.count_cons]
    by_cases hji : j = i
    · subst hji
      simp
      omega
    · have : ¬ i = j := fun h => hji h.symm
      simp [hji, this]

theorem phaseOK_mono {M D : Type} [Message M] (p : parallelProcessor M D) (c : Context)
    (msg : M) (slot : Option (builtDocument D)) (err err' : Option Error) (phase : TaskPhase D)
    (hmono : err' = none → err = none) (h : phaseOK p c msg slot err phase) :
    phaseOK p c msg slot err' phase := by
  cases phase with
  | pending => exact h
  | called documents e => exact h
  | done => exact ⟨h.1, fun he => h.2 (hmono he)⟩

theorem slotAfter_of_err {M D : Type} [Message M] (p : parallelProcessor M D) (c : Context)
    (msg : M) (e : Error) (h : taskErr p c msg = some e) :
    slotAfter p c msg = builtDocument.zero := by
  simp [slotAfter, h]

theorem slotAfter_of_nil {M D : Type} [Message M] (p : parallelProcessor M D) (c : Context)
    (msg : M) (h : builtDocs p c msg = Slice.nil) :
    slotAfter p c msg = builtDocument.zero := by
  unfold slotAfter
  cases taskErr p c msg <;> simp [h]

theorem slotAfter_of_mk {M D : Type} [Message M] (p : parallelProcessor M D) (c : Context)
    (msg : M) (elems : List D) (he : taskErr p c msg = none)
    (h : builtDocs p c msg = Slice.mk elems) :
    slotAfter p c msg = ⟨Slice.mk elems, Message.GetNamespace msg⟩ := by
  simp [slotAfter, he, h]

theorem slotAfter_eq_slotOf {M D : Type} [Message M] (p : parallelProcessor M D) (c : Context)
    (msg : M) (he : taskErr p c msg = none) : slotAfter p c msg = slotOf p c msg := by
  unfold slotAfter slotOf
  cases builtDocs p c msg <;> simp [he, builtDocument.zero]

theorem interleavedInv_stepTask {M D : Type} [Message M] (p : parallelProcessor M D)
    (ctx : Context) (msgs : List M) (st : Interleaved D) (k : Nat)
    (h : interleavedInv p ctx msgs st) : interleavedInv p ctx msgs (stepTask p ctx msgs st k) := by
  obtain ⟨hl1, hl2, hfail, hph⟩ := h
  cases hk : msgs[k]? with
  | none =>
    have hst : stepTask p ctx msgs st k = st := by simp [stepTask, hk]
    rw [hst]
    exact ⟨hl1, hl2, hfail, hph⟩
  | some msgk =>
    obtain ⟨phase, c, hp, hc, hcerr, hok⟩ := hph k msgk hk
    have hklt : k < st.phases.length := (List.getElem?_eq_some_iff.1 hp).1
    have hklt2 : k < st.builtDocuments.length := by omega
    have hmem : msgk ∈ msgs := List.getElem?_mem hk
    have others : ∀ (st' : Interleaved D), (st'.err = none → st.err = none) →
        (∀ i, i ≠ k → st'.phases[i]? = st.phases[i]?) →
        (∀ i, i ≠ k → st'.builtDocuments[i]? = st.builtDocuments[i]?) →
        ∀ (i : Nat) (msg : M), i ≠ k → msgs[i]? = some msg →
          ∃ (phase : TaskPhase D) (c : Context), st'.phases[i]? = some phase ∧
            (c = ctx ∨ c = ⟨true⟩) ∧ (st'.err = none → c = ctx) ∧
            phaseOK p c msg st'.builtDocuments[i]? st'.err phase := by
      intro st' hmono h1 h2 i msg hik hi
      obtain ⟨ph, c', g1, g2, g3, g4⟩ := hph i msg hi
      refine ⟨ph, c', (h1 i hik).trans g1, g2, fun he => g3 (hmono he), ?_⟩
      rw [h2 i hik]
      exact phaseOK_mono p c' msg _ _ _ ph hmono g4
    have self : ∀ (st' : Interleaved D) (i : Nat) (msg : M), i = k → msgs[i]? = some msg →
        (∃ (phase : TaskPhase D) (c : Context), st'.phases[k]? = some phase ∧
            (c = ctx ∨ c = ⟨true⟩) ∧ (st'.err = none → c = ctx) ∧
            phaseOK p c msgk st'.builtDocuments[k]? st'.err phase) →
          ∃ (phase : TaskPhase D) (c : Context), st'.phases[i]? = some phase ∧
            (c = ctx ∨ c = ⟨true⟩) ∧ (st'.err = none → c = ctx) ∧
            phaseOK p c msg st'.builtDocuments[i]? st'.err phase := by
      intro st' i msg hik hi hex
      subst hik
      rw [hk] at hi
      cases Option.some.inj hi
      exact hex
    cases phase with
    | done =>
      have hst : stepTask p ctx msgs st k = st := by simp [stepTask, hk, hp]
      rw [hst]
      exact ⟨hl1, hl2, hfail, hph⟩
    | pending =>
      have hst : stepTask p ctx msgs st k = ⟨st.phases.set k
          (TaskPhase.called (builtDocs p (st.ctx ctx) msgk) (taskErr p (st.ctx ctx) msgk)),
          st.builtDocuments, st.err⟩ := by
        simp [stepTask, hk, hp, callTask_eq]
      rw [hst]
      refine ⟨by simpa using hl1, hl2, hfail, ?_⟩
      intro i msg hi
      by_cases hik : i = k
      · apply self _ i msg hik hi
        refine ⟨TaskPhase.called (builtDocs p (st.ctx ctx) msgk) (taskErr p (st.ctx ctx) msgk),
          st.ctx ctx, by simp [hklt], interleaved_ctx_cases st ctx,
          fun he => interleaved_ctx_of_err_none st ctx he, ?_⟩
        exact ⟨hok, rfl, rfl⟩
      · refine others _ ?_ ?_ ?_ i msg hik hi
        · exact id
        · intro j hj
          simp [List.getElem?_set_ne (Ne.symm hj)]
        · intro j _
          rfl
    | called documents e =>
      obtain ⟨hslot, hd, he⟩ := hok
      cases e with
      | some x =>
        have hst : stepTask p ctx msgs st k = ⟨st.phases.set k TaskPhase.done,
            st.builtDocuments, match st.err with
                               | some first => some first
                               | none => some x⟩ := by
          simp [stepTask, hk, hp, returnTask]
        rw [hst]
        have hne : (match st.err with
                    | some first => some first
                    | none => some x) ≠ none := by
          cases st.err <;> simp
        refine ⟨by simpa using hl1, hl2, ?_, ?_⟩
        · intro _
          by_cases hse : st.err = none
          · exact ⟨msgk, hmem, by rw [← hcerr hse, ← he]; simp⟩
          · exact hfail hse
        · intro i msg hi
          by_cases hik : i = k
          · apply self _ i msg hik hi
            refine ⟨TaskPhase.done, c, by simp [hklt], hc, fun h0 => absurd h0 hne, ?_, ?_⟩
            · show st.builtDocuments[k]? = _
              rw [hslot, slotAfter_of_err p c msgk x he.symm]
            · intro h0
              exact absurd h0 hne
          · refine others _ ?_ ?_ ?_ i msg hik hi
            · intro h0
              exact absurd h0 hne
            · intro j hj
              simp [List.getElem?_set_ne (Ne.symm hj)]
            · intro j _
              rfl
      | none =>
        cases documents with
        | nil =>
          have hst : stepTask p ctx msgs st k = ⟨st.phases.set k TaskPhase.done,
              st.builtDocuments, st.err⟩ := by
            simp [stepTask, hk, hp, returnTask]
          rw [hst]
          refine ⟨by simpa using hl1, hl2, hfail, ?_⟩
          intro i msg hi
          by_cases hik : i = k
          · apply self _ i msg hik hi
            refine ⟨TaskPhase.done, c, by simp [hklt], hc, hcerr, ?_, fun _ => he.symm⟩
            show st.builtDocuments[k]? = _
            rw [hslot, slotAfter_of_nil p c msgk hd.symm]
          · refine others _ ?_ ?_ ?_ i msg hik hi
            · exact id
            · intro j hj
              simp [List.getElem?_set_ne (Ne.symm hj)]
            · intro j _
              rfl
        | mk elems =>
          have hst : stepTask p ctx msgs st k = ⟨st.phases.set k TaskPhase.done,
              st.builtDocuments.set k ⟨Slice.mk elems, Message.GetNamespace msgk⟩,
              st.err⟩ := by
            simp [stepTask, hk, hp, returnTask]
          rw [hst]
          refine ⟨by simpa using hl1, by simpa using hl2, hfail, ?_⟩
          intro i msg hi
          by_cases hik : i = k
          · apply self _ i msg hik hi
            refine ⟨TaskPhase.done, c, by simp [hklt], hc, hcerr, ?_, fun _ => he.symm⟩
            show (st.builtDocuments.set k _)[k]? = _
            rw [slotAfter_of_mk p c msgk elems he.symm hd.symm]
            simp [hklt2]
          · refine others _ ?_ ?_ ?_ i msg hik hi
            · exact id
            · intro j hj
              simp [List.getElem?_set_ne (Ne.symm hj)]
            · intro j hj
              simp [List.getElem?_set_ne (Ne.symm hj)]

theorem interleavedInv_foldl_stepTask {M D : Type} [Message M] (p : parallelProcessor M D)
    (ctx : Context) (msgs : List M) (steps : List Nat) (st : Interleaved D)
    (h : interleavedInv p ctx msgs st) :
    interleavedInv p ctx msgs (steps.foldl (stepTask p ctx msgs) st) := by
  induction steps generalizing st with
  | nil => exact h
  | cons k steps ih => exact ih _ (interleavedInv_stepTask p ctx msgs st k h)

theorem interleavedInv_runSteps {M D : Type} [Message M] (p : parallelProcessor M D)
    (ctx : Context) (msgs : List M) (steps : List Nat) :
    interleavedInv p ctx msgs (runSteps p ctx msgs steps : Interleaved D) := by
  unfold runSteps
  apply interleavedInv_foldl_stepTask
  refine ⟨by simp, by simp, fun h => absurd rfl h, ?_⟩
  intro i msg hi
  have hlt : i < msgs.length := (List.getElem?_eq_some_iff.1 hi).1
  refine ⟨TaskPhase.pending, ctx, by simp [hlt], Or.inl rfl, fun _ => rfl, ?_⟩
  show (List.replicate msgs.length builtDocument.zero)[i]? = some builtDocument.zero
  simp [hlt]

theorem count_taskActions (n j : Nat) (h : j < n) : (taskActions n).count j = 2 := by
  have h1 : (List.range n).count j = 1 :=
    List.count_eq_one_of_mem (List.nodup_range n) (List.mem_range.2 h)
  simp [taskActions, List.count_append, h1]

theorem runSteps_phases {M D : Type} [Message M] (p : parallelProcessor M D)
    (ctx : Context) (msgs : List M) (steps : List Nat)
    (hperm : steps.Perm (taskActions msgs.length)) :
    (runSteps p ctx msgs steps : Interleaved D).phases =
      List.replicate msgs.length TaskPhase.done := by
  have hlen := (interleavedInv_runSteps p ctx msgs steps (D := D)).1
  apply List.ext_getElem?
  intro j
  by_cases hj : j < msgs.length
  · have hprog := progressAt_foldl_stepTask p ctx msgs steps
      ({ phases := List.replicate msgs.length TaskPhase.pending,
         builtDocuments := List.replicate msgs.length builtDocument.zero,
         err := none } : Interleaved D) j (by simp)
    rw [hperm.count_eq, count_taskActions _ _ hj] at hprog
    have hj2 : j < (runSteps p ctx msgs steps : Interleaved D).phases.length := by omega
    change progressAt (runSteps p ctx msgs steps) j = _ at hprog
    unfold progressAt at hprog
    rw [List.getElem?_eq_getElem hj2] at hprog ⊢
    simp only [List.getElem?_replicate, hj, if_true]
    cases hph : (runSteps p ctx msgs steps : Interleaved D).phases[j] with
    | done => rfl
    | pending => simp [hph, TaskPhase.progress, hj] at hprog
    | called documents e => simp [hph, TaskPhase.progress, hj] at hprog
  · have h1 : msgs.length ≤ j := Nat.le_of_not_lt hj
    rw [List.getElem?_eq_none (by omega), List.getElem?_eq_none (by simpa using h1)]

theorem runSteps_done {M D : Type} [Message M] (p : parallelProcessor M D)
    (ctx : Context) (msgs : List M) (steps : List Nat)
    (hperm : steps.Perm (taskActions msgs.length)) (i : Nat) (msg : M)
    (hi : msgs[i]? = some msg) :
    ∃ c : Context, (c = ctx ∨ c = ⟨true⟩) ∧
      ((runSteps p ctx msgs steps : Interleaved D).err = none → c = ctx) ∧
      (runSteps p ctx msgs steps : Interleaved D).builtDocuments[i]? =
        some (slotAfter p c msg) ∧
      ((runSteps p ctx msgs steps : Interleaved D).err = none → taskErr p c msg = none) := by
  obtain ⟨_, _, _, hph⟩ := interleavedInv_runSteps p ctx msgs steps (D := D)
  obtain ⟨phase, c, h1, h2, h3, h4⟩ := hph i msg hi
  have hlt : i < msgs.length := (List.getElem?_eq_some_iff.1 hi).1
  rw [runSteps_phases p ctx msgs steps hperm] at h1
  simp only [List.getElem?_replicate, hlt, if_true] at h1
  cases Option.some.inj h1
  exact ⟨c, h2, h3, h4.1, h4.2⟩

theorem runSteps_err_eq_none_iff {M D : Type} [Message M] (p : parallelProcessor M D)
    (ctx : Context) (msgs : List M) (steps : List Nat)
    (hperm : steps.Perm (taskActions msgs.length)) :
    (runSteps p ctx msgs steps : Interleaved D).err = none ↔
      ∀ msg ∈ msgs, taskErr p ctx msg = none := by
  constructor
  · intro he msg hmsg
    obtain ⟨i, hi, rfl⟩ := List.getElem_of_mem hmsg
    obtain ⟨c, _, h2, _, h4⟩ :=
      runSteps_done p ctx msgs steps hperm i msgs[i] (List.getElem?_eq_getElem hi)
    rw [← h2 he]
    exact h4 he
  · intro h
    by_contra hne
    obtain ⟨msg, hmsg, hfail⟩ := (interleavedInv_runSteps p ctx msgs steps (D := D)).2.2.1 hne
    exact hfail (h msg hmsg)

theorem runSteps_builtDocuments {M D : Type} [Message M] (p : parallelProcessor M D)
    (ctx : Context) (msgs : List M) (steps : List Nat)
    (hperm : steps.Perm (taskActions msgs.length))
    (he : (runSteps p ctx msgs steps : Interleaved D).err = none) :
    (runSteps p ctx msgs steps : Interleaved D).builtDocuments = msgs.map (slotOf p ctx) := by
  have hlen := (interleavedInv_runSteps p ctx msgs steps (D := D)).2.1
  apply List.ext_getElem?
  intro j
  by_cases hj : j < msgs.length
  · obtain ⟨c, _, h2, h3, h4⟩ :=
      runSteps_done p ctx msgs steps hperm j msgs[j] (List.getElem?_eq_getElem hj)
    rw [h3, slotAfter_eq_slotOf p c _ (h4 he), h2 he]
    simp [List.getElem?_eq_getElem hj]
  · have h1 : msgs.length ≤ j := Nat.le_of_not_lt hj
    rw [List.getElem?_eq_none (by omega), List.getElem?_eq_none (by simpa using h1)]

theorem slotAfter_of_insensitive {M D : Type} [Message M] (p : parallelProcessor M D)
    (ctx c : Context) (msg : M) (hc : c = ctx ∨ c = ⟨true⟩)
    (h : ∀ b, p.builders (Message.GetType msg) = some b →
      b.Build ⟨true⟩ msg = b.Build ctx msg) :
    slotAfter p c msg = (slotAfter p ctx msg : builtDocument D) := by
  rcases hc with rfl | rfl
  · rfl
  · unfold slotAfter taskErr builtDocs
    cases hb : p.builders (Message.GetType msg) with
    | none => rfl
    | some b => simp only [h b hb]

theorem runSteps_builtDocuments_of_insensitive {M D : Type} [Message M]
    (p : parallelProcessor M D) (ctx : Context) (msgs : List M) (steps : List Nat)
    (hperm : steps.Perm (taskActions msgs.length))
    (h : ∀ msg ∈ msgs, ∀ b, p.builders (Message.GetType msg) = some b →
      b.Build ⟨true⟩ msg = b.Build ctx msg) :
    (runSteps p ctx msgs steps : Interleaved D).builtDocuments =
      msgs.map (slotAfter p ctx) := by
  have hlen := (interleavedInv_runSteps p ctx msgs steps (D := D)).2.1
  apply List.ext_getElem?
  intro j
  by_cases hj : j < msgs.length
  · obtain ⟨c, h1, _, h3, _⟩ :=
      runSteps_done p ctx msgs steps hperm j msgs[j] (List.getElem?_eq_getElem hj)
    rw [h3, slotAfter_of_insensitive p ctx c _ h1 (h _ (List.getElem_mem hj))]
    simp [List.getElem?_eq_getElem hj]
  · have h1 : msgs.length ≤ j := Nat.le_of_not_lt hj
    rw [List.getElem?_eq_none (by omega), List.getElem?_eq_none (by simpa using h1)]

theorem stepTask_stepTask_eq_task {M D : Type} [Message M] (p : parallelProcessor M D)
    (ctx : Context) (msgs : List M) (g : Group M D) (st : Interleaved D) (t : Nat × M)
    (ht : msgs[t.1]? = some t.2) (hp : st.phases[t.1]? = some TaskPhase.pending)
    (hs : g.builtDocuments = st.builtDocuments) (he : g.err = st.err) :
    (task p ctx g t).builtDocuments =
        (stepTask p ctx msgs (stepTask p ctx msgs st t.1) t.1).builtDocuments ∧
      (task p ctx g t).err = (stepTask p ctx msgs (stepTask p ctx msgs st t.1) t.1).err := by
  have hlt : t.1 < st.phases.length := (List.getElem?_eq_some_iff.1 hp).1
  have hc : g.ctx ctx = st.ctx ctx := by simp [Group.ctx, Interleaved.ctx, he]
  have h1 : stepTask p ctx msgs st t.1 = ⟨st.phases.set t.1
      (TaskPhase.called (builtDocs p (st.ctx ctx) t.2) (taskErr p (st.ctx ctx) t.2)),
      st.builtDocuments, st.err⟩ := by
    simp [stepTask, ht, hp, callTask_eq]
  rw [h1]
  cases hb : p.builders (Message.GetType t.2) with
  | none =>
    cases hfirst : st.err <;>
      simp [stepTask, ht, hlt, returnTask, task, builtDocs, taskErr, hb, Group.fail,
        Group.emit, hs, he, hfirst]
  | some b =>
    rcases hr : b.Build (st.ctx ctx) t.2 with ⟨docs, e⟩
    cases e <;> cases docs <;> cases hfirst : st.err <;>
      simp [stepTask, ht, hlt, returnTask, task, builtDocs, taskErr, hb, hc, hr, Group.fail,
        Group.emit, hs, he, hfirst]

theorem foldl_task_eq_foldl_stepTask {M D : Type} [Message M] (p : parallelProcessor M D)
    (ctx : Context) (msgs : List M) (ts : List (Nat × M)) (g : Group M D) (st : Interleaved D)
    (hnd : (ts.map Prod.fst).Nodup) (hts : ∀ t ∈ ts, msgs[t.1]? = some t.2)
    (hp : ∀ t ∈ ts, st.phases[t.1]? = some TaskPhase.pending)
    (hs : g.builtDocuments = st.builtDocuments) (he : g.err = st.err) :
    (ts.foldl (task p ctx) g).builtDocuments =
        ((ts.flatMap (fun t => [t.1, t.1])).foldl (stepTask p ctx msgs) st).builtDocuments ∧
      (ts.foldl (task p ctx) g).err =
        ((ts.flatMap (fun t => [t.1, t.1])).foldl (stepTask p ctx msgs) st).err := by
  induction ts generalizing g st with
  | nil => exact ⟨hs, he⟩
  | cons t ts ih =>
    rw [List.map_cons, List.nodup_cons] at hnd
    obtain ⟨h1, h2⟩ := stepTask_stepTask_eq_task p ctx msgs g st t
      (hts t (List.mem_cons_self _ _)) (hp t (List.mem_cons_self _ _)) hs he
    simp only [List.flatMap_cons, List.foldl_cons, List.foldl_append, List.foldl_nil]
    apply ih _ _ hnd.2 (fun u hu => hts u (List.mem_cons_of_mem _ hu)) _ h1 h2
    intro u hu
    have hne : u.1 ≠ t.1 := fun h => hnd.1 (h ▸ List.mem_map_of_mem Prod.fst hu)
    rw [stepTask_phases_ne p ctx msgs _ t.1 u.1 hne, stepTask_phases_ne p ctx msgs _ t.1 u.1 hne]
    exact hp u (List.mem_cons_of_mem _ hu)

theorem perm_taskActions {M : Type} (schedule : Order (Nat × M)) (msgs : List M) :
    ((schedule.visit msgs.enum).flatMap (fun t => [t.1, t.1])).Perm
      (taskActions msgs.length) := by
  have h1 : ((schedule.visit msgs.enum).flatMap (fun t => [t.1, t.1])).Perm
      (msgs.enum.flatMap (fun t => [t.1, t.1])) := (schedule.perm msgs.enum).flatMap_right _
  refine h1.trans ?_
  have h2 : ∀ l : List (Nat × M), (l.flatMap (fun t => [t.1, t.1])).Perm
      (l.map Prod.fst ++ l.map Prod.fst) := by
    intro l
    induction l with
    | nil => exact List.Perm.refl _
    | cons x l ih =>
      simp only [List.flatMap_cons, List.map_cons, List.cons_append, List.nil_append]
      refine List.Perm.cons _ ?_
      exact (List.Perm.cons _ ih).trans List.perm_middle.symm
  have := h2 msgs.enum
  rwa [List.enum_map_fst] at this

theorem runTasks_eq_runSteps {M D : Type} [Message M] (p : parallelProcessor M D)
    (schedule : Order (Nat × M)) (ctx : Context) (msgs : List M) :
    (runTasks p schedule ctx msgs).builtDocuments =
        (runSteps p ctx msgs ((schedule.visit msgs.enum).flatMap (fun t => [t.1, t.1]))
          : Interleaved D).builtDocuments ∧
      (runTasks p schedule ctx msgs).err =
        (runSteps p ctx msgs ((schedule.visit msgs.enum).flatMap (fun t => [t.1, t.1]))
          : Interleaved D).err := by
  unfold runTasks runSteps
  apply foldl_task_eq_foldl_stepTask p ctx msgs _ _ _ (nodup_visit_enum schedule msgs)
    (fun t ht => (mem_visit_enum schedule msgs t).1 ht) _ rfl rfl
  intro t ht
  have hlt : t.1 < msgs.length :=
    (List.getElem?_eq_some_iff.1 ((mem_visit_enum schedule msgs t).1 ht)).1
  simp [hlt]

theorem Order.arrange_visit {α : Type} [DecidableEq α] (steps l : List α)
    (h : steps.Perm l) : (Order.arrange steps).visit l = steps := by
  simp [Order.arrange, h.symm]

theorem runInterleaved_err_eq_none_iff {M D : Type} [Message M] (p : parallelProcessor M D)
    (interleaving : Order Nat) (ctx : Context) (msgs : List M) :
    (runInterleaved p interleaving ctx msgs : Interleaved D).err = none ↔
      ∀ msg ∈ msgs, taskErr p ctx msg = none :=
  runSteps_err_eq_none_iff p ctx msgs _ (interleaving.perm _)

theorem runInterleaved_builtDocuments {M D : Type} [Message M] (p : parallelProcessor M D)
    (interleaving : Order Nat) (ctx : Context) (msgs : List M)
    (he : (runInterleaved p interleaving ctx msgs : Interleaved D).err = none) :
    (runInterleaved p interleaving ctx msgs : Interleaved D).builtDocuments =
      msgs.map (slotOf p ctx) :=
  runSteps_builtDocuments p ctx msgs _ (interleaving.perm _) he

theorem groupInterleaved_runInterleaved {M D : Type} [Message M] (p : parallelProcessor M D)
    (interleaving : Order Nat) (schedule : Order (Nat × M)) (ctx : Context) (msgs : List M) :
    groupInterleaved (runInterleaved p interleaving ctx msgs : Interleaved D) =
      (parallelBuildDocumentsByNamespace p schedule ctx msgs).documentsByNamespace := by
  by_cases hb : ∀ msg ∈ msgs, taskErr p ctx msg = none
  · have he := (runInterleaved_err_eq_none_iff p interleaving ctx msgs).2 hb
    rw [parallelBuild_documentsByNamespace p schedule ctx msgs hb]
    unfold groupInterleaved
    rw [he, runInterleaved_builtDocuments p interleaving ctx msgs he]
    rfl
  · rw [parallelBuild_documentsByNamespace_of_err p schedule ctx msgs
      (fun h => hb ((runTasks_err_eq_none_iff p schedule ctx msgs).1 h))]
    unfold groupInterleaved
    cases he : (runInterleaved p interleaving ctx msgs : Interleaved D).err with
    | none => exact absurd ((runInterleaved_err_eq_none_iff p interleaving ctx msgs).1 he) hb
    | some e => rfl

theorem runTasks_eq_runInterleaved {M D : Type} [Message M] (p : parallelProcessor M D)
    (schedule : Order (Nat × M)) (ctx : Context) (msgs : List M) :
    (runTasks p schedule ctx msgs).builtDocuments =
        (runInterleaved p
          (Order.arrange ((schedule.visit msgs.enum).flatMap (fun t => [t.1, t.1]))) ctx msgs
          : Interleaved D).builtDocuments ∧
      (runTasks p schedule ctx msgs).err =
        (runInterleaved p
          (Order.arrange ((schedule.visit msgs.enum).flatMap (fun t => [t.1, t.1]))) ctx msgs
          : Interleaved D).err := by
  unfold runInterleaved
  rw [Order.arrange_visit _ _ (perm_taskActions schedule msgs)]
  exact runTasks_eq_runSteps p schedule ctx msgs

/-! ## The properties of the specification -/

/-- C1 (as amended): on a processor built with no options, when every message's type is
registered and every builder call returns no error, `MakeDocuments` returns no error and as
many documents as the builders returned for the messages whose namespace is not empty. -/
theorem MakeDocuments_count_nonempty_namespace {M D : Type} [Message M]
    (builders : MessageType → Option (DocumentBuilder M D)) (rt : Runtime M D) (ctx : Context)
    (msgs : List M)
    (h : ∀ msg ∈ msgs, ∃ b, builders (Message.GetType msg) = some b ∧
      (b.Build ctx msg).2 = none) :
    (MakeDocuments (NewParallelProcessor builders []) rt ctx msgs).err = none ∧
    (MakeDocuments (NewParallelProcessor builders []) rt ctx msgs).documents.len =
      ((msgs.filter (fun msg => decide (Message.GetNamespace msg ≠ ""))).map
        (fun msg => (builtDocs (NewParallelProcessor builders []) ctx msg).len)).sum := by
  have ht : ∀ msg ∈ msgs, taskErr (NewParallelProcessor builders []) ctx msg = none :=
    fun msg hmsg => taskErr_eq_none_of_build _ ctx msg (h msg hmsg)
  have hb := (parallelBuild_err_eq_none_iff (NewParallelProcessor builders []) rt.schedule ctx
    msgs).2 ht
  have hok : ∀ e ∈ rt.mapRange.visit (groupMsgs (NewParallelProcessor builders []) ctx msgs []),
      ((NewParallelProcessor builders []).deduplicateDocuments e.2).2 = none := fun _ _ => rfl
  have herr : (deduplicateDocumentsForEachNamespace (NewParallelProcessor builders [])
      rt.mapRange (groupMsgs (NewParallelProcessor builders []) ctx msgs [])
        : Result M D).err = none := by
    unfold deduplicateDocumentsForEachNamespace
    rw [deduplicateLoop_err, Option.map_eq_none', List.findSome?_eq_none_iff]
    exact hok
  rw [MakeDocuments_of_dedup_ok _ rt ctx msgs hb herr]
  refine ⟨rfl, ?_⟩
  unfold deduplicateDocumentsForEachNamespace
  rw [deduplicateLoop_documents_of_ok _ _ _ _ hok]
  have hperm := ((rt.mapRange.perm (groupMsgs (NewParallelProcessor builders []) ctx msgs
    [])).flatMap_right (fun e => e.2.toList)).trans
    (flatMap_groupMsgs_perm (NewParallelProcessor builders []) ctx msgs [])
  have hlen := hperm.length_eq
  simp only [List.flatMap_nil, List.nil_append] at hlen
  change ([] ++ (rt.mapRange.visit (groupMsgs (NewParallelProcessor builders []) ctx msgs
    [])).flatMap (fun e => e.2.toList)).length = _
  rw [List.nil_append, hlen, List.flatMap_def, List.length_flatten, List.map_map]
  rfl

/-- C1 (counterexample): a batch of one message with an empty namespace whose builder returns
one document and no error. The builders returned one document in all, and `MakeDocuments`
returns none: the claim's equality fails. -/
theorem MakeDocuments_count_counterexample :
    (∀ msg ∈ emptyNamespaceBatch, ∃ b, oneDocumentBuilders (Message.GetType msg) = some b ∧
      (b.Build ⟨false⟩ msg).2 = none) ∧
    (emptyNamespaceBatch.map
      (fun msg => (builtDocs (NewParallelProcessor oneDocumentBuilders []) ⟨false⟩ msg).len)).sum
        = 1 ∧
    (MakeDocuments (NewParallelProcessor oneDocumentBuilders []) Runtime.inOrder ⟨false⟩
      emptyNamespaceBatch).documents.len = 0 ∧
    ¬ ((MakeDocuments (NewParallelProcessor oneDocumentBuilders []) Runtime.inOrder ⟨false⟩
        emptyNamespaceBatch).err = none ∧
      (MakeDocuments (NewParallelProcessor oneDocumentBuilders []) Runtime.inOrder ⟨false⟩
        emptyNamespaceBatch).documents.len =
      (emptyNamespaceBatch.map (fun msg =>
        (builtDocs (NewParallelProcessor oneDocumentBuilders []) ⟨false⟩ msg).len)).sum) :=
  ⟨oneDocumentBuilders_ok _ _ (by decide), by decide, by decide, by decide⟩

/-- C1 (witness): the amended count on a batch of three messages, one of them with an empty
namespace. -/
theorem MakeDocuments_count_nonempty_namespace_witness :
    (∀ msg ∈ mixedBatch, ∃ b, oneDocumentBuilders (Message.GetType msg) = some b ∧
      (b.Build ⟨false⟩ msg).2 = none) ∧
    (MakeDocuments (NewParallelProcessor oneDocumentBuilders []) Runtime.inOrder ⟨false⟩
      mixedBatch).err = none ∧
    (MakeDocuments (NewParallelProcessor oneDocumentBuilders []) Runtime.inOrder ⟨false⟩
      mixedBatch).documents.len =
      ((mixedBatch.filter (fun msg => decide (Message.GetNamespace msg ≠ ""))).map
        (fun msg => (builtDocs (NewParallelProcessor oneDocumentBuilders []) ⟨false⟩
          msg).len)).sum :=
  ⟨oneDocumentBuilders_ok _ _ (by decide),
    MakeDocuments_count_nonempty_namespace oneDocumentBuilders Runtime.inOrder ⟨false⟩
      mixedBatch (oneDocumentBuilders_ok _ _ (by decide))⟩

/-- C2: when the builds of a batch all succeed and the deduplication function succeeds on
every partition, `MakeDocuments` returns the concatenation, over the distinct partition
namespaces `ks` in some order, of the deduplicated partitions; with the default deduplication
this is the concatenation of the partitions themselves (each contiguous and in input order),
a permutation of all documents built from the messages with a non-empty namespace. -/
theorem MakeDocuments_documents_by_partition {M D : Type} [Message M]
    (p : parallelProcessor M D) (rt : Runtime M D) (ctx : Context) (msgs : List M)
    (hbuild : buildsSucceed p ctx msgs)
    (hdedup : ∀ n, isPartitionNamespace p ctx msgs n →
      (p.deduplicateDocuments (Slice.ofList (partition p ctx msgs n))).2 = none) :
    ∃ ks : List Namespace, ks.Nodup ∧ (∀ n, n ∈ ks ↔ isPartitionNamespace p ctx msgs n) ∧
      (MakeDocuments p rt ctx msgs).err = none ∧
      (MakeDocuments p rt ctx msgs).documents =
        Slice.mk (ks.flatMap (fun n =>
          (p.deduplicateDocuments (Slice.ofList (partition p ctx msgs n))).1.toList)) ∧
      (p.deduplicateDocuments = defaultDeduplicateDocumentsFunc →
        (MakeDocuments p rt ctx msgs).documents = Slice.mk (ks.flatMap (partition p ctx msgs)) ∧
        List.Perm (MakeDocuments p rt ctx msgs).documents.toList
          ((msgs.filter (fun msg => decide (Message.GetNamespace msg ≠ ""))).flatMap
            (fun msg => (builtDocs p ctx msg).toList))) := by
  have hb := buildsSucceed_parallelBuild p rt.schedule ctx msgs hbuild
  have hok : ∀ e ∈ groupMsgs p ctx msgs [], (p.deduplicateDocuments e.2).2 = none := by
    intro e he
    have h1 := mem_groupMsgs p ctx msgs e he
    rw [h1.2]
    exact hdedup e.1 h1.1
  have herr := deduplicate_err_eq_none (M := M) p rt.mapRange _ hok
  have hdocs : (MakeDocuments p rt ctx msgs).documents =
      Slice.mk (((rt.mapRange.visit (groupMsgs p ctx msgs [])).map Prod.fst).flatMap (fun n =>
        (p.deduplicateDocuments (Slice.ofList (partition p ctx msgs n))).1.toList)) := by
    rw [MakeDocuments_of_dedup_ok p rt ctx msgs hb herr]
    simp only
    rw [deduplicate_documents_of_ok p rt.mapRange _ hok]
    conv_lhs => rw [visit_groupMsgs_eq_map p ctx msgs rt.mapRange]
    rw [List.flatMap_map]
  refine ⟨(rt.mapRange.visit (groupMsgs p ctx msgs [])).map Prod.fst,
    nodup_visit_keys p ctx msgs rt.mapRange, mem_visit_keys_iff p ctx msgs rt.mapRange, ?_,
    hdocs, ?_⟩
  · rw [MakeDocuments_of_dedup_ok p rt ctx msgs hb herr]
  · intro hdef
    have hdocs2 : (MakeDocuments p rt ctx msgs).documents =
        Slice.mk (((rt.mapRange.visit (groupMsgs p ctx msgs [])).map Prod.fst).flatMap
          (partition p ctx msgs)) := by
      rw [hdocs, hdef]
      simp only [defaultDeduplicateDocumentsFunc, Slice.toList_ofList]
    refine ⟨hdocs2, ?_⟩
    have h1 : (MakeDocuments p rt ctx msgs).documents.toList =
        (rt.mapRange.visit (groupMsgs p ctx msgs [])).flatMap (fun e => e.2.toList) := by
      rw [hdocs2]
      change ((rt.mapRange.visit (groupMsgs p ctx msgs [])).map Prod.fst).flatMap
        (partition p ctx msgs) = _
      rw [List.flatMap_map]
      apply List.flatMap_congr
      intro e he
      rw [(mem_visit_groupMsgs p ctx msgs rt.mapRange e he).2, Slice.toList_ofList]
    rw [h1]
    have := ((rt.mapRange.perm (groupMsgs p ctx msgs [])).flatMap_right
      (fun e => e.2.toList)).trans (flatMap_groupMsgs_perm p ctx msgs [])
    simpa using this

/-- C2 (witness): the batch of the test "4 messages - 2 namespaces" with one document per
message, the default deduplication, tasks and map entries taken in reverse order. -/
theorem MakeDocuments_documents_by_partition_witness :
    buildsSucceed (NewParallelProcessor oneDocumentBuilders []) ⟨false⟩ twoNamespacesBatch ∧
    (∀ n, isPartitionNamespace (NewParallelProcessor oneDocumentBuilders []) ⟨false⟩
        twoNamespacesBatch n →
      ((NewParallelProcessor oneDocumentBuilders []).deduplicateDocuments (Slice.ofList
        (partition (NewParallelProcessor oneDocumentBuilders []) ⟨false⟩ twoNamespacesBatch
          n))).2 = none) ∧
    ∃ ks : List Namespace, ks.Nodup ∧
      (∀ n, n ∈ ks ↔ isPartitionNamespace (NewParallelProcessor oneDocumentBuilders [])
        ⟨false⟩ twoNamespacesBatch n) ∧
      (MakeDocuments (NewParallelProcessor oneDocumentBuilders []) Runtime.reversed ⟨false⟩
        twoNamespacesBatch).err = none ∧
      (MakeDocuments (NewParallelProcessor oneDocumentBuilders []) Runtime.reversed ⟨false⟩
        twoNamespacesBatch).documents =
        Slice.mk (ks.flatMap (fun n =>
          ((NewParallelProcessor oneDocumentBuilders []).deduplicateDocuments (Slice.ofList
            (partition (NewParallelProcessor oneDocumentBuilders []) ⟨false⟩
              twoNamespacesBatch n))).1.toList)) ∧
      ((NewParallelProcessor oneDocumentBuilders []).deduplicateDocuments =
          defaultDeduplicateDocumentsFunc →
        (MakeDocuments (NewParallelProcessor oneDocumentBuilders []) Runtime.reversed ⟨false⟩
          twoNamespacesBatch).documents =
          Slice.mk (ks.flatMap (partition (NewParallelProcessor oneDocumentBuilders [])
            ⟨false⟩ twoNamespacesBatch)) ∧
        List.Perm (MakeDocuments (NewParallelProcessor oneDocumentBuilders [])
          Runtime.reversed ⟨false⟩ twoNamespacesBatch).documents.toList
          ((twoNamespacesBatch.filter
            (fun msg => decide (Message.GetNamespace msg ≠ ""))).flatMap
            (fun msg => (builtDocs (NewParallelProcessor oneDocumentBuilders []) ⟨false⟩
              msg).toList))) :=
  ⟨oneDocumentBuilders_buildsSucceed _ _ (by decide), fun _ _ => rfl,
    MakeDocuments_documents_by_partition (NewParallelProcessor oneDocumentBuilders [])
      Runtime.reversed ⟨false⟩ twoNamespacesBatch
      (oneDocumentBuilders_buildsSucceed _ _ (by decide)) (fun _ _ => rfl)⟩

/-- C3 (as amended): when a batch contains a message whose type has no builder,
`MakeDocuments` returns no documents and an error with the code `ErrCodeBuildDocuments`; and
when no builder of the batch returns an error, that error is the BuilderNotFound condition
of an unregistered message of the batch (otherwise its cause is the error of whichever
failing task completed first). -/
theorem MakeDocuments_unregistered_type {M D : Type} [Message M] (p : parallelProcessor M D)
    (rt : Runtime M D) (ctx : Context) (msgs : List M)
    (h : ∃ msg ∈ msgs, p.builders (Message.GetType msg) = none) :
    (MakeDocuments p rt ctx msgs).documents = Slice.nil ∧
    (∃ e, (MakeDocuments p rt ctx msgs).err = some e) ∧
    GetCode (MakeDocuments p rt ctx msgs).err = ErrCodeBuildDocuments ∧
    ((∀ msg ∈ msgs, ∀ b, p.builders (Message.GetType msg) = some b →
        (b.Build ctx msg).2 = none) →
      ∃ msg ∈ msgs, p.builders (Message.GetType msg) = none ∧
        (MakeDocuments p rt ctx msgs).err = some (builderNotFound (Message.GetType msg))) := by
  obtain ⟨bad, hbad, hnone⟩ := h
  have hfail : ∃ msg ∈ msgs, taskErr p ctx msg ≠ none :=
    ⟨bad, hbad, (taskErr_ne_none_iff p ctx bad).2 (Or.inl hnone)⟩
  obtain ⟨msg, hmsg, cause, hc, hr⟩ := MakeDocuments_build_failed p rt ctx msgs hfail
  rw [hr]
  refine ⟨rfl, ⟨_, rfl⟩, code_buildError cause, fun hok => ⟨msg, hmsg, ?_⟩⟩
  unfold taskErr at hc
  cases hb : p.builders (Message.GetType msg) with
  | none =>
    simp only [hb, Option.some.injEq] at hc
    exact ⟨rfl, by rw [← hc]; rfl⟩
  | some b =>
    simp only [hb, hok msg hmsg b hb] at hc
    cases hc

/-- C3 (counterexample): the first message has a registered type and a builder that returns
an error, the second has an unregistered type; run in input order, `MakeDocuments` fails with
the builder's error as cause, not with the BuilderNotFound condition. -/
theorem MakeDocuments_unregistered_type_counterexample :
    (∃ msg ∈ failingThenUnregisteredBatch, errorsBuilders (Message.GetType msg) = none) ∧
    (MakeDocuments (NewParallelProcessor errorsBuilders []) Runtime.inOrder ⟨false⟩
      failingThenUnregisteredBatch).err =
        some (buildError (Error.New "document builder error")) ∧
    ¬ ∃ msg ∈ failingThenUnregisteredBatch,
      (MakeDocuments (NewParallelProcessor errorsBuilders []) Runtime.inOrder ⟨false⟩
        failingThenUnregisteredBatch).err = some (builderNotFound (Message.GetType msg)) := by
  refine ⟨⟨⟨"id-9", "tiramisu", "type-2"⟩, by decide, rfl⟩, by decide, ?_⟩
  rintro ⟨msg, -, hmsg⟩
  have h : (MakeDocuments (NewParallelProcessor errorsBuilders []) Runtime.inOrder ⟨false⟩
      failingThenUnregisteredBatch).err =
        some (buildError (Error.New "document builder error")) := by decide
  rw [h] at hmsg
  simp [buildError, builderNotFound] at hmsg

/-- C3 (witness): a batch whose second message has an unregistered type and whose first
message builds without error. -/
theorem MakeDocuments_unregistered_type_witness :
    (∃ msg ∈ unregisteredBatch, (NewParallelProcessor errorsBuilders []).builders
      (Message.GetType msg) = none) ∧
    (MakeDocuments (NewParallelProcessor errorsBuilders []) Runtime.inOrder ⟨false⟩
      unregisteredBatch).err = some (builderNotFound "type-2") ∧
    (MakeDocuments (NewParallelProcessor errorsBuilders []) Runtime.inOrder ⟨false⟩
      unregisteredBatch).documents = Slice.nil ∧
    (∃ e, (MakeDocuments (NewParallelProcessor errorsBuilders []) Runtime.inOrder ⟨false⟩
      unregisteredBatch).err = some e) ∧
    GetCode (MakeDocuments (NewParallelProcessor errorsBuilders []) Runtime.inOrder ⟨false⟩
      unregisteredBatch).err = ErrCodeBuildDocuments ∧
    ((∀ msg ∈ unregisteredBatch, ∀ b, (NewParallelProcessor errorsBuilders []).builders
        (Message.GetType msg) = some b → (b.Build ⟨false⟩ msg).2 = none) →
      ∃ msg ∈ unregisteredBatch, (NewParallelProcessor errorsBuilders []).builders
          (Message.GetType msg) = none ∧
        (MakeDocuments (NewParallelProcessor errorsBuilders []) Runtime.inOrder ⟨false⟩
          unregisteredBatch).err = some (builderNotFound (Message.GetType msg))) :=
  ⟨⟨⟨"id-9", "tiramisu", "type-2"⟩, by decide, rfl⟩, by decide,
    MakeDocuments_unregistered_type (NewParallelProcessor errorsBuilders []) Runtime.inOrder
      ⟨false⟩ unregisteredBatch ⟨⟨"id-9", "tiramisu", "type-2"⟩, by decide, rfl⟩⟩

/-- C4: `MakeDocuments` returns an error with the code `ErrCodeBuildDocuments` exactly when
some message of the batch has an unregistered type or a builder that returns an error; the
error then wraps the error of one of the failing messages, no documents are returned and the
deduplication function is not called. -/
theorem MakeDocuments_build_error_iff {M D : Type} [Message M] (p : parallelProcessor M D)
    (rt : Runtime M D) (ctx : Context) (msgs : List M) :
    (GetCode (MakeDocuments p rt ctx msgs).err = ErrCodeBuildDocuments ↔
      ∃ msg ∈ msgs, p.builders (Message.GetType msg) = none ∨
        ∃ b, p.builders (Message.GetType msg) = some b ∧ (b.Build ctx msg).2 ≠ none) ∧
    (GetCode (MakeDocuments p rt ctx msgs).err = ErrCodeBuildDocuments →
      (∃ msg ∈ msgs, ∃ cause, taskErr p ctx msg = some cause ∧
        (MakeDocuments p rt ctx msgs).err = some (buildError cause)) ∧
      (MakeDocuments p rt ctx msgs).documents = Slice.nil ∧
      dedupCalls (MakeDocuments p rt ctx msgs).events = []) := by
  rcases MakeDocuments_cases p rt ctx msgs with
    ⟨msg, hmsg, cause, hc, hr⟩ | ⟨hb, entry, -, cause, -, hr⟩ | ⟨hb, -, hr⟩
  · rw [hr]
    refine ⟨⟨fun _ => ⟨msg, hmsg, (taskErr_ne_none_iff p ctx msg).1 (by simp [hc])⟩,
      fun _ => code_buildError cause⟩, fun _ => ⟨⟨msg, hmsg, cause, hc, rfl⟩, rfl, ?_⟩⟩
    exact dedupCalls_runTasks p rt.schedule ctx msgs
  · have hcode : GetCode (MakeDocuments p rt ctx msgs).err ≠ ErrCodeBuildDocuments := by
      rw [hr]
      simp only [GetCode, code_deduplicateError]
      exact codes_ne.symm
    refine ⟨⟨fun h => absurd h hcode, ?_⟩, fun h => absurd h hcode⟩
    rintro ⟨msg, hmsg, hfail⟩
    exact absurd (hb msg hmsg) ((taskErr_ne_none_iff p ctx msg).2 hfail)
  · have hcode : GetCode (MakeDocuments p rt ctx msgs).err ≠ ErrCodeBuildDocuments := by
      rw [hr]
      exact getCode_none_ne.1
    refine ⟨⟨fun h => absurd h hcode, ?_⟩, fun h => absurd h hcode⟩
    rintro ⟨msg, hmsg, hfail⟩
    exact absurd (hb msg hmsg) ((taskErr_ne_none_iff p ctx msg).2 hfail)

/-- C5: when the build phase succeeds, `MakeDocuments` returns an error with the code
`ErrCodeDeduplicateDocuments` exactly when the deduplication function returns an error on
some entry of the grouped map; no documents are then returned; and when the grouped map is
empty the call succeeds, whatever the deduplication function. -/
theorem MakeDocuments_deduplicate_error_iff {M D : Type} [Message M]
    (p : parallelProcessor M D) (rt : Runtime M D) (ctx : Context) (msgs : List M)
    (hbuild : (parallelBuildDocumentsByNamespace p rt.schedule ctx msgs).err = none) :
    (GetCode (MakeDocuments p rt ctx msgs).err = ErrCodeDeduplicateDocuments ↔
      ∃ entry ∈ (parallelBuildDocumentsByNamespace p rt.schedule ctx msgs).documentsByNamespace,
        (p.deduplicateDocuments entry.2).2 ≠ none) ∧
    (GetCode (MakeDocuments p rt ctx msgs).err = ErrCodeDeduplicateDocuments →
      (MakeDocuments p rt ctx msgs).documents = Slice.nil) ∧
    ((parallelBuildDocumentsByNamespace p rt.schedule ctx msgs).documentsByNamespace = [] →
      (MakeDocuments p rt ctx msgs).err = none ∧
      (MakeDocuments p rt ctx msgs).documents = Slice.mk []) := by
  have hb := (parallelBuild_err_eq_none_iff p rt.schedule ctx msgs).1 hbuild
  rw [parallelBuild_documentsByNamespace p rt.schedule ctx msgs hb]
  rcases MakeDocuments_cases p rt ctx msgs with
    ⟨msg, hmsg, cause, hc, -⟩ | ⟨-, entry, hentry, cause, hc, hr⟩ | ⟨-, hok, hr⟩
  · rw [hb msg hmsg] at hc
    cases hc
  · rw [hr]
    refine ⟨⟨fun _ => ⟨entry, hentry, by simp [hc]⟩, fun _ => code_deduplicateError cause⟩,
      fun _ => rfl, fun hnil => ?_⟩
    rw [hnil] at hentry
    cases hentry
  · have hcode : GetCode (MakeDocuments p rt ctx msgs).err ≠ ErrCodeDeduplicateDocuments := by
      rw [hr]
      exact getCode_none_ne.2
    refine ⟨⟨fun h => absurd h hcode, ?_⟩, fun h => absurd h hcode, fun hnil => ?_⟩
    · rintro ⟨entry, hentry, hfail⟩
      exact absurd (hok entry hentry) hfail
    · rw [hr, hnil]
      have : rt.mapRange.visit ([] : GoMap D) = [] := List.Perm.eq_nil (rt.mapRange.perm [])
      simp [this]

/-- C5 (witness): the test "errors - deduplicate". -/
theorem MakeDocuments_deduplicate_error_iff_witness :
    (parallelBuildDocumentsByNamespace deduplicateTestProcessor
      Order.id ⟨false⟩ deduplicateTestBatch).err = none ∧
    ((GetCode (MakeDocuments deduplicateTestProcessor Runtime.inOrder ⟨false⟩
        deduplicateTestBatch).err = ErrCodeDeduplicateDocuments ↔
      ∃ entry ∈ (parallelBuildDocumentsByNamespace deduplicateTestProcessor
          Order.id ⟨false⟩
          deduplicateTestBatch).documentsByNamespace,
        (deduplicateTestProcessor.deduplicateDocuments entry.2).2 ≠ none) ∧
    (GetCode (MakeDocuments deduplicateTestProcessor Runtime.inOrder ⟨false⟩
        deduplicateTestBatch).err = ErrCodeDeduplicateDocuments →
      (MakeDocuments deduplicateTestProcessor Runtime.inOrder ⟨false⟩
        deduplicateTestBatch).documents = Slice.nil) ∧
    ((parallelBuildDocumentsByNamespace deduplicateTestProcessor
        Order.id ⟨false⟩
        deduplicateTestBatch).documentsByNamespace = [] →
      (MakeDocuments deduplicateTestProcessor Runtime.inOrder ⟨false⟩
        deduplicateTestBatch).err = none ∧
      (MakeDocuments deduplicateTestProcessor Runtime.inOrder ⟨false⟩
        deduplicateTestBatch).documents = Slice.mk [])) :=
  ⟨by decide, MakeDocuments_deduplicate_error_iff deduplicateTestProcessor Runtime.inOrder
    ⟨false⟩ deduplicateTestBatch (by decide)⟩

/-- C6: the result of `MakeDocuments` is either a non-nil document list with a nil error, or
a nil document list with an error that carries exactly one of the two phase codes. -/
theorem MakeDocuments_result_shape {M D : Type} [Message M] (p : parallelProcessor M D)
    (rt : Runtime M D) (ctx : Context) (msgs : List M) :
    ((MakeDocuments p rt ctx msgs).documents.isNil = false ∧
      (MakeDocuments p rt ctx msgs).err = none) ∨
    ((MakeDocuments p rt ctx msgs).documents = Slice.nil ∧
      ∃ e, (MakeDocuments p rt ctx msgs).err = some e ∧
        ((e.code = ErrCodeBuildDocuments ∧ e.code ≠ ErrCodeDeduplicateDocuments) ∨
          (e.code = ErrCodeDeduplicateDocuments ∧ e.code ≠ ErrCodeBuildDocuments))) := by
  rcases MakeDocuments_cases p rt ctx msgs with
    ⟨msg, hmsg, cause, hc, hr⟩ | ⟨-, entry, hentry, cause, hc, hr⟩ | ⟨-, hok, hr⟩
  · rw [hr]
    refine Or.inr ⟨rfl, _, rfl, Or.inl ⟨code_buildError cause, ?_⟩⟩
    rw [code_buildError]
    exact codes_ne
  · rw [hr]
    refine Or.inr ⟨rfl, _, rfl, Or.inr ⟨code_deduplicateError cause, ?_⟩⟩
    rw [code_deduplicateError]
    exact codes_ne.symm
  · rw [hr]
    exact Or.inl ⟨rfl, rfl⟩

/-- C7: when the builds of a batch all succeed, the grouped map is the one of the batch
without its empty-namespace messages, every call of the deduplication function receives the
partition of a non-empty namespace, and with the default deduplication the documents returned
are, up to order, those returned for the batch without its empty-namespace messages. -/
theorem MakeDocuments_ignores_empty_namespace {M D : Type} [Message M]
    (p : parallelProcessor M D) (rt rt' : Runtime M D) (ctx : Context) (msgs : List M)
    (hbuild : buildsSucceed p ctx msgs) :
    (parallelBuildDocumentsByNamespace p rt.schedule ctx msgs).documentsByNamespace =
      (parallelBuildDocumentsByNamespace p rt'.schedule ctx
        (msgs.filter (fun msg => decide (Message.GetNamespace msg ≠ "")))).documentsByNamespace ∧
    (∀ call ∈ dedupCalls (MakeDocuments p rt ctx msgs).events,
      call.1 ≠ "" ∧ call.2 = Slice.ofList (partition p ctx msgs call.1)) ∧
    (p.deduplicateDocuments = defaultDeduplicateDocumentsFunc →
      List.Perm (MakeDocuments p rt ctx msgs).documents.toList
        (MakeDocuments p rt' ctx
          (msgs.filter (fun msg => decide (Message.GetNamespace msg ≠ "")))).documents.toList) := by
  have hkept := buildsSucceed_filter p ctx msgs
    (fun msg => decide (Message.GetNamespace msg ≠ "")) hbuild
  refine ⟨?_, ?_, ?_⟩
  · rw [parallelBuild_documentsByNamespace p rt.schedule ctx msgs
        (buildsSucceed_taskErr p ctx msgs hbuild),
      parallelBuild_documentsByNamespace p rt'.schedule ctx _
        (buildsSucceed_taskErr p ctx _ hkept), groupMsgs_filter]
  · intro call hcall
    rw [dedupCalls_MakeDocuments p rt ctx msgs
      (buildsSucceed_parallelBuild p rt.schedule ctx msgs hbuild)] at hcall
    have h := mem_visit_groupMsgs p ctx msgs rt.mapRange call (mem_visitedEntries _ _ _ hcall)
    exact ⟨h.1.1, h.2⟩
  · intro hdef
    refine (MakeDocuments_default_perm p rt ctx msgs hbuild hdef).trans ?_
    refine List.Perm.trans ?_ (MakeDocuments_default_perm p rt' ctx _ hkept hdef).symm
    rw [List.filter_filter]
    simp

/-- C7 (witness): a batch of three messages, the second with an empty namespace, run under two
different runtimes. -/
theorem MakeDocuments_ignores_empty_namespace_witness :
    buildsSucceed (NewParallelProcessor oneDocumentBuilders []) ⟨false⟩ mixedBatch ∧
    (MakeDocuments (NewParallelProcessor oneDocumentBuilders []) Runtime.inOrder ⟨false⟩
      mixedBatch).documents = Slice.mk [⟨"doc-id-1"⟩, ⟨"doc-id-3"⟩] ∧
    (parallelBuildDocumentsByNamespace (NewParallelProcessor oneDocumentBuilders [])
        Order.id ⟨false⟩ mixedBatch).documentsByNamespace =
      (parallelBuildDocumentsByNamespace (NewParallelProcessor oneDocumentBuilders [])
        Order.rev ⟨false⟩
        (mixedBatch.filter (fun msg => decide (Message.GetNamespace msg ≠ "")))
          ).documentsByNamespace ∧
    (∀ call ∈ dedupCalls (MakeDocuments (NewParallelProcessor oneDocumentBuilders [])
        Runtime.inOrder ⟨false⟩ mixedBatch).events,
      call.1 ≠ "" ∧ call.2 = Slice.ofList
        (partition (NewParallelProcessor oneDocumentBuilders []) ⟨false⟩ mixedBatch call.1)) ∧
    ((NewParallelProcessor oneDocumentBuilders []).deduplicateDocuments =
        defaultDeduplicateDocumentsFunc →
      List.Perm (MakeDocuments (NewParallelProcessor oneDocumentBuilders []) Runtime.inOrder
          ⟨false⟩ mixedBatch).documents.toList
        (MakeDocuments (NewParallelProcessor oneDocumentBuilders []) Runtime.reversed ⟨false⟩
          (mixedBatch.filter (fun msg => decide (Message.GetNamespace msg ≠ "")))
            ).documents.toList) :=
  ⟨oneDocumentBuilders_buildsSucceed _ _ (by decide), by decide,
    MakeDocuments_ignores_empty_namespace (NewParallelProcessor oneDocumentBuilders [])
      Runtime.inOrder Runtime.reversed ⟨false⟩ mixedBatch
      (oneDocumentBuilders_buildsSucceed _ _ (by decide))⟩

/-- C9 (as amended): when the build phase succeeds, a namespace is a key of the grouped map
exactly when it is not empty and the builder of at least one of its messages returned a
non-nil document list (a zero-length list counts); a namespace all of whose messages returned
nil is no key and gets no call of the deduplication function. -/
theorem parallelBuild_keys_iff {M D : Type} [Message M] (p : parallelProcessor M D)
    (rt : Runtime M D) (ctx : Context) (msgs : List M)
    (hbuild : (parallelBuildDocumentsByNamespace p rt.schedule ctx msgs).err = none) :
    (∀ n, n ∈ mapKeys
        (parallelBuildDocumentsByNamespace p rt.schedule ctx msgs).documentsByNamespace ↔
      n ≠ "" ∧ ∃ msg ∈ msgs, Message.GetNamespace msg = n ∧
        (builtDocs p ctx msg).isNil = false) ∧
    (∀ n, (∀ msg ∈ msgs, Message.GetNamespace msg = n → (builtDocs p ctx msg).isNil = true) →
      n ∉ mapKeys
        (parallelBuildDocumentsByNamespace p rt.schedule ctx msgs).documentsByNamespace ∧
      ∀ call ∈ dedupCalls (MakeDocuments p rt ctx msgs).events, call.1 ≠ n) := by
  have hkeys := parallelBuild_mapKeys_iff p rt.schedule ctx msgs hbuild
  have hno : ∀ n, (∀ msg ∈ msgs, Message.GetNamespace msg = n →
      (builtDocs p ctx msg).isNil = true) → ¬ isPartitionNamespace p ctx msgs n := by
    rintro n hn ⟨-, msg, hmsg, hns, hnil⟩
    rw [hn msg hmsg hns] at hnil
    cases hnil
  refine ⟨hkeys, fun n hn => ⟨fun hmem => hno n hn ((hkeys n).1 hmem), ?_⟩⟩
  intro call hcall hcn
  rw [dedupCalls_MakeDocuments p rt ctx msgs hbuild] at hcall
  have h := mem_visit_groupMsgs p ctx msgs rt.mapRange call (mem_visitedEntries _ _ _ hcall)
  exact hno n hn (hcn ▸ h.1)

/-- C9 (counterexample): one message of the namespace `tiramisu` whose builder returns a
zero-length, non-nil document list. No message produced a non-empty list, yet `tiramisu` is a
key of the grouped map and the deduplication function is called for it. -/
theorem parallelBuild_keys_iff_counterexample :
    (parallelBuildDocumentsByNamespace (NewParallelProcessor emptyListBuilders [])
      Order.id ⟨false⟩ singleBatch).err = none ∧
    (∀ msg ∈ singleBatch,
      (builtDocs (NewParallelProcessor emptyListBuilders []) ⟨false⟩ msg).toList = []) ∧
    "tiramisu" ∈ mapKeys (parallelBuildDocumentsByNamespace
      (NewParallelProcessor emptyListBuilders [])
      Order.id ⟨false⟩ singleBatch).documentsByNamespace ∧
    dedupCalls (MakeDocuments (NewParallelProcessor emptyListBuilders []) Runtime.inOrder
      ⟨false⟩ singleBatch).events = [("tiramisu", Slice.nil)] ∧
    ¬ ("tiramisu" ∈ mapKeys (parallelBuildDocumentsByNamespace
        (NewParallelProcessor emptyListBuilders [])
        Order.id ⟨false⟩
          singleBatch).documentsByNamespace ↔
      "tiramisu" ≠ "" ∧ ∃ msg ∈ singleBatch, Message.GetNamespace msg = "tiramisu" ∧
        (builtDocs (NewParallelProcessor emptyListBuilders []) ⟨false⟩ msg).toList ≠ []) := by
  decide

/-- C9 (witness): the test "3 messages - 4 documents - 1 noop": the namespace `potato`
has no message and `tiramisu` is the only key. -/
theorem parallelBuild_keys_iff_witness :
    (parallelBuildDocumentsByNamespace (NewParallelProcessor deduplicateTestBuilders [])
      Order.id ⟨false⟩ deduplicateTestBatch).err = none ∧
    mapKeys (parallelBuildDocumentsByNamespace (NewParallelProcessor deduplicateTestBuilders [])
      Order.id ⟨false⟩
        deduplicateTestBatch).documentsByNamespace = ["tiramisu"] ∧
    (∀ n, n ∈ mapKeys (parallelBuildDocumentsByNamespace
        (NewParallelProcessor deduplicateTestBuilders [])
        Order.id ⟨false⟩
          deduplicateTestBatch).documentsByNamespace ↔
      n ≠ "" ∧ ∃ msg ∈ deduplicateTestBatch, Message.GetNamespace msg = n ∧
        (builtDocs (NewParallelProcessor deduplicateTestBuilders []) ⟨false⟩ msg).isNil
          = false) ∧
    (∀ n, (∀ msg ∈ deduplicateTestBatch, Message.GetNamespace msg = n →
        (builtDocs (NewParallelProcessor deduplicateTestBuilders []) ⟨false⟩ msg).isNil
          = true) →
      n ∉ mapKeys (parallelBuildDocumentsByNamespace
        (NewParallelProcessor deduplicateTestBuilders [])
        Order.id ⟨false⟩
          deduplicateTestBatch).documentsByNamespace ∧
      ∀ call ∈ dedupCalls (MakeDocuments (NewParallelProcessor deduplicateTestBuilders [])
        Runtime.inOrder ⟨false⟩ deduplicateTestBatch).events, call.1 ≠ n) :=
  ⟨by decide, by decide,
    parallelBuild_keys_iff (NewParallelProcessor deduplicateTestBuilders []) Runtime.inOrder
      ⟨false⟩ deduplicateTestBatch (by decide)⟩

/-- C10: with the deduplication of the example program, which keeps one document per `ID`,
when the builds of a batch succeed and build `ExampleDocument` values (the type the strategy
is keyed on), `MakeDocuments` returns, for the distinct partition namespaces `ks` in some
order, the documents `kept n` of each: exactly one document of the partition of `n` for each
`ID` that occurs in it. Duplicates within a namespace collapse to one copy and the same `ID`
in two namespaces is kept in both. -/
theorem MakeDocuments_example_deduplicate {M : Type} [Message M]
    (p : parallelProcessor M AnyDocument) (idRange : Order (String × ExampleDocument))
    (rt : Runtime M AnyDocument) (ctx : Context) (msgs : List M)
    (hp : p.deduplicateDocuments = ExampleDeduplicateDocuments idRange)
    (hbuild : buildsSucceed p ctx msgs)
    (hdocs : ∀ msg ∈ msgs, Message.GetNamespace msg ≠ "" →
      ∀ d ∈ (builtDocs p ctx msg).toList, ∃ x, d = AnyDocument.ExampleDocument x) :
    ∃ (ks : List Namespace) (kept : Namespace → List ExampleDocument),
      ks.Nodup ∧ (∀ n, n ∈ ks ↔ isPartitionNamespace p ctx msgs n) ∧
      (MakeDocuments p rt ctx msgs).err = none ∧
      (MakeDocuments p rt ctx msgs).documents =
        Slice.mk (ks.flatMap (fun n => (kept n).map AnyDocument.ExampleDocument)) ∧
      ∀ n ∈ ks, ((kept n).map (fun d => d.ID)).Nodup ∧
        (∀ x ∈ kept n, AnyDocument.ExampleDocument x ∈ partition p ctx msgs n) ∧
        (∀ x, AnyDocument.ExampleDocument x ∈ partition p ctx msgs n →
          ∃ y ∈ kept n, y.ID = x.ID) := by
  have hb := buildsSucceed_parallelBuild p rt.schedule ctx msgs hbuild
  have hpart : ∀ n, n ≠ "" →
      (Slice.ofList (partition p ctx msgs n)).toList =
        (exampleDocuments (partition p ctx msgs n)).map AnyDocument.ExampleDocument := by
    intro n hn
    rw [Slice.toList_ofList,
      map_exampleDocuments _ (partition_all_example p ctx msgs n hdocs hn)]
  have hded : ∀ n, n ≠ "" →
      p.deduplicateDocuments (Slice.ofList (partition p ctx msgs n)) =
        (Slice.mk ((keptByID idRange (exampleDocuments (partition p ctx msgs n))).map
          AnyDocument.ExampleDocument), none) := by
    intro n hn
    rw [hp]
    exact ExampleDeduplicateDocuments_map idRange _ _ (hpart n hn)
  have hok : ∀ e ∈ groupMsgs p ctx msgs [], (p.deduplicateDocuments e.2).2 = none := by
    intro e he
    have h1 := mem_groupMsgs p ctx msgs e he
    rw [h1.2, hded e.1 h1.1.1]
  have herr := deduplicate_err_eq_none (M := M) p rt.mapRange _ hok
  refine ⟨(rt.mapRange.visit (groupMsgs p ctx msgs [])).map Prod.fst,
    fun n => keptByID idRange (exampleDocuments (partition p ctx msgs n)),
    nodup_visit_keys p ctx msgs rt.mapRange, mem_visit_keys_iff p ctx msgs rt.mapRange, ?_,
    ?_, ?_⟩
  · rw [MakeDocuments_of_dedup_ok p rt ctx msgs hb herr]
  · rw [MakeDocuments_of_dedup_ok p rt ctx msgs hb herr]
    simp only
    rw [deduplicate_documents_of_ok p rt.mapRange _ hok, List.flatMap_map]
    congr 1
    apply List.flatMap_congr
    intro e he
    have h1 := mem_visit_groupMsgs p ctx msgs rt.mapRange e he
    rw [h1.2, hded e.1 h1.1.1]
    rfl
  · intro n hn
    have hkey := (mem_visit_keys_iff p ctx msgs rt.mapRange n).1 hn
    have hex := map_exampleDocuments _ (partition_all_example p ctx msgs n hdocs hkey.1)
    obtain ⟨h1, h2, h3⟩ := keptByID_spec idRange (exampleDocuments (partition p ctx msgs n))
    refine ⟨h1, fun x hx => ?_, fun x hx => ?_⟩
    · rw [← hex]
      exact List.mem_map_of_mem _ (h2 x hx)
    · apply h3
      rw [← hex] at hx
      obtain ⟨y, hy, hyx⟩ := List.mem_map.1 hx
      cases hyx
      exact hy

/-- C10 (counterexample): the builds of the batch succeed and the pair (`namespace1`,
`1_Jane`) occurs among the documents built, but the message of `namespace2` built a document
that is not an `ExampleDocument`: the strategy's cast fails on it and `MakeDocuments` returns
no document at all. -/
theorem MakeDocuments_example_deduplicate_counterexample :
    mixedTypeProcessor.deduplicateDocuments = ExampleDeduplicateDocuments Order.id ∧
    buildsSucceed mixedTypeProcessor ⟨false⟩ mixedTypeBatch ∧
    AnyDocument.ExampleDocument (exampleDocumentWithID "1_Jane") ∈
      partition mixedTypeProcessor ⟨false⟩ mixedTypeBatch "namespace1" ∧
    (MakeDocuments mixedTypeProcessor Runtime.inOrder ⟨false⟩ mixedTypeBatch).documents =
      Slice.nil ∧
    (MakeDocuments mixedTypeProcessor Runtime.inOrder ⟨false⟩ mixedTypeBatch).err =
      some (deduplicateError (Error.New "failed to cast document")) ∧
    ¬ ∃ d ∈ (MakeDocuments mixedTypeProcessor Runtime.inOrder ⟨false⟩
        mixedTypeBatch).documents.toList,
      d = AnyDocument.ExampleDocument (exampleDocumentWithID "1_Jane") := by
  refine ⟨rfl, ?_, by decide, by decide, by decide, by decide⟩
  intro msg _
  refine ⟨mixedTypeBuilder, rfl, ?_⟩
  unfold mixedTypeBuilder
  by_cases h : msg.Namespace = "namespace2" <;> simp [h]

/-- C10 (witness): the messages of the example program: five messages, two of them identical
in the namespace `namespace1`, one with the same content in `namespace2`, one without
children; the builder returns one document per child. -/
theorem MakeDocuments_example_deduplicate_witness :
    (perChildProcessor Order.rev).deduplicateDocuments =
      ExampleDeduplicateDocuments Order.rev ∧
    buildsSucceed (perChildProcessor Order.rev) ⟨false⟩ exampleMessages ∧
    (∀ msg ∈ exampleMessages, Message.GetNamespace msg ≠ "" →
      ∀ d ∈ (builtDocs (perChildProcessor Order.rev) ⟨false⟩ msg).toList,
        ∃ x, d = AnyDocument.ExampleDocument x) ∧
    ∃ (ks : List Namespace) (kept : Namespace → List ExampleDocument),
      ks.Nodup ∧
      (∀ n, n ∈ ks ↔
        isPartitionNamespace (perChildProcessor Order.rev) ⟨false⟩ exampleMessages n) ∧
      (MakeDocuments (perChildProcessor Order.rev) Runtime.inOrder ⟨false⟩
        exampleMessages).err = none ∧
      (MakeDocuments (perChildProcessor Order.rev) Runtime.inOrder ⟨false⟩
        exampleMessages).documents =
        Slice.mk (ks.flatMap (fun n => (kept n).map AnyDocument.ExampleDocument)) ∧
      ∀ n ∈ ks, ((kept n).map (fun d => d.ID)).Nodup ∧
        (∀ x ∈ kept n, AnyDocument.ExampleDocument x ∈
          partition (perChildProcessor Order.rev) ⟨false⟩ exampleMessages n) ∧
        (∀ x, AnyDocument.ExampleDocument x ∈
            partition (perChildProcessor Order.rev) ⟨false⟩ exampleMessages n →
          ∃ y ∈ kept n, y.ID = x.ID) :=
  ⟨rfl, perChildProcessor_buildsSucceed Order.rev ⟨false⟩ exampleMessages,
    perChildProcessor_builds_examples Order.rev ⟨false⟩ exampleMessages,
    MakeDocuments_example_deduplicate (perChildProcessor Order.rev) Order.rev
      Runtime.inOrder ⟨false⟩ exampleMessages rfl
      (perChildProcessor_buildsSucceed Order.rev ⟨false⟩ exampleMessages)
      (perChildProcessor_builds_examples Order.rev ⟨false⟩ exampleMessages)⟩

/-- C11: for a fixed processor, caller context and batch, two runs of `MakeDocuments` under
any two runtimes (any completion order of the tasks, any iteration order of the map) both fail
or both succeed, fail in the same phase, and when they succeed return the same documents up to
order. -/
theorem MakeDocuments_runs_agree {M D : Type} [Message M] (p : parallelProcessor M D)
    (rt rt' : Runtime M D) (ctx : Context) (msgs : List M) :
    ((MakeDocuments p rt ctx msgs).err = none ↔ (MakeDocuments p rt' ctx msgs).err = none) ∧
    GetCode (MakeDocuments p rt ctx msgs).err = GetCode (MakeDocuments p rt' ctx msgs).err ∧
    ((MakeDocuments p rt ctx msgs).err = none →
      List.Perm (MakeDocuments p rt ctx msgs).documents.toList
        (MakeDocuments p rt' ctx msgs).documents.toList) := by
  by_cases hb : ∀ msg ∈ msgs, taskErr p ctx msg = none
  · by_cases hd : ∀ entry ∈ groupMsgs p ctx msgs [], (p.deduplicateDocuments entry.2).2 = none
    · obtain ⟨h1, h2⟩ := MakeDocuments_of_all_ok p rt ctx msgs hb hd
      obtain ⟨h1', h2'⟩ := MakeDocuments_of_all_ok p rt' ctx msgs hb hd
      rw [h1, h1', h2, h2']
      refine ⟨Iff.rfl, rfl, fun _ => ?_⟩
      exact ((rt.mapRange.perm _).flatMap_right _).trans
        ((rt'.mapRange.perm _).flatMap_right _).symm
    · push_neg at hd
      obtain ⟨-, c, h1⟩ := MakeDocuments_of_dedup_failed p rt ctx msgs hb hd
      obtain ⟨-, c', h1'⟩ := MakeDocuments_of_dedup_failed p rt' ctx msgs hb hd
      rw [h1, h1']
      refine ⟨by simp, ?_, by simp⟩
      simp only [GetCode, code_deduplicateError]
  · push_neg at hb
    obtain ⟨-, c, h1⟩ := MakeDocuments_of_build_failed p rt ctx msgs hb
    obtain ⟨-, c', h1'⟩ := MakeDocuments_of_build_failed p rt' ctx msgs hb
    rw [h1, h1']
    refine ⟨by simp, ?_, by simp⟩
    simp only [GetCode, code_buildError]

/-- C12: when every message's type is registered and every builder returns a nil document
list and no error, `MakeDocuments` returns no error and an empty, non-nil document list,
without calling the deduplication function; the empty batch is such a batch. -/
theorem MakeDocuments_all_skipped {M D : Type} [Message M] (p : parallelProcessor M D)
    (rt : Runtime M D) (ctx : Context) (msgs : List M)
    (h : ∀ msg ∈ msgs, ∃ b, p.builders (Message.GetType msg) = some b ∧
      b.Build ctx msg = (Slice.nil, none)) :
    (MakeDocuments p rt ctx msgs).err = none ∧
    (MakeDocuments p rt ctx msgs).documents = Slice.mk [] ∧
    (MakeDocuments p rt ctx msgs).documents.isNil = false ∧
    dedupCalls (MakeDocuments p rt ctx msgs).events = [] := by
  have hb : ∀ msg ∈ msgs, taskErr p ctx msg = none := by
    intro msg hmsg
    obtain ⟨b, hb, hr⟩ := h msg hmsg
    simp [taskErr, hb, hr]
  have hnil : ∀ msg ∈ msgs, (builtDocs p ctx msg).isNil = true := by
    intro msg hmsg
    obtain ⟨b, hb, hr⟩ := h msg hmsg
    simp [builtDocs, hb, hr, Slice.isNil]
  have hg := groupMsgs_eq_nil p ctx msgs hnil
  have hv : rt.mapRange.visit ([] : GoMap D) = [] := List.Perm.eq_nil (rt.mapRange.perm [])
  obtain ⟨h1, h2⟩ := MakeDocuments_of_all_ok p rt ctx msgs hb (by rw [hg]; simp)
  refine ⟨h1, ?_, ?_, ?_⟩
  · rw [h2, hg, hv]
    rfl
  · rw [h2]
    rfl
  · rw [dedupCalls_MakeDocuments p rt ctx msgs
      ((parallelBuild_err_eq_none_iff p rt.schedule ctx msgs).2 hb), hg, hv]
    rfl

/-- C12 (witness): the test "1 message - 1 noop", with a deduplication function that always
fails. -/
theorem MakeDocuments_all_skipped_witness :
    (∀ msg ∈ singleBatch, ∃ b,
      (NewParallelProcessor noopBuilders
        [WithDeduplicateDocumentsOption mockDeduplicateDocumentsFuncError]).builders
        (Message.GetType msg) = some b ∧ b.Build ⟨false⟩ msg = (Slice.nil, none)) ∧
    (MakeDocuments (NewParallelProcessor noopBuilders
      [WithDeduplicateDocumentsOption mockDeduplicateDocumentsFuncError]) Runtime.inOrder
      ⟨false⟩ singleBatch).err = none ∧
    (MakeDocuments (NewParallelProcessor noopBuilders
      [WithDeduplicateDocumentsOption mockDeduplicateDocumentsFuncError]) Runtime.inOrder
      ⟨false⟩ singleBatch).documents = Slice.mk [] ∧
    (MakeDocuments (NewParallelProcessor noopBuilders
      [WithDeduplicateDocumentsOption mockDeduplicateDocumentsFuncError]) Runtime.inOrder
      ⟨false⟩ singleBatch).documents.isNil = false ∧
    dedupCalls (MakeDocuments (NewParallelProcessor noopBuilders
      [WithDeduplicateDocumentsOption mockDeduplicateDocumentsFuncError]) Runtime.inOrder
      ⟨false⟩ singleBatch).events = [] :=
  ⟨fun _ hmsg => ⟨mockDocumentBuilder (fun _ => (Slice.nil, none)),
      by rw [List.mem_singleton.1 hmsg]; rfl, rfl⟩,
    MakeDocuments_all_skipped _ Runtime.inOrder ⟨false⟩ singleBatch
      (fun _ hmsg => ⟨mockDocumentBuilder (fun _ => (Slice.nil, none)),
        by rw [List.mem_singleton.1 hmsg]; rfl, rfl⟩)⟩

/-- C13 (as amended): a task, and each of its two actions when the tasks run concurrently,
leaves every result slot but the one at its own index as it is, so no two tasks write the same
slot. In every interleaving of the actions of the tasks (each task calls its builder, and
later returns) every task has returned at the join. For any two interleavings the build phase
fails in both or in neither and the namespace partitions it returns are the same; the result
slots are the same when no task has failed, the slot at each index then holding the result of
the message at that index, and also when no builder of the batch lets its result depend on
the cancellation of the context. The partitions are the ones
`parallelBuildDocumentsByNamespace` returns under every completion order, and each of its
completion orders is one of the interleavings. -/
theorem runInterleaved_slots_by_index {M D : Type} [Message M] (p : parallelProcessor M D)
    (ctx : Context) (msgs : List M) :
    (∀ (g : Group M D) (t : Nat × M) (j : Nat), j ≠ t.1 →
      (task p ctx g t).builtDocuments[j]? = g.builtDocuments[j]?) ∧
    (∀ (st : Interleaved D) (i j : Nat), j ≠ i →
      (stepTask p ctx msgs st i).builtDocuments[j]? = st.builtDocuments[j]?) ∧
    (∀ (st st' : Interleaved D) (i i' j : Nat), i ≠ i' →
      (stepTask p ctx msgs st i).builtDocuments[j]? ≠ st.builtDocuments[j]? →
      (stepTask p ctx msgs st' i').builtDocuments[j]? = st'.builtDocuments[j]?) ∧
    (∀ interleaving : Order Nat,
      (runInterleaved p interleaving ctx msgs : Interleaved D).phases =
        List.replicate msgs.length TaskPhase.done) ∧
    (∀ interleaving interleaving' : Order Nat,
      ((runInterleaved p interleaving ctx msgs : Interleaved D).err = none ↔
        (runInterleaved p interleaving' ctx msgs : Interleaved D).err = none) ∧
      groupInterleaved (runInterleaved p interleaving ctx msgs : Interleaved D) =
        groupInterleaved (runInterleaved p interleaving' ctx msgs) ∧
      ((runInterleaved p interleaving ctx msgs : Interleaved D).err = none →
        (runInterleaved p interleaving ctx msgs : Interleaved D).builtDocuments =
            (runInterleaved p interleaving' ctx msgs).builtDocuments ∧
          (runInterleaved p interleaving ctx msgs : Interleaved D).builtDocuments =
            msgs.map (slotOf p ctx)) ∧
      ((∀ msg ∈ msgs, ∀ b, p.builders (Message.GetType msg) = some b →
          b.Build ⟨true⟩ msg = b.Build ctx msg) →
        (runInterleaved p interleaving ctx msgs : Interleaved D).builtDocuments =
          (runInterleaved p interleaving' ctx msgs).builtDocuments)) ∧
    (∀ (interleaving : Order Nat) (schedule : Order (Nat × M)),
      groupInterleaved (runInterleaved p interleaving ctx msgs : Interleaved D) =
        (parallelBuildDocumentsByNamespace p schedule ctx msgs).documentsByNamespace) ∧
    (∀ schedule : Order (Nat × M), ∃ interleaving : Order Nat,
      (runTasks p schedule ctx msgs).builtDocuments =
          (runInterleaved p interleaving ctx msgs : Interleaved D).builtDocuments ∧
        (runTasks p schedule ctx msgs).err =
          (runInterleaved p interleaving ctx msgs : Interleaved D).err) := by
  refine ⟨fun g t j hj => task_builtDocuments_ne p ctx g t j hj,
    fun st i j hj => stepTask_frame p ctx msgs st i j hj, ?_,
    fun interleaving => runSteps_phases p ctx msgs _ (interleaving.perm _),
    fun interleaving interleaving' => ⟨?_, ?_, ?_, ?_⟩,
    fun interleaving schedule => groupInterleaved_runInterleaved p interleaving schedule ctx msgs,
    fun schedule => ⟨_, runTasks_eq_runInterleaved p schedule ctx msgs⟩⟩
  · intro st st' i i' j hne hwrite
    by_cases hj : j = i
    · exact stepTask_frame p ctx msgs st' i' j (fun h => hne (hj.symm.trans h))
    · exact absurd (stepTask_frame p ctx msgs st i j hj) hwrite
  · rw [runInterleaved_err_eq_none_iff, runInterleaved_err_eq_none_iff]
  · rw [groupInterleaved_runInterleaved p interleaving Order.id ctx msgs,
      groupInterleaved_runInterleaved p interleaving' Order.id ctx msgs]
  · intro he
    have he' : (runInterleaved p interleaving' ctx msgs : Interleaved D).err = none :=
      (runInterleaved_err_eq_none_iff p interleaving' ctx msgs).2
        ((runInterleaved_err_eq_none_iff p interleaving ctx msgs).1 he)
    rw [runInterleaved_builtDocuments p interleaving ctx msgs he,
      runInterleaved_builtDocuments p interleaving' ctx msgs he']
    exact ⟨rfl, rfl⟩
  · intro h
    unfold runInterleaved
    rw [runSteps_builtDocuments_of_insensitive p ctx msgs _ (interleaving.perm _) h,
      runSteps_builtDocuments_of_insensitive p ctx msgs _ (interleaving'.perm _) h]

/-- C13 (counterexample): the message `id-2` fails and the builder gives up when its context
is cancelled. In the interleaving in which the task of `id-1` calls its builder and returns
before the task of `id-2` starts, the slot of `id-1` holds a document after the join; in the
interleaving in which the task of `id-2` has returned before the task of `id-1` starts, the
context is cancelled, the builder of `id-1` returns an error and its slot stays empty: the
per-message results depend on the interleaving. The same two completion orders in
`MakeDocuments`: the diagnostic hook of `id-1` is called in the second and not in the
first. -/
theorem runInterleaved_slots_by_index_counterexample :
    (Order.arrange [0, 0, 1, 1]).visit (taskActions twoMessagesBatch.length) = [0, 0, 1, 1] ∧
    (Order.arrange [1, 1, 0, 0]).visit (taskActions twoMessagesBatch.length) = [1, 1, 0, 0] ∧
    (runInterleaved cancellationAwareProcessor (Order.arrange [0, 0, 1, 1]) ⟨false⟩
      twoMessagesBatch).builtDocuments.map (fun builtDoc => builtDoc.documents) =
        [Slice.mk [⟨"doc-id-1"⟩], Slice.nil] ∧
    (runInterleaved cancellationAwareProcessor (Order.arrange [1, 1, 0, 0]) ⟨false⟩
      twoMessagesBatch).builtDocuments.map (fun builtDoc => builtDoc.documents) =
        [Slice.nil, Slice.nil] ∧
    (runInterleaved cancellationAwareProcessor (Order.arrange [0, 0, 1, 1]) ⟨false⟩
      twoMessagesBatch).builtDocuments ≠
      (runInterleaved cancellationAwareProcessor (Order.arrange [1, 1, 0, 0]) ⟨false⟩
        twoMessagesBatch).builtDocuments ∧
    hookCalls (MakeDocuments cancellationAwareProcessor Runtime.inOrder ⟨false⟩
      twoMessagesBatch).events = [(1, ⟨"id-2", "tiramisu", "type-1"⟩)] ∧
    hookCalls (MakeDocuments cancellationAwareProcessor Runtime.reversed ⟨false⟩
      twoMessagesBatch).events =
      [(1, ⟨"id-2", "tiramisu", "type-1"⟩), (0, ⟨"id-1", "tiramisu", "type-1"⟩)] := by
  have h1 : (runInterleaved cancellationAwareProcessor (Order.arrange [0, 0, 1, 1]) ⟨false⟩
      twoMessagesBatch).builtDocuments.map (fun builtDoc => builtDoc.documents) =
        [Slice.mk [⟨"doc-id-1"⟩], Slice.nil] := by decide
  have h2 : (runInterleaved cancellationAwareProcessor (Order.arrange [1, 1, 0, 0]) ⟨false⟩
      twoMessagesBatch).builtDocuments.map (fun builtDoc => builtDoc.documents) =
        [Slice.nil, Slice.nil] := by decide
  refine ⟨by decide, by decide, h1, h2, fun h => ?_, by decide, by decide⟩
  rw [h] at h1
  rw [h1] at h2
  exact absurd h2 (by decide)

/-- C13 (witness): two messages whose builds succeed, and two interleavings in which the calls
of the builders overlap: both end without error, with the document of each message in the
slot at its index, and group them as `parallelBuildDocumentsByNamespace` does. -/
theorem runInterleaved_slots_by_index_witness :
    (Order.arrange [0, 1, 1, 0]).visit (taskActions twoMessagesBatch.length) = [0, 1, 1, 0] ∧
    (Order.arrange [1, 0, 0, 1]).visit (taskActions twoMessagesBatch.length) = [1, 0, 0, 1] ∧
    (runInterleaved (NewParallelProcessor oneDocumentBuilders []) (Order.arrange [0, 1, 1, 0])
      ⟨false⟩ twoMessagesBatch).err = none ∧
    (runInterleaved (NewParallelProcessor oneDocumentBuilders []) (Order.arrange [0, 1, 1, 0])
      ⟨false⟩ twoMessagesBatch).builtDocuments.map (fun builtDoc => builtDoc.documents) =
        [Slice.mk [⟨"doc-id-1"⟩], Slice.mk [⟨"doc-id-2"⟩]] ∧
    (runInterleaved (NewParallelProcessor oneDocumentBuilders []) (Order.arrange [0, 1, 1, 0])
      ⟨false⟩ twoMessagesBatch).builtDocuments =
      (runInterleaved (NewParallelProcessor oneDocumentBuilders []) (Order.arrange [1, 0, 0, 1])
        ⟨false⟩ twoMessagesBatch).builtDocuments ∧
    groupInterleaved (runInterleaved (NewParallelProcessor oneDocumentBuilders [])
      (Order.arrange [0, 1, 1, 0]) ⟨false⟩ twoMessagesBatch) =
      (parallelBuildDocumentsByNamespace (NewParallelProcessor oneDocumentBuilders [])
        Order.rev ⟨false⟩ twoMessagesBatch).documentsByNamespace :=
  ⟨by decide, by decide, by decide, by decide,
    (((runInterleaved_slots_by_index (NewParallelProcessor oneDocumentBuilders []) ⟨false⟩
      twoMessagesBatch).2.2.2.2.1 (Order.arrange [0, 1, 1, 0])
        (Order.arrange [1, 0, 0, 1])).2.2.1 (by decide)).1,
    (runInterleaved_slots_by_index (NewParallelProcessor oneDocumentBuilders []) ⟨false⟩
      twoMessagesBatch).2.2.2.2.2.1 (Order.arrange [0, 1, 1, 0]) Order.rev⟩

/-- C14: in every run of `MakeDocuments`, every call of a builder is on a message of the batch
whose type is registered; the builder of a message whose type is registered is called exactly
once, on that message, with the caller's context or the cancelled one; and no builder is called
for a message whose type is not registered. Failures of other messages change none of this. -/
theorem MakeDocuments_build_calls {M D : Type} [Message M] (p : parallelProcessor M D)
    (rt : Runtime M D) (ctx : Context) (msgs : List M) :
    (∀ call ∈ buildCalls (MakeDocuments p rt ctx msgs).events,
      msgs[call.1]? = some call.2.2 ∧
      (p.builders (Message.GetType call.2.2)).isSome = true) ∧
    (∀ i msg, msgs[i]? = some msg →
      (p.builders (Message.GetType msg) = none →
        (buildCalls (MakeDocuments p rt ctx msgs).events).filter
          (fun call => decide (call.1 = i)) = []) ∧
      (∀ b, p.builders (Message.GetType msg) = some b →
        ∃ c, (c = ctx ∨ c = ⟨true⟩) ∧
          (buildCalls (MakeDocuments p rt ctx msgs).events).filter
            (fun call => decide (call.1 = i)) = [(i, c, msg)])) := by
  refine ⟨fun call hcall => ?_, fun i msg hi => ?_⟩
  · rw [buildCalls_MakeDocuments, mem_buildCalls] at hcall
    obtain ⟨t, ht, c, hc⟩ := mem_runTasks_events p rt.schedule ctx msgs _ hcall
    rw [← mem_buildCalls, buildCalls_taskEvents] at hc
    cases hb : p.builders (Message.GetType t.2) with
    | none =>
      rw [hb] at hc
      cases hc
    | some b =>
      rw [hb] at hc
      rw [List.mem_singleton.1 hc]
      exact ⟨ht, by simp [hb]⟩
  · obtain ⟨c, hc, he⟩ := eventsAt_MakeDocuments_eq_taskEvents p rt ctx msgs i msg hi
    rw [← buildCalls_eventsAt, he, buildCalls_taskEvents]
    refine ⟨fun hb => ?_, fun b hb => ⟨c, hc, ?_⟩⟩
    · simp only [hb]
    · simp only [hb]

/-- C15 (as amended): for the message at each index of the batch, the diagnostic hook is
called exactly once when the message's type is unregistered; otherwise the builder is called
with some context, and the hook is called exactly once when that call returns an error or a
nil document list, and not at all when it returns a non-nil document list (of any length) and
no error. Every call of the hook is for a message of the batch. The result slots and the error
of the group never depend on the events recorded, so a call of the hook changes no result. -/
theorem MakeDocuments_hook_calls {M D : Type} [Message M] (p : parallelProcessor M D)
    (rt : Runtime M D) (ctx : Context) (msgs : List M) :
    (∀ i msg, msgs[i]? = some msg →
      (p.builders (Message.GetType msg) = none →
        (hookCalls (MakeDocuments p rt ctx msgs).events).filter
          (fun call => decide (call.1 = i)) = [(i, msg)]) ∧
      (∀ b, p.builders (Message.GetType msg) = some b →
        ∃ c, (c = ctx ∨ c = ⟨true⟩) ∧
          (i, c, msg) ∈ buildCalls (MakeDocuments p rt ctx msgs).events ∧
          (((b.Build c msg).2.isSome = true ∨ (b.Build c msg).1.isNil = true) →
            (hookCalls (MakeDocuments p rt ctx msgs).events).filter
              (fun call => decide (call.1 = i)) = [(i, msg)]) ∧
          (((b.Build c msg).2 = none ∧ (b.Build c msg).1.isNil = false) →
            (hookCalls (MakeDocuments p rt ctx msgs).events).filter
              (fun call => decide (call.1 = i)) = []))) ∧
    (∀ call ∈ hookCalls (MakeDocuments p rt ctx msgs).events, msgs[call.1]? = some call.2) ∧
    (∀ (g g' : Group M D) (ts : List (Nat × M)),
      g.builtDocuments = g'.builtDocuments → g.err = g'.err →
      (ts.foldl (task p ctx) g).builtDocuments = (ts.foldl (task p ctx) g').builtDocuments ∧
      (ts.foldl (task p ctx) g).err = (ts.foldl (task p ctx) g').err) := by
  refine ⟨fun i msg hi => ?_, fun call hcall => ?_, fun g g' ts hs he =>
    foldl_task_frame p ctx ts g g' hs he⟩
  · obtain ⟨c, hc, he⟩ := eventsAt_MakeDocuments_eq_taskEvents p rt ctx msgs i msg hi
    have hh : (hookCalls (MakeDocuments p rt ctx msgs).events).filter
        (fun call => decide (call.1 = i)) = hookCalls (taskEvents p c (i, msg)) := by
      rw [← hookCalls_eventsAt, he]
    have hbc : buildCalls (taskEvents p c (i, msg)) =
        (buildCalls (MakeDocuments p rt ctx msgs).events).filter
          (fun call => decide (call.1 = i)) := by
      rw [← buildCalls_eventsAt, he]
    rw [hh, hookCalls_taskEvents]
    rw [buildCalls_taskEvents] at hbc
    refine ⟨fun hb => by simp only [hb], fun b hb => ⟨c, hc, ?_, ?_, ?_⟩⟩
    · simp only [hb] at hbc
      have hm : (i, c, msg) ∈ (buildCalls (MakeDocuments p rt ctx msgs).events).filter
          (fun call => decide (call.1 = i)) := by
        rw [← hbc]
        exact List.mem_singleton.2 rfl
      exact List.mem_of_mem_filter hm
    · intro hcase
      have : ((b.Build c msg).2.isSome || (b.Build c msg).1.isNil) = true := by
        rcases hcase with h | h <;> simp [h]
      simp only [hb, this, if_true]
    · rintro ⟨h1, h2⟩
      have : ((b.Build c msg).2.isSome || (b.Build c msg).1.isNil) = false := by
        simp [h1, h2]
      simp [hb, this]
  · rw [hookCalls_MakeDocuments, mem_hookCalls] at hcall
    obtain ⟨t, ht, c, hc⟩ := mem_runTasks_events p rt.schedule ctx msgs _ hcall
    have hidx := index_of_mem_taskEvents p c t _ hc
    have hi : call.1 = t.1 := Option.some.inj hidx
    rw [← mem_hookCalls, hookCalls_taskEvents] at hc
    have hcall2 : call = (t.1, t.2) := by
      cases hb : p.builders (Message.GetType t.2) with
      | none =>
        rw [hb] at hc
        exact List.mem_singleton.1 hc
      | some b =>
        rw [hb] at hc
        simp only at hc
        split at hc
        · exact List.mem_singleton.1 hc
        · cases hc
    rw [hcall2]
    exact ht

/-- C15 (counterexample): the builder returns an empty, non-nil document list and no error
for the only message of the batch; the hook is not called. -/
theorem MakeDocuments_hook_calls_counterexample :
    (∀ msg ∈ singleBatch, ∃ b, emptyListBuilders (Message.GetType msg) = some b ∧
      b.Build ⟨false⟩ msg = (Slice.mk [], none)) ∧
    hookCalls (MakeDocuments (NewParallelProcessor emptyListBuilders []) Runtime.inOrder
      ⟨false⟩ singleBatch).events = [] ∧
    ¬ ((hookCalls (MakeDocuments (NewParallelProcessor emptyListBuilders []) Runtime.inOrder
      ⟨false⟩ singleBatch).events).filter (fun call => decide (call.1 = 0))).length = 1 := by
  refine ⟨fun _ hmsg => ⟨mockDocumentBuilder (fun _ => (Slice.mk [], none)),
    by rw [List.mem_singleton.1 hmsg]; rfl, rfl⟩, by decide, by decide⟩

end gomsgprocessor
